import Mathlib

/-!
# Mod loader core: `Loader::FolderInformation` (src/src/core/folder.cpp)

A shallow embedding of the folder tree of the mod loader and of its two
algorithms, `Scan` and `Update`, followed by the properties proved about them.

Conventions of the embedding

* A `std::map` is a list of key/value entries kept in ascending key order with
  unique keys (`StdMap.emplace` inserts only when the key is absent, as
  `std::map::emplace` does).  Keys are `std::string`s, ordered as byte strings.
* A `FolderInformation` owns its mods and its child folders; the `parent`
  back-pointer is a relation only and is not stored in the tree; a function
  that follows it (`IsFileIgnored`) receives the chain of ancestors.  The key of a
  child in `childs` is the child's `path` (`AddChild` constructs the child from
  the very string it uses as key), so `childs` is a list of folders.
* Calls into the opaque mod entity (`ExtinguishNecessaryFiles`,
  `InstallNecessaryFiles`) and recursive calls on child folders are recorded in
  a trace, in the order in which the code issues them.
* `std::sort` is any function with the contract of the C++ standard (`StdSort`:
  a rearrangement of the range that is sorted for the comparison); the
  properties are proved for every such function, and the worked examples are
  evaluated with the insertion sort.
* `loader.hpp` (the declarations of `Status`, `ModInformation`, `PriorityPred`,
  `MarkStatus`, `UpdateStatus`, `CollectInformation`, `SetUnchanged`,
  `refs_mapped`) lies outside the verified sources; those helpers are modelled
  from the specification and marked so.
-/

namespace Loader

/-! ## Data model -/

/-- Modelled from the spec: the `Status` enumeration of `loader.hpp`.  The spec
names `Unchanged`, `Updated` and `Removed`, and an "added" status with which a
newly created mod starts. -/
inductive Status where
  | Unchanged
  | Added
  | Updated
  | Removed
  deriving DecidableEq, Repr

/-- Modelled from the spec: the part of `ModInformation` (`loader.hpp`) that the
folder code reads: the folder name it was created from, its unique id, its
stable priority key and its status. -/
structure ModInformation where
  name : String
  id : Nat
  priority : Int
  status : Status
  deriving DecidableEq, Repr

/-- The policy members of `FolderInformation`:
`mods_priority`, `include_mods`, `exclude_files`, the two cached glob strings
and the flags `bIgnoreAll`, `bExcludeAll`, `bForceExclude`, `gotConfig`. -/
structure FolderPolicy where
  mods_priority : List (String × Int)
  include_mods : List String
  exclude_files : List String
  include_mods_glob : String
  exclude_files_glob : String
  bIgnoreAll : Bool
  bExcludeAll : Bool
  bForceExclude : Bool
  gotConfig : Bool
  deriving DecidableEq, Repr

/-- The class `Loader::FolderInformation`: `path`, `status`, the policy members,
the map `mods` (normalized name to mod) and the map `childs`. -/
inductive FolderInformation where
  | mk (path : String) (status : Status) (policy : FolderPolicy)
      (mods : List (String × ModInformation)) (childs : List FolderInformation)
  deriving Repr

namespace FolderInformation

/-- Member `path`. -/
def path : FolderInformation → String
  | .mk p _ _ _ _ => p

/-- Member `status`. -/
def status : FolderInformation → Status
  | .mk _ s _ _ _ => s

/-- The policy members. -/
def policy : FolderInformation → FolderPolicy
  | .mk _ _ c _ _ => c

/-- Member `mods`. -/
def mods : FolderInformation → List (String × ModInformation)
  | .mk _ _ _ m _ => m

/-- Member `childs`. -/
def childs : FolderInformation → List FolderInformation
  | .mk _ _ _ _ c => c

end FolderInformation

/-! ## `std::map` -/

/-- The order of `std::string` keys: lexicographic on the characters. -/
def keyLess (a b : String) : Bool := decide (a.data < b.data)

/-- `std::map::emplace`: inserts the entry at its place in key order when the
key is absent and leaves the map untouched when the key is present. -/
def StdMap.emplace {β : Type} (k : String) (v : β) : List (String × β) → List (String × β)
  | [] => [(k, v)]
  | e :: rest =>
    if keyLess k e.1 then (k, v) :: e :: rest
    else if k = e.1 then e :: rest
    else e :: StdMap.emplace k v rest

/-- `std::map::find`: the mapped value of the key, when present. -/
def StdMap.find {β : Type} (k : String) : List (String × β) → Option β
  | [] => none
  | e :: rest => if k = e.1 then some e.2 else StdMap.find k rest

/-- One step of the insertion sort: the element moves left past every element
that the comparison puts strictly after it. -/
def insertion_sort.insert {α : Type} (comp : α → α → Bool) (x : α) : List α → List α
  | [] => [x]
  | y :: ys => if comp y x then y :: insertion_sort.insert comp x ys else x :: y :: ys

/-- The insertion sort, which the standard libraries run on a short range. -/
def insertion_sort {α : Type} (comp : α → α → Bool) : List α → List α
  | [] => []
  | x :: xs => insertion_sort.insert comp x (insertion_sort comp xs)

/-! ## Helpers of `loader.hpp` -/

/-- Modelled from the spec: `PriorityPred<ModInformation>` (`loader.hpp`), the
comparison of `GetModsByPriority`: "ordered by ascending priority", that is
`a.priority < b.priority`. -/
def PriorityPred (a b : String × ModInformation) : Bool := decide (a.2.priority < b.2.priority)

/-- Modelled from the spec: `refs_mapped` (`loader.hpp`), the list of references
to the mapped values of a map, in the iteration order of the map.  A reference
is kept as the entry it points to (key and current value). -/
def refs_mapped (m : List (String × ModInformation)) : List (String × ModInformation) := m

/-- Modelled from the spec: `ModInformation::SetUnchanged` (`loader.hpp`),
"mark that mod `Unchanged`".  A mod whose status is `Removed` keeps that
status: a node "is destroyed only when a garbage-collection pass observes its
status is `Removed` after an `Update`", and in `Update` that pass
(`CollectInformation`, under the comment "Collect garbaged mods and childs")
comes after this call. -/
def ModInformation.SetUnchanged (m : ModInformation) : ModInformation :=
  if m.status = Status.Removed then m else { m with status := Status.Unchanged }

/-- Modelled from the spec: `FolderInformation::SetUnchanged` (`loader.hpp`),
"set this folder's status to `Unchanged`"; the result is the new status.  A
folder whose status is `Removed` keeps that status: the parent's
`CollectInformation(this->childs)` runs after the child's own `Update()` and
is to "drop ... every child folder whose status is `Removed`". -/
def FolderInformation.SetUnchanged (s : Status) : Status :=
  if s = Status.Removed then Status.Removed else Status.Unchanged

/-- Modelled from the spec: `CollectInformation` (`loader.hpp`) on the mods map,
"drop every mod ... whose status is `Removed`". -/
def CollectInformation (m : List (String × ModInformation)) : List (String × ModInformation) :=
  m.filter (fun e => decide (e.2.status ≠ Status.Removed))

/-- Modelled from the spec: `CollectInformation` (`loader.hpp`) on the childs
map, "drop ... every child folder whose status is `Removed`". -/
def CollectInformationChilds (c : List FolderInformation) : List FolderInformation :=
  c.filter (fun f => decide (f.status ≠ Status.Removed))

/-- Modelled from the spec: `MarkStatus` (`loader.hpp`), "every currently-known
mod under a node is pre-marked": each mapped value gets the given status. -/
def MarkStatus (m : List (String × ModInformation)) (status : Status) :
    List (String × ModInformation) :=
  m.map (fun e => (e.1, { e.2 with status := status }))

/-- Modelled from the spec: `UpdateStatus` (`loader.hpp`), the status of a folder
after its walk: `Removed` when the walk failed; otherwise `Updated` when some
direct mod is not `Unchanged`, and `Unchanged` when all are. -/
def UpdateStatus (m : List (String × ModInformation)) (fine : Bool) : Status :=
  if fine then
    if m.any (fun e => decide (e.2.status ≠ Status.Unchanged)) then Status.Updated
    else Status.Unchanged
  else Status.Removed

/-! ## External collaborators -/

/-- One entry handed by `FilesWalk` to its callback. -/
structure FileWalkInfo where
  filename : String
  is_dir : Bool
  deriving DecidableEq, Repr

/-- The four sections of a loaded `modloader::ini`, each as its key/value pairs
in iteration order. -/
structure IniFile where
  Config : List (String × String)
  Priority : List (String × String)
  ExcludeFiles : List (String × String)
  IncludeMods : List (String × String)
  deriving DecidableEq, Repr

/-- What the folder code consumes from outside: path normalization, the glob
matcher of the operating system, the string helpers, the constant
`default_priority`, the configuration file found in a directory, the directory
walk of a directory (the entries handed to the callback and the value
`FilesWalk` returns), and the status in which `ModInformation::Scan` leaves a
mod. -/
structure Host where
  NormalizePath : String → String
  PathMatchSpecA : String → String → Bool
  compare : String → String → Bool → Int
  to_bool : String → Bool
  strtol : String → Int
  default_priority : Int
  load_file : String → String → Option IniFile
  FilesWalk : String → List FileWalkInfo × Bool
  modScan : ModInformation → Status

/-- A call issued by `Scan`: loading the configuration of the folder at `path`,
walking the directory `path`, `Scan()` on the mod stored under `key`, or
`child.Scan()` on the child folder at `path`. -/
inductive ScanCall where
  | LoadConfigFromINI (path : String)
  | FilesWalk (path : String)
  | ModScan (key : String)
  | Scan (path : String)
  deriving DecidableEq, Repr

/-! ## Policy layer -/

/-- `std::set::emplace` on a set of strings kept in ascending order. -/
def StdSet.emplace (k : String) : List String → List String
  | [] => [k]
  | e :: rest =>
    if keyLess k e then k :: e :: rest
    else if k = e then e :: rest
    else e :: StdSet.emplace k rest

/-- `BuildGlobString`: every element of the list followed by `;`. -/
def BuildGlobString (list : List String) : String :=
  list.foldl (fun glob g => (glob ++ g).push ';') ""

/-- `MatchGlob`: an empty glob matches nothing, otherwise `PathMatchSpecA`
decides. -/
def MatchGlob (h : Host) (name glob : String) : Bool :=
  decide (glob ≠ "") && h.PathMatchSpecA name glob

namespace FolderInformation

/-- Replaces the policy members. -/
def withPolicy : FolderInformation → FolderPolicy → FolderInformation
  | .mk p s _ m c, pol => .mk p s pol m c

/-- Replaces the member `mods`. -/
def withMods : FolderInformation → List (String × ModInformation) → FolderInformation
  | .mk p s pol _ c, m => .mk p s pol m c

/-- Replaces the member `status`. -/
def withStatus : FolderInformation → Status → FolderInformation
  | .mk p _ pol m c, s => .mk p s pol m c

/-- `FolderInformation::RebuildExcludeFilesGlob`. -/
def RebuildExcludeFilesGlob (f : FolderInformation) : FolderInformation :=
  f.withPolicy { f.policy with exclude_files_glob := BuildGlobString f.policy.exclude_files }

/-- `FolderInformation::RebuildIncludeModsGlob`. -/
def RebuildIncludeModsGlob (f : FolderInformation) : FolderInformation :=
  f.withPolicy { f.policy with include_mods_glob := BuildGlobString f.policy.include_mods }

/-- `FolderInformation::IsIgnored`. -/
def IsIgnored (h : Host) (f : FolderInformation) (name : String) : Bool :=
  if f.policy.bExcludeAll || f.policy.bForceExclude then
    MatchGlob h name f.policy.include_mods_glob == false
  else
    match StdMap.find name f.policy.mods_priority with
    | some p => decide (p = 0)
    | none => false

/-- `FolderInformation::IsFileIgnored`.  The `parent` pointers are followed
along the chain of the ancestors of the folder, given with the parent first and
the root last; a root has the empty chain (`parent` is null). -/
def IsFileIgnored (h : Host) : FolderInformation → List FolderInformation → String → Bool
  | f, [], name =>
    if MatchGlob h name f.policy.exclude_files_glob then true else false
  | f, parent :: ancestors, name =>
    if MatchGlob h name f.policy.exclude_files_glob then true
    else IsFileIgnored h parent ancestors name

/-- `FolderInformation::SetPriority`. -/
def SetPriority (f : FolderInformation) (name : String) (priority : Int) : FolderInformation :=
  f.withPolicy { f.policy with mods_priority := StdMap.emplace name priority f.policy.mods_priority }

/-- `FolderInformation::GetPriority`. -/
def GetPriority (h : Host) (f : FolderInformation) (name : String) : Int :=
  match StdMap.find name f.policy.mods_priority with
  | none => h.default_priority
  | some p => p

/-- `FolderInformation::Include`. -/
def Include (f : FolderInformation) (name : String) : FolderInformation :=
  (f.withPolicy { f.policy with include_mods := StdSet.emplace name f.policy.include_mods }).RebuildIncludeModsGlob

/-- `FolderInformation::IgnoreFileGlob`. -/
def IgnoreFileGlob (f : FolderInformation) (glob : String) : FolderInformation :=
  (f.withPolicy { f.policy with exclude_files := StdSet.emplace glob f.policy.exclude_files }).RebuildExcludeFilesGlob

/-- `FolderInformation::SetIgnoreAll`. -/
def SetIgnoreAll (f : FolderInformation) (bSet : Bool) : FolderInformation :=
  f.withPolicy { f.policy with bIgnoreAll := bSet }

/-- `FolderInformation::SetExcludeAll`. -/
def SetExcludeAll (f : FolderInformation) (bSet : Bool) : FolderInformation :=
  f.withPolicy { f.policy with bExcludeAll := bSet }

/-- `FolderInformation::SetForceExclude`. -/
def SetForceExclude (f : FolderInformation) (bSet : Bool) : FolderInformation :=
  f.withPolicy { f.policy with bForceExclude := bSet }

/-- Modelled from the spec: the constructor `ModInformation(name, parent, id)`
(`loader.hpp`).  A newly created mod starts at the "added" status; its priority
key is what the owning folder has configured for its normalized name
(`SetPriority` "sets the priority for the next mods named name"). -/
def newMod (h : Host) (f : FolderInformation) (name : String) (id : Nat) : ModInformation :=
  { name := name, id := id, priority := f.GetPriority h (h.NormalizePath name),
    status := Status.Added }

/-- `FolderInformation::AddMod`: `loader.PickUniqueModId()` is evaluated (the
counter `nextId` advances) and the mod is emplaced under its normalized name.
Returns the folder, the counter and the key of the entry referred to. -/
def AddMod (h : Host) (f : FolderInformation) (nextId : Nat) (name : String) :
    FolderInformation × Nat × String :=
  (f.withMods (StdMap.emplace (h.NormalizePath name) (f.newMod h name nextId) f.mods),
    nextId + 1, h.NormalizePath name)

/-- The loop `ReadConfig` of `LoadConfigFromINI`. -/
def ReadConfig (h : Host) : List (String × String) → FolderInformation → FolderInformation
  | [], f => f
  | kv :: rest, f =>
    if h.compare kv.1 "IgnoreAllFiles" false = 0 then
      ReadConfig h rest (f.SetIgnoreAll (h.to_bool kv.2))
    else if h.compare kv.1 "ExcludeAllMods" false = 0 then
      ReadConfig h rest (f.SetExcludeAll (h.to_bool kv.2))
    else ReadConfig h rest f

/-- The loop `ReadPriorities` of `LoadConfigFromINI`. -/
def ReadPriorities (h : Host) : List (String × String) → FolderInformation → FolderInformation
  | [], f => f
  | kv :: rest, f => ReadPriorities h rest (f.SetPriority (h.NormalizePath kv.1) (h.strtol kv.2))

/-- The loop `ReadExcludeFiles` of `LoadConfigFromINI`. -/
def ReadExcludeFiles (h : Host) : List (String × String) → FolderInformation → FolderInformation
  | [], f => f
  | kv :: rest, f => ReadExcludeFiles h rest (f.IgnoreFileGlob (h.NormalizePath kv.1))

/-- The loop `ReadIncludeMods` of `LoadConfigFromINI`. -/
def ReadIncludeMods (h : Host) : List (String × String) → FolderInformation → FolderInformation
  | [], f => f
  | kv :: rest, f => ReadIncludeMods h rest (f.Include (h.NormalizePath kv.1))

/-- `FolderInformation::LoadConfigFromINI`; the file is looked up in the
folder's own directory, which is the current directory during `Scan`. -/
def LoadConfigFromINI (h : Host) (f : FolderInformation) (inifile : String) : FolderInformation :=
  match h.load_file f.path inifile with
  | some cfg =>
    ReadIncludeMods h cfg.IncludeMods
      (ReadExcludeFiles h cfg.ExcludeFiles
        (ReadPriorities h cfg.Priority (ReadConfig h cfg.Config f)))
  | none => f

end FolderInformation

/-! ## `GetModsByPriority` and `Update` -/

/-- `std::sort(list.begin(), list.end(), PriorityPred<ModInformation>())` on a
list of references, with what the C++ standard promises of it and no more: the
result is the range rearranged (`perm`), and no element of it is followed by
one that the comparison puts before it (`sorted`).  Nothing is promised on the
relative order of two elements that the comparison does not separate. -/
class StdSort where
  std_sort : List (String × ModInformation) → List (String × ModInformation)
  perm : ∀ l, (std_sort l).Perm l
  sorted : ∀ l, (std_sort l).Pairwise (fun a b => PriorityPred b a = false)

/-- The insertion sort is one `std::sort`: it meets the contract.  The worked
examples are evaluated with it. -/
instance insertionStdSort : StdSort where
  std_sort := insertion_sort PriorityPred
  perm := by
    have hins : ∀ (x : String × ModInformation) (l : List (String × ModInformation)),
        (insertion_sort.insert PriorityPred x l).Perm (x :: l) := by
      intro x l
      induction l with
      | nil => exact List.Perm.refl _
      | cons y ys ih =>
        unfold insertion_sort.insert
        split
        · exact ((List.Perm.cons y ih).trans (List.Perm.swap x y ys))
        · exact List.Perm.refl _
    intro l
    induction l with
    | nil => exact List.Perm.refl _
    | cons x xs ih =>
      exact (hins x (insertion_sort PriorityPred xs)).trans (List.Perm.cons x ih)
  sorted := by
    have hperm : ∀ (x : String × ModInformation) (l : List (String × ModInformation)),
        (insertion_sort.insert PriorityPred x l).Perm (x :: l) := by
      intro x l
      induction l with
      | nil => exact List.Perm.refl _
      | cons y ys ih =>
        unfold insertion_sort.insert
        split
        · exact ((List.Perm.cons y ih).trans (List.Perm.swap x y ys))
        · exact List.Perm.refl _
    have hins : ∀ (x : String × ModInformation) (l : List (String × ModInformation)),
        l.Pairwise (fun a b => PriorityPred b a = false) →
        (insertion_sort.insert PriorityPred x l).Pairwise
          (fun a b => PriorityPred b a = false) := by
      intro x l
      induction l with
      | nil => intro _; simp [insertion_sort.insert]
      | cons y ys ih =>
        intro hl
        have hy := List.pairwise_cons.mp hl
        unfold insertion_sort.insert
        split
        · rename_i hc
          refine List.pairwise_cons.mpr ⟨?_, ih hy.2⟩
          intro b hb
          rcases List.mem_cons.mp ((hperm x ys).mem_iff.mp hb) with hbx | hby
          · subst hbx
            simp only [PriorityPred, decide_eq_true_eq, decide_eq_false_iff_not, not_lt] at hc ⊢
            omega
          · exact hy.1 b hby
        · rename_i hc
          refine List.pairwise_cons.mpr ⟨?_, hl⟩
          intro b hb
          rcases List.mem_cons.mp hb with hby | hbys
          · subst hby
            simpa using hc
          · have h1 := hy.1 b hbys
            simp only [PriorityPred, decide_eq_true_eq, decide_eq_false_iff_not, not_lt,
              Bool.not_eq_true] at hc h1 ⊢
            omega
    intro l
    induction l with
    | nil => exact List.Pairwise.nil
    | cons x xs ih => exact hins x _ ih

/-- `FolderInformation::GetModsByPriority`: the references to my mods, sorted
with `PriorityPred`. -/
def FolderInformation.GetModsByPriority [StdSort] (f : FolderInformation) :
    List (String × ModInformation) :=
  StdSort.std_sort (refs_mapped f.mods)

/-- A call issued by `Update`: on a mod, or `child.second.Update()` on the
child folder at `path`. -/
inductive Call where
  | ExtinguishNecessaryFiles (m : ModInformation)
  | InstallNecessaryFiles (m : ModInformation)
  | Update (path : String)
  deriving DecidableEq, Repr

/-- The effect of `mod.get().SetUnchanged()` through the reference with key `k`:
the entry of the map under that key is marked. -/
def setUnchangedAt (k : String) (m : List (String × ModInformation)) :
    List (String × ModInformation) :=
  m.map (fun e => if e.1 = k then (e.1, e.2.SetUnchanged) else e)

/-- The first loop of `Update`: `ExtinguishNecessaryFiles` on each reference. -/
def Update.uninstallLoop (list : List (String × ModInformation)) : List Call :=
  list.map (fun r => Call.ExtinguishNecessaryFiles r.2)

/-- The second loop of `Update`: `InstallNecessaryFiles` then `SetUnchanged` on
each reference; returns the mods map and the calls issued. -/
def Update.installLoop :
    List (String × ModInformation) → List (String × ModInformation) →
      List (String × ModInformation) × List Call
  | [], m => (m, [])
  | r :: rest, m =>
    let next := Update.installLoop rest (setUnchangedAt r.1 m)
    (next.1, Call.InstallNecessaryFiles r.2 :: next.2)

mutual
/-- `FolderInformation::Update`: returns the folder after the call and the calls
issued, in order. -/
def FolderInformation.Update [StdSort] : FolderInformation → FolderInformation × List Call
  | .mk path status policy mods childs =>
    if status ≠ Status.Unchanged then
      let list := (FolderInformation.mk path status policy mods childs).GetModsByPriority
      let phase1 := Update.uninstallLoop list
      let phase2 := Update.installLoop list mods
      let sub := FolderInformation.UpdateChilds childs
      (.mk path (FolderInformation.SetUnchanged status) policy
          (CollectInformation phase2.1) (CollectInformationChilds sub.1),
        phase1 ++ phase2.2 ++ sub.2)
    else
      (.mk path status policy mods childs, [])
/-- The loop `for(auto& child : this->childs) child.second.Update();`. -/
def FolderInformation.UpdateChilds [StdSort] :
    List FolderInformation → List FolderInformation × List Call
  | [] => ([], [])
  | c :: rest =>
    let r := FolderInformation.Update c
    let rs := FolderInformation.UpdateChilds rest
    (r.1 :: rs.1, Call.Update c.path :: (r.2 ++ rs.2))
end

/-! ## `Scan` -/

/-- The folder after a step of `Scan`, the counter behind
`loader.PickUniqueModId()` and the calls issued so far. -/
structure ScanState where
  folder : FolderInformation
  nextId : Nat
  calls : List ScanCall

/-- The effect of `.Scan()` through the reference returned by `AddMod`: the
entry under the key gets the status in which `ModInformation::Scan` leaves it. -/
def scanModAt (h : Host) (k : String) (m : List (String × ModInformation)) :
    List (String × ModInformation) :=
  m.map (fun e => if e.1 = k then (e.1, { e.2 with status := h.modScan e.2 }) else e)

/-- The callback that `Scan` hands to `FilesWalk`, applied to one entry. -/
def Scan.visit (h : Host) (st : ScanState) (file : FileWalkInfo) : ScanState :=
  if file.is_dir then
    if st.folder.IsIgnored h (h.NormalizePath file.filename) then st
    else
      let added := st.folder.AddMod h st.nextId file.filename
      { folder := added.1.withMods (scanModAt h added.2.2 added.1.mods),
        nextId := added.2.1,
        calls := st.calls ++ [ScanCall.ModScan added.2.2] }
  else st

/-- The one-shot configuration load at the head of `Scan`. -/
def Scan.config (h : Host) (st : ScanState) : ScanState :=
  if st.folder.policy.gotConfig = false then
    { st with
      folder := (st.folder.withPolicy { st.folder.policy with gotConfig := true }).LoadConfigFromINI
        h "modloader.ini",
      calls := st.calls ++ [ScanCall.LoadConfigFromINI st.folder.path] }
  else st

/-- The directory walk of `Scan`; returns the state and the local `fine`. -/
def Scan.walk (h : Host) (st : ScanState) : ScanState × Bool :=
  if st.folder.policy.bIgnoreAll = false then
    ((h.FilesWalk st.folder.path).1.foldl (Scan.visit h)
        { st with calls := st.calls ++ [ScanCall.FilesWalk st.folder.path] },
      (h.FilesWalk st.folder.path).2)
  else (st, true)

/-- `Scan` up to and including `UpdateStatus(*this, this->mods, fine)`: the
configuration load, the mark of all current mods, the walk and the aggregation
of the folder's status. -/
def Scan.own (h : Host) (f : FolderInformation) (nextId : Nat) : ScanState :=
  let loaded := Scan.config h { folder := f, nextId := nextId, calls := [] }
  let marked := { loaded with
    folder := loaded.folder.withMods (MarkStatus loaded.folder.mods Status.Removed) }
  let walked := Scan.walk h marked
  { walked.1 with
    folder := walked.1.folder.withStatus (UpdateStatus walked.1.folder.mods walked.2) }

/-- The result of the loop over the childs in `Scan`: the childs, the status of
the scanning folder, the id counter and the calls issued. -/
structure ScanChildsResult where
  childs : List FolderInformation
  status : Status
  nextId : Nat
  calls : List ScanCall

mutual
/-- `FolderInformation::Scan`.  The steps before the loop over the childs do not
touch `childs`, so the loop runs over the childs the folder came with. -/
def FolderInformation.Scan (h : Host) : FolderInformation → Nat → ScanState
  | .mk path status policy mods childs, nextId =>
    let own := Scan.own h (.mk path status policy mods childs) nextId
    if own.folder.status ≠ Status.Removed then
      let sub := FolderInformation.ScanChilds h childs own.folder.status own.nextId
      { folder := .mk own.folder.path sub.status own.folder.policy own.folder.mods sub.childs,
        nextId := sub.nextId,
        calls := own.calls ++ sub.calls }
    else own
/-- The loop `for(auto& pair : this->childs)` of `Scan`, with the status of the
scanning folder threaded through. -/
def FolderInformation.ScanChilds (h : Host) :
    List FolderInformation → Status → Nat → ScanChildsResult
  | [], status, nextId => { childs := [], status := status, nextId := nextId, calls := [] }
  | c :: rest, status, nextId =>
    let r := FolderInformation.Scan h c nextId
    let status1 :=
      if status = Status.Unchanged ∧ r.folder.status ≠ Status.Unchanged then Status.Updated
      else status
    let rs := FolderInformation.ScanChilds h rest status1 r.nextId
    { childs := r.folder :: rs.childs, status := rs.status, nextId := rs.nextId,
      calls := ScanCall.Scan c.path :: (r.calls ++ rs.calls) }
end

/-! ## `Clear` and `GetAll` -/

/-- `FolderInformation::Clear`: empties `mods`, `childs`, `mods_priority`,
`include_mods` and `exclude_files`, then rebuilds the two globs. -/
def FolderInformation.Clear : FolderInformation → FolderInformation
  | .mk p s pol _ _ =>
    ((FolderInformation.mk p s
        { pol with mods_priority := [], include_mods := [], exclude_files := [] }
        [] []).RebuildExcludeFilesGlob).RebuildIncludeModsGlob

mutual
/-- `FolderInformation::GetAll`: the folder itself, then what `GetAll` of each
child returns, appended in the order of `childs`. -/
def FolderInformation.GetAll : FolderInformation → List FolderInformation
  | .mk p s pol m c => .mk p s pol m c :: FolderInformation.GetAllChilds c
/-- The loop `for(auto& pair : this->childs)` of `GetAll`. -/
def FolderInformation.GetAllChilds : List FolderInformation → List FolderInformation
  | [] => []
  | c :: rest => FolderInformation.GetAll c ++ FolderInformation.GetAllChilds rest
end

/-! ## Reference definitions of the policy layer -/

/-- The reference definition of `is_ignored`, after the spec: with `exclude_all`
or `force_exclude` set, a name is ignored unless it matches `include_compiled`;
otherwise a name is ignored only if `priority_overrides` maps it to exactly
`0`.  The matcher and the lookup in the priority map are arguments. -/
def is_ignored_spec (isMatch : String → String → Bool) (exclude_all force_exclude : Bool)
    (include_compiled : String) (priority_overrides : String → Option Int)
    (name : String) : Bool :=
  if exclude_all = true ∨ force_exclude = true then
    !(isMatch name include_compiled)
  else decide (priority_overrides name = some 0)

/-- The reference definition of `is_file_ignored`, after the spec: a name is
ignored when it matches the exclude-file pattern of the node itself or of one
of its ancestors.  The argument is the node followed by its ancestors. -/
def is_file_ignored_spec (isMatch : String → String → Bool) (chain : List FolderInformation)
    (name : String) : Bool :=
  chain.any (fun x => isMatch name x.policy.exclude_files_glob)

/-! ## Predicates on folders and trees -/

/-- The cached globs agree with the sets they are built from:
`include_mods_glob` is `BuildGlobString(include_mods)` and `exclude_files_glob`
is `BuildGlobString(exclude_files)`. -/
def CacheConsistent (f : FolderInformation) : Bool :=
  decide (f.policy.include_mods_glob = BuildGlobString f.policy.include_mods) &&
    decide (f.policy.exclude_files_glob = BuildGlobString f.policy.exclude_files)

mutual
/-- The number of folder nodes of the subtree of a folder. -/
def nodeCount : FolderInformation → Nat
  | .mk _ _ _ _ c => 1 + nodeCountChilds c
/-- The number of folder nodes of the subtrees of a list of folders. -/
def nodeCountChilds : List FolderInformation → Nat
  | [] => 0
  | c :: rest => nodeCount c + nodeCountChilds rest
end

/-- The folder `g` is a node of the subtree of `f`: it is `f` itself or a node of
the subtree of a child of `f`. -/
inductive InSubtree : FolderInformation → FolderInformation → Prop where
  | self (f : FolderInformation) : InSubtree f f
  | child (g c f : FolderInformation) : c ∈ f.childs → InSubtree g c → InSubtree g f

/-- The condition of a well-marked tree at one node with status `s`: a child
that is not `Unchanged` has a parent that is not `Unchanged`, and a folder with
a direct mod that is not `Unchanged` is itself not `Unchanged`. -/
def markedAt (s : Status) (m : List (String × ModInformation)) (c : List FolderInformation) :
    Bool :=
  c.all (fun x => decide (x.status ≠ Status.Unchanged → s ≠ Status.Unchanged)) &&
    m.all (fun e => decide (e.2.status ≠ Status.Unchanged → s ≠ Status.Unchanged))

mutual
/-- A well-marked tree: the condition `markedAt` holds at every node. -/
def WellMarked : FolderInformation → Bool
  | .mk _ s _ m c => markedAt s m c && WellMarkedChilds c
/-- Every tree of the list is well-marked. -/
def WellMarkedChilds : List FolderInformation → Bool
  | [] => true
  | c :: rest => WellMarked c && WellMarkedChilds rest
end

mutual
/-- Nothing needs work in the subtree: the folder, its direct mods and all its
descendants with their mods have the status `Unchanged`. -/
def AllUnchanged : FolderInformation → Bool
  | .mk _ s _ m c =>
    decide (s = Status.Unchanged) && m.all (fun e => decide (e.2.status = Status.Unchanged)) &&
      AllUnchangedChilds c
/-- Nothing needs work in any of the subtrees of the list. -/
def AllUnchangedChilds : List FolderInformation → Bool
  | [] => true
  | c :: rest => AllUnchanged c && AllUnchangedChilds rest
end

/-- Whether a call of `Scan` is the load of a configuration file. -/
def ScanCall.isLoadConfig : ScanCall → Bool
  | ScanCall.LoadConfigFromINI _ => true
  | _ => false

/-- Successive cycles on one folder node, each given by the host at the time
of its `Scan()` and by whether `Update()` is called after that `Scan()`.  The
result lists, cycle by cycle, how many times the node itself called
`LoadConfigFromINI` during its `Scan()`. -/
def configLoadsOver [StdSort] : List (Host × Bool) → FolderInformation → Nat → List Nat
  | [], _, _ => []
  | cycle :: rest, f, n =>
    ((Scan.own cycle.1 f n).calls.filter ScanCall.isLoadConfig).length ::
      configLoadsOver rest
        (if cycle.2 then (f.Scan cycle.1 n).folder.Update.1 else (f.Scan cycle.1 n).folder)
        (f.Scan cycle.1 n).nextId

/-! ## Example data -/

/-- The folder of the example: mods `alpha` (priority 10) and `beta`
(priority 5), both changed since the last update. -/
def exampleFolder : FolderInformation :=
  .mk "modloader" Status.Updated
    { mods_priority := [], include_mods := [], exclude_files := [], include_mods_glob := "",
      exclude_files_glob := "", bIgnoreAll := false, bExcludeAll := false,
      bForceExclude := false, gotConfig := true }
    [("alpha", { name := "alpha", id := 0, priority := 10, status := Status.Updated }),
     ("beta", { name := "beta", id := 1, priority := 5, status := Status.Added })]
    []

/-- The entry of the mod `alpha` in the example folder. -/
def exampleAlpha : String × ModInformation :=
  ("alpha", { name := "alpha", id := 0, priority := 10, status := Status.Updated })

/-- The entry of the mod `beta` in the example folder. -/
def exampleBeta : String × ModInformation :=
  ("beta", { name := "beta", id := 1, priority := 5, status := Status.Added })

/-- A host with the identity as path normalization, default priority 50, no
configuration file, a directory `modloader` in which the walk reports the
sub-directories `b` and `a`, in this order, and a mod scan that leaves every
mod as it finds it. -/
def exampleHost : Host where
  NormalizePath := fun s => s
  PathMatchSpecA := fun _ _ => false
  compare := fun a b _ => if a = b then 0 else 1
  to_bool := fun s => decide (s = "1")
  strtol := fun _ => 0
  default_priority := 50
  load_file := fun _ _ => none
  FilesWalk := fun _ => ([{ filename := "b", is_dir := true }, { filename := "a", is_dir := true }], true)
  modScan := fun m => m.status

/-- A folder `modloader` that tracks nothing yet. -/
def emptyFolder : FolderInformation :=
  .mk "modloader" Status.Unchanged
    { mods_priority := [], include_mods := [], exclude_files := [], include_mods_glob := "",
      exclude_files_glob := "", bIgnoreAll := false, bExcludeAll := false,
      bForceExclude := false, gotConfig := false }
    [] []

/-- A host in which the directory `modloader` is walked without finding any
sub-directory and the walk of every other directory fails; no folder has a
configuration file. -/
def goneHost : Host where
  NormalizePath := fun s => s
  PathMatchSpecA := fun _ _ => false
  compare := fun a b _ => if a = b then 0 else 1
  to_bool := fun s => decide (s = "1")
  strtol := fun _ => 0
  default_priority := 50
  load_file := fun _ _ => none
  FilesWalk := fun p => if p = "modloader" then ([], true) else ([], false)
  modScan := fun m => m.status

/-- A folder `modloader`, up to date, that tracks the mod `gone` and has the
child folder `modloader/sub`. -/
def trackedFolder : FolderInformation :=
  .mk "modloader" Status.Unchanged
    { mods_priority := [], include_mods := [], exclude_files := [], include_mods_glob := "",
      exclude_files_glob := "", bIgnoreAll := false, bExcludeAll := false,
      bForceExclude := false, gotConfig := true }
    [("gone", { name := "gone", id := 0, priority := 50, status := Status.Unchanged })]
    [.mk "modloader/sub" Status.Unchanged
      { mods_priority := [], include_mods := [], exclude_files := [], include_mods_glob := "",
        exclude_files_glob := "", bIgnoreAll := false, bExcludeAll := false,
        bForceExclude := false, gotConfig := true }
      [] []]

/-- A host in which the walk of every directory succeeds and reports the
sub-directories `gone` and `fresh` and the plain file `readme.txt`; the
configuration file of every folder gives the mod `gone` the priority 0. -/
def ignoringHost : Host where
  NormalizePath := fun s => s
  PathMatchSpecA := fun _ _ => false
  compare := fun a b _ => if a = b then 0 else 1
  to_bool := fun s => decide (s = "1")
  strtol := fun s => if s = "0" then 0 else 50
  default_priority := 50
  load_file := fun _ _ =>
    some { Config := [], Priority := [("gone", "0")], ExcludeFiles := [], IncludeMods := [] }
  FilesWalk := fun _ =>
    ([{ filename := "gone", is_dir := true }, { filename := "readme.txt", is_dir := false },
      { filename := "fresh", is_dir := true }], true)
  modScan := fun m => m.status

/-- A folder `modloader` that tracks the mod `gone` and has not read its
configuration file yet. -/
def ignoringFolder : FolderInformation :=
  .mk "modloader" Status.Unchanged
    { mods_priority := [], include_mods := [], exclude_files := [], include_mods_glob := "",
      exclude_files_glob := "", bIgnoreAll := false, bExcludeAll := false,
      bForceExclude := false, gotConfig := false }
    [("gone", { name := "gone", id := 0, priority := 50, status := Status.Unchanged })]
    []

/-- A host in which the walk of every directory fails without reporting any
entry; no folder has a configuration file. -/
def failingHost : Host where
  NormalizePath := fun s => s
  PathMatchSpecA := fun _ _ => false
  compare := fun a b _ => if a = b then 0 else 1
  to_bool := fun s => decide (s = "1")
  strtol := fun _ => 0
  default_priority := 50
  load_file := fun _ _ => none
  FilesWalk := fun _ => ([], false)
  modScan := fun m => m.status

/-- A folder `modloader`, up to date, without mods, with the child folders
`modloader/sub` and `modloader/sub2`. -/
def plainFolder : FolderInformation :=
  .mk "modloader" Status.Unchanged
    { mods_priority := [], include_mods := [], exclude_files := [], include_mods_glob := "",
      exclude_files_glob := "", bIgnoreAll := false, bExcludeAll := false,
      bForceExclude := false, gotConfig := true }
    []
    [.mk "modloader/sub" Status.Unchanged
      { mods_priority := [], include_mods := [], exclude_files := [], include_mods_glob := "",
        exclude_files_glob := "", bIgnoreAll := false, bExcludeAll := false,
        bForceExclude := false, gotConfig := true }
      [] [],
     .mk "modloader/sub2" Status.Unchanged
      { mods_priority := [], include_mods := [], exclude_files := [], include_mods_glob := "",
        exclude_files_glob := "", bIgnoreAll := false, bExcludeAll := false,
        bForceExclude := false, gotConfig := true }
      [] []]

/-- A folder `modloader` whose configuration is loaded and gives the mod `gone`
the priority 0, with `exclude_all` and `force_exclude` unset; it tracks the mod
`gone`. -/
def zeroPriorityFolder : FolderInformation :=
  .mk "modloader" Status.Unchanged
    { mods_priority := [("gone", 0)], include_mods := [], exclude_files := [],
      include_mods_glob := "", exclude_files_glob := "", bIgnoreAll := false,
      bExcludeAll := false, bForceExclude := false, gotConfig := true }
    [("gone", { name := "gone", id := 0, priority := 50, status := Status.Unchanged })]
    []

/-- A host whose glob matcher accepts a name exactly when the pattern is that
name followed by `;`.  The configuration file of every folder sets
`ExcludeAllMods=1` and lists `mymod` under `IncludeMods`; the walk of every
directory reports the sub-directories `mymod` and `othermod`. -/
def includeHost : Host where
  NormalizePath := fun s => s
  PathMatchSpecA := fun name glob => decide (glob = name ++ ";")
  compare := fun a b _ => if a = b then 0 else 1
  to_bool := fun s => decide (s = "1")
  strtol := fun _ => 50
  default_priority := 50
  load_file := fun _ _ =>
    some { Config := [("ExcludeAllMods", "1")], Priority := [], ExcludeFiles := [],
           IncludeMods := [("mymod", "")] }
  FilesWalk := fun _ =>
    ([{ filename := "mymod", is_dir := true }, { filename := "othermod", is_dir := true }], true)
  modScan := fun m => m.status

/-- A folder `modloader` whose priority map gives the name `a` the value 5. -/
def priorityFolder : FolderInformation :=
  .mk "modloader" Status.Unchanged
    { mods_priority := [("a", 5)], include_mods := [], exclude_files := [],
      include_mods_glob := "", exclude_files_glob := "", bIgnoreAll := false,
      bExcludeAll := false, bForceExclude := false, gotConfig := true }
    [] []

/-- A root folder that excludes the file `readme.txt`. -/
def excludingRoot : FolderInformation :=
  .mk "modloader" Status.Unchanged
    { mods_priority := [], include_mods := [], exclude_files := ["readme.txt"],
      include_mods_glob := "", exclude_files_glob := "readme.txt;", bIgnoreAll := false,
      bExcludeAll := false, bForceExclude := false, gotConfig := true }
    [] []

/-- A host whose path normalization maps the spelling `MyMod` to `mymod` and
leaves every other name as it is. -/
def caseHost : Host where
  NormalizePath := fun s => if s = "MyMod" then "mymod" else s
  PathMatchSpecA := fun _ _ => false
  compare := fun a b _ => if a = b then 0 else 1
  to_bool := fun s => decide (s = "1")
  strtol := fun _ => 0
  default_priority := 50
  load_file := fun _ _ => none
  FilesWalk := fun _ => ([], true)
  modScan := fun m => m.status

/-- The severity order of the statuses, `Unchanged < Updated < Removed`; the
"added" status of a new mod counts as `Updated`, as the aggregation treats
it. -/
def Status.severity : Status → Nat
  | Status.Unchanged => 0
  | Status.Added => 1
  | Status.Updated => 1
  | Status.Removed => 2

end Loader

/-!
# `datalib::data_slice` (src/deps/datalib/include/datalib/data_slice.hpp)

A `data_slice<Types...>` stores one line of data: a tuple of values, a bitset
`used` telling which elements of the tuple hold a scanned value, and the counter
`used_count`.

Conventions of the embedding

* The values of the tuple are integers and `std::equal_to` is equality.
* What `data_info<Type>` and `type_complexity_sort` say about the types of the
  slice (which types are ignored, which one is `delimopt`, which have a
  precomparison, the indices sorted by complexity) is a parameter, `slice_types`.
* `foreach_in_tuple` and `foreach_type` call their functor on each index in turn
  and stop after the first call that returns false (`return false; // stop
  iteration`).
* A line is given by what the successive extractions from its stream yield.
-/

namespace datalib

/-- What the type-level helpers say about `Types...`: the number of types, which
are ignored by `data_info`, which is `delimopt`, which have a precomparison,
and `sorted_type_indices`. -/
structure slice_types where
  tuple_size : Nat
  ignore : Nat → Bool
  is_delimopt : Nat → Bool
  has_precompare : Nat → Bool
  sorted_type_indices : List Nat

/-- The members of `data_slice`: `tuple`, `used` and `used_count`. -/
structure data_slice where
  tuple : List Int
  used : List Bool
  used_count : Nat
  deriving DecidableEq, Repr

/-- An input stream over a line: the results of the extractions still to come
(`none` for an extraction that fails) and the state of the stream. -/
structure linestream where
  pending : List (Option Int)
  good : Bool
  deriving DecidableEq, Repr

/-- The extraction `stream >> value`: on a good stream the next result is
consumed, and a failing one leaves the stream in a failed state. -/
def linestream.extract (s : linestream) : linestream × Option Int :=
  if s.good then
    match s.pending with
    | some v :: rest => ({ pending := rest, good := true }, some v)
    | none :: rest => ({ pending := rest, good := false }, none)
    | [] => ({ pending := [], good := false }, none)
  else (s, none)

/-- The iteration of `foreach_in_tuple` and `foreach_type` over a sequence of
indices: the functor returns the new state and whether to go on. -/
def foreach_index {σ : Type} (f : Nat → σ → σ × Bool) : List Nat → σ → σ
  | [], s => s
  | N :: rest, s => if (f N s).2 then foreach_index f rest (f N s).1 else (f N s).1

/-- The default constructor: a value-initialized tuple, no bit set, the
counter 0. -/
def data_slice.construct (t : slice_types) : data_slice :=
  { tuple := List.replicate t.tuple_size 0, used := List.replicate t.tuple_size false,
    used_count := 0 }

/-- The copy constructor; returns the new object and the source. -/
def data_slice.copy_construct (rhs : data_slice) : data_slice × data_slice :=
  ({ tuple := rhs.tuple, used := rhs.used, used_count := rhs.used_count }, rhs)

/-- The move constructor; returns the new object and the source.  Moving a
`std::bitset` copies it, so the source keeps its bits; its counter is set
to 0. -/
def data_slice.move_construct (rhs : data_slice) : data_slice × data_slice :=
  ({ tuple := rhs.tuple, used := rhs.used, used_count := rhs.used_count },
    { rhs with used_count := 0 })

/-- The copy assignment `*this = rhs`; returns `*this` and the source. -/
def data_slice.copy_assign (_self rhs : data_slice) : data_slice × data_slice :=
  ({ tuple := rhs.tuple, used := rhs.used, used_count := rhs.used_count }, rhs)

/-- The move assignment `*this = std::move(rhs)`; returns `*this` and the
source. -/
def data_slice.move_assign (_self rhs : data_slice) : data_slice × data_slice :=
  ({ tuple := rhs.tuple, used := rhs.used, used_count := rhs.used_count },
    { rhs with used_count := 0 })

/-- `data_slice::count`. -/
def data_slice.count (x : data_slice) : Nat := x.used_count

/-- `do_count_until<Until>`: the types that are not ignored are counted until
the type `Until`, an ignored one, is met. -/
def do_count_until (t : slice_types) (isUntil : Nat → Bool) : Nat :=
  foreach_index
    (fun N (counter : Nat) =>
      if !t.ignore N then (counter + 1, true)
      else if isUntil N then (counter, false)
      else (counter, true))
    (List.range t.tuple_size) 0

/-- `data_slice::min_count`. -/
def min_count (t : slice_types) : Nat := do_count_until t t.is_delimopt

/-- `data_slice::max_count`. -/
def max_count (t : slice_types) : Nat := do_count_until t (fun _ => false)

/-- The functor `scany_to_tuple`: the slice it works on, its stream and its
counter. -/
structure scany_to_tuple where
  self : data_slice
  stream : linestream
  counter : Nat
  deriving DecidableEq, Repr

/-- `scany_to_tuple<checker>::operator()` on the tuple index `N`, with
`perform_scan`: an ignored type is skipped; otherwise a value is extracted and,
on success, counted and, unless checking, stored with its bit set.  The result
says whether the stream is still good. -/
def scany_to_tuple.call (t : slice_types) (checker : Bool) (N : Nat) (sc : scany_to_tuple) :
    scany_to_tuple × Bool :=
  if t.ignore N then (sc, sc.stream.good)
  else
    match sc.stream.extract with
    | (stream, some v) =>
      ({ self :=
            if checker then sc.self
            else { sc.self with tuple := sc.self.tuple.set N v, used := sc.self.used.set N true },
          stream := stream, counter := sc.counter + 1 },
        stream.good)
    | (stream, none) => ({ sc with stream := stream }, stream.good)

/-- `data_slice::scan_to_tuple`; returns the slice and the number of types
scanned. -/
def data_slice.scan_to_tuple (t : slice_types) (self : data_slice) (line : List (Option Int)) :
    data_slice × Nat :=
  let scanner := foreach_index (scany_to_tuple.call t false) (List.range t.tuple_size)
    { self := { self with used := self.used.map (fun _ => false), used_count := 0 },
      stream := { pending := line, good := true }, counter := 0 }
  ({ scanner.self with used_count := scanner.counter }, scanner.counter)

/-- `data_slice::check_on_tuple`; returns the slice and the number of types
that can be scanned. -/
def data_slice.check_on_tuple (t : slice_types) (self : data_slice) (line : List (Option Int)) :
    data_slice × Nat :=
  let checker := foreach_index (scany_to_tuple.call t true) (List.range t.tuple_size)
    { self := self, stream := { pending := line, good := true }, counter := 0 }
  (checker.self, checker.counter)

/-- `data_slice::set`; returns the slice and the result. -/
def data_slice.set (t : slice_types) (self : data_slice) (line : List (Option Int)) :
    data_slice × Bool :=
  ((self.scan_to_tuple t line).1, decide ((self.scan_to_tuple t line).2 ≥ min_count t))

/-- `data_slice::check`; returns the slice and the result. -/
def data_slice.check (t : slice_types) (self : data_slice) (line : List (Option Int)) :
    data_slice × Bool :=
  ((self.check_on_tuple t line).1, decide ((self.check_on_tuple t line).2 ≥ min_count t))

/-- The value `(std::numeric_limits<int>::max)()`. -/
def INT_MAX : Nat := 2147483647

/-- The members `result`, `counter` and `max_counter` of `data_comparer`. -/
structure data_comparer where
  result : Bool
  counter : Nat
  max_counter : Nat
  deriving DecidableEq, Repr

/-- The constructor of `data_comparer<IsPreComparer>`. -/
def data_comparer.construct (IsPreComparer : Bool) (lhs rhs : data_slice) : data_comparer :=
  { result := if IsPreComparer then true else false,
    counter := 0,
    max_counter := if lhs.count = rhs.count then lhs.count else INT_MAX }

/-- `data_comparer<IsPreComparer>::compare<N>`; returns the comparer and whether
the iteration goes on. -/
def data_comparer.compare (t : slice_types) (IsPreComparer : Bool) (lhs rhs : data_slice)
    (N : Nat) (c : data_comparer) : data_comparer × Bool :=
  if !IsPreComparer || t.has_precompare N then
    if lhs.used.getD N false = rhs.used.getD N false then
      if lhs.used.getD N false then
        if lhs.tuple.getD N 0 = rhs.tuple.getD N 0 then
          if c.counter + 1 ≥ c.max_counter then
            ({ c with counter := c.counter + 1, result := true }, false)
          else ({ c with counter := c.counter + 1 }, true)
        else ({ c with result := false }, false)
      else (c, true)
    else ({ c with result := false }, false)
  else (c, true)

/-- `data_slice::compare_data`. -/
def compare_data (t : slice_types) (lhs rhs : data_slice) : Bool :=
  (foreach_index (data_comparer.compare t false lhs rhs) t.sorted_type_indices
    (data_comparer.construct false lhs rhs)).result

/-- `data_slice::precompare_data`. -/
def precompare_data (t : slice_types) (lhs rhs : data_slice) : Bool :=
  (foreach_index (data_comparer.compare t true lhs rhs) t.sorted_type_indices
    (data_comparer.construct true lhs rhs)).result

/-- `data_slice::equal_to`. -/
def data_slice.equal_to (t : slice_types) (self rhs : data_slice) : Bool :=
  if self.count = rhs.count then
    if precompare_data t self rhs then compare_data t self rhs
    else false
  else false

/-- `data_slice::operator==`. -/
def data_slice.operator_eq (t : slice_types) (self rhs : data_slice) : Bool :=
  self.equal_to t rhs

/-- The invariant of the counter: `used_count` is the number of bits set in
`used`. -/
def data_slice.counter_ok (x : data_slice) : Bool :=
  decide (x.used_count = x.used.count true)

/-- A slice of two integers, none optional, the second with a
precomparison. -/
def pairTypes : slice_types :=
  { tuple_size := 2, ignore := fun _ => false, is_delimopt := fun _ => false,
    has_precompare := fun N => decide (N = 1), sorted_type_indices := [0, 1] }

end datalib

namespace Loader

/-! ## Lemmas on `std::sort` and the loops of `Update` -/

theorem installLoop_calls (list m : List (String × ModInformation)) :
    (Update.installLoop list m).2 = list.map (fun r => Call.InstallNecessaryFiles r.2) := by
  induction list generalizing m with
  | nil => rfl
  | cons r rest ih => simp [Update.installLoop, ih]

theorem SetUnchanged_of_removed (m : ModInformation) (h : m.status = Status.Removed) :
    m.SetUnchanged = m := by
  unfold ModInformation.SetUnchanged
  rw [if_pos h]

theorem SetUnchanged_of_not_removed (m : ModInformation) (h : m.status ≠ Status.Removed) :
    m.SetUnchanged = { m with status := Status.Unchanged } := by
  unfold ModInformation.SetUnchanged
  rw [if_neg h]

theorem SetUnchanged_SetUnchanged (m : ModInformation) :
    m.SetUnchanged.SetUnchanged = m.SetUnchanged := by
  by_cases h : m.status = Status.Removed
  · rw [SetUnchanged_of_removed m h, SetUnchanged_of_removed m h]
  · rw [SetUnchanged_of_not_removed m h]
    exact SetUnchanged_of_not_removed _ (by simp)

theorem installLoop_mods (list m : List (String × ModInformation)) :
    (Update.installLoop list m).1 =
      m.map (fun e => if e.1 ∈ list.map Prod.fst then (e.1, e.2.SetUnchanged) else e) := by
  induction list generalizing m with
  | nil => simp [Update.installLoop]
  | cons r rest ih =>
    simp only [Update.installLoop, ih, setUnchangedAt, List.map_map, List.map_cons, List.mem_cons]
    apply List.map_congr_left
    intro e _
    by_cases h1 : e.1 = r.1
    · rw [if_pos (Or.inl h1)]
      by_cases h2 : e.1 ∈ List.map Prod.fst rest
      · simp only [Function.comp_apply, if_pos h1, if_pos h2]
        rw [SetUnchanged_SetUnchanged]
      · simp only [Function.comp_apply, if_pos h1, if_neg h2]
    · by_cases h2 : e.1 ∈ List.map Prod.fst rest
      · rw [if_pos (Or.inr h2)]
        simp only [Function.comp_apply, if_neg h1, if_pos h2]
      · rw [if_neg (not_or.mpr ⟨h1, h2⟩)]
        simp only [Function.comp_apply, if_neg h1, if_neg h2]

theorem Update_of_changed [StdSort] (f : FolderInformation) (hs : f.status ≠ Status.Unchanged) :
    f.Update =
      (.mk f.path (FolderInformation.SetUnchanged f.status) f.policy
          (CollectInformation (Update.installLoop f.GetModsByPriority f.mods).1)
          (CollectInformationChilds (FolderInformation.UpdateChilds f.childs).1),
        Update.uninstallLoop f.GetModsByPriority
          ++ (Update.installLoop f.GetModsByPriority f.mods).2
          ++ (FolderInformation.UpdateChilds f.childs).2) := by
  cases f with
  | mk p s pol m c =>
    have hs1 : s ≠ Status.Unchanged := hs
    rw [FolderInformation.Update]
    simp [hs1, FolderInformation.path, FolderInformation.status, FolderInformation.policy,
      FolderInformation.mods, FolderInformation.childs]

theorem Update_of_unchanged [StdSort] (f : FolderInformation) (hs : f.status = Status.Unchanged) :
    f.Update = (f, []) := by
  cases f with
  | mk p s pol m c =>
    have hs1 : s = Status.Unchanged := hs
    rw [FolderInformation.Update]
    simp [hs1]

theorem GetModsByPriority_perm [StdSort] (f : FolderInformation) :
    f.GetModsByPriority.Perm f.mods :=
  StdSort.perm f.mods

theorem GetModsByPriority_length [StdSort] (f : FolderInformation) :
    f.GetModsByPriority.length = f.mods.length :=
  (GetModsByPriority_perm f).length_eq

theorem Update_calls [StdSort] (f : FolderInformation) (hs : f.status ≠ Status.Unchanged) :
    f.Update.2 =
      f.GetModsByPriority.map (fun r => Call.ExtinguishNecessaryFiles r.2)
        ++ f.GetModsByPriority.map (fun r => Call.InstallNecessaryFiles r.2)
        ++ (FolderInformation.UpdateChilds f.childs).2 := by
  rw [Update_of_changed f hs, installLoop_calls]
  rfl

theorem Update_calls_phase1 [StdSort] (f : FolderInformation) (hs : f.status ≠ Status.Unchanged)
    (i : Nat) (hi : i < f.mods.length) :
    f.Update.2[i]? =
      (f.GetModsByPriority[i]?).map (fun r => Call.ExtinguishNecessaryFiles r.2) := by
  rw [Update_calls f hs, List.append_assoc,
    List.getElem?_append_left (by rw [List.length_map, GetModsByPriority_length]; exact hi),
    List.getElem?_map]

theorem Update_calls_phase2 [StdSort] (f : FolderInformation) (hs : f.status ≠ Status.Unchanged)
    (i : Nat) (hi : i < f.mods.length) :
    f.Update.2[f.mods.length + i]? =
      (f.GetModsByPriority[i]?).map (fun r => Call.InstallNecessaryFiles r.2) := by
  rw [Update_calls f hs, List.append_assoc,
    List.getElem?_append_right (by rw [List.length_map, GetModsByPriority_length]; omega),
    List.getElem?_append_left (by
      rw [List.length_map, List.length_map, GetModsByPriority_length]; omega),
    List.length_map, GetModsByPriority_length, Nat.add_sub_cancel_left, List.getElem?_map]

/-! ## The two-phase protocol of `Update` -/

/-- C1. Two-phase separation.  For a folder whose status is not `Unchanged`,
with `L = GetModsByPriority()`: `L` is a permutation of the folder's direct mods
(each listed once); the calls issued by `Update()` are exactly the uninstalls of
`L` in order, then the installs of `L` in order, then the calls of the updates
of the child folders; every direct mod `A` has an uninstall call and every
direct mod `B` an install call with the uninstall strictly first; and among the
calls on the direct mods every uninstall stands strictly before every
install. -/
theorem Update_two_phase [StdSort] (f : FolderInformation) (hs : f.status ≠ Status.Unchanged) :
    f.GetModsByPriority.Perm f.mods ∧
    f.Update.2 =
      f.GetModsByPriority.map (fun r => Call.ExtinguishNecessaryFiles r.2)
        ++ f.GetModsByPriority.map (fun r => Call.InstallNecessaryFiles r.2)
        ++ (FolderInformation.UpdateChilds f.childs).2 ∧
    (∀ A ∈ f.mods, ∀ B ∈ f.mods, ∃ i j, i < j ∧ j < 2 * f.mods.length ∧
      f.Update.2[i]? = some (Call.ExtinguishNecessaryFiles A.2) ∧
      f.Update.2[j]? = some (Call.InstallNecessaryFiles B.2)) ∧
    (∀ i j A B, i < 2 * f.mods.length → j < 2 * f.mods.length →
      f.Update.2[i]? = some (Call.ExtinguishNecessaryFiles A) →
      f.Update.2[j]? = some (Call.InstallNecessaryFiles B) → i < j) := by
  refine ⟨GetModsByPriority_perm f, Update_calls f hs, ?_, ?_⟩
  · intro A hA B hB
    obtain ⟨i, hi⟩ := List.mem_iff_getElem?.mp ((GetModsByPriority_perm f).mem_iff.mpr hA)
    obtain ⟨j, hj⟩ := List.mem_iff_getElem?.mp ((GetModsByPriority_perm f).mem_iff.mpr hB)
    have hil : i < f.mods.length := by
      obtain ⟨h, _⟩ := List.getElem?_eq_some.mp hi
      rw [GetModsByPriority_length] at h; exact h
    have hjl : j < f.mods.length := by
      obtain ⟨h, _⟩ := List.getElem?_eq_some.mp hj
      rw [GetModsByPriority_length] at h; exact h
    refine ⟨i, f.mods.length + j, by omega, by omega, ?_, ?_⟩
    · rw [Update_calls_phase1 f hs i hil, hi]; rfl
    · rw [Update_calls_phase2 f hs j hjl, hj]; rfl
  · intro i j A B hi hj hA hB
    by_contra hij
    have hjlt : j < f.mods.length ∨ f.mods.length ≤ i := by omega
    rcases hjlt with hj1 | hi1
    · rw [Update_calls_phase1 f hs j hj1] at hB
      cases hget : f.GetModsByPriority[j]? with
      | none => rw [hget] at hB; simp at hB
      | some r => rw [hget] at hB; simp at hB
    · obtain ⟨k, hk⟩ : ∃ k, i = f.mods.length + k := ⟨i - f.mods.length, by omega⟩
      rw [hk, Update_calls_phase2 f hs k (by omega)] at hA
      cases hget : f.GetModsByPriority[k]? with
      | none => rw [hget] at hA; simp at hA
      | some r => rw [hget] at hA; simp at hA

/-- C1, at the example folder: its status is `Updated`, and `Update()` issues
the two uninstalls before the two installs. -/
theorem Update_two_phase_witness :
    exampleFolder.status ≠ Status.Unchanged ∧
    (exampleFolder.GetModsByPriority.Perm exampleFolder.mods ∧
    exampleFolder.Update.2 =
      exampleFolder.GetModsByPriority.map (fun r => Call.ExtinguishNecessaryFiles r.2)
        ++ exampleFolder.GetModsByPriority.map (fun r => Call.InstallNecessaryFiles r.2)
        ++ (FolderInformation.UpdateChilds exampleFolder.childs).2 ∧
    (∀ A ∈ exampleFolder.mods, ∀ B ∈ exampleFolder.mods, ∃ i j, i < j ∧
      j < 2 * exampleFolder.mods.length ∧
      exampleFolder.Update.2[i]? = some (Call.ExtinguishNecessaryFiles A.2) ∧
      exampleFolder.Update.2[j]? = some (Call.InstallNecessaryFiles B.2)) ∧
    (∀ i j A B, i < 2 * exampleFolder.mods.length → j < 2 * exampleFolder.mods.length →
      exampleFolder.Update.2[i]? = some (Call.ExtinguishNecessaryFiles A) →
      exampleFolder.Update.2[j]? = some (Call.InstallNecessaryFiles B) → i < j)) :=
  ⟨by decide, Update_two_phase exampleFolder (by decide)⟩

/-! ## The order of `GetModsByPriority` -/

theorem GetModsByPriority_sorted [StdSort] (f : FolderInformation) :
    f.GetModsByPriority.Pairwise (fun a b => a.2.priority ≤ b.2.priority) := by
  refine List.Pairwise.imp ?_ (StdSort.sorted f.mods)
  intro a b hab
  have hnot : ¬ b.2.priority < a.2.priority := by simpa [PriorityPred] using hab
  exact not_lt.mp hnot

theorem GetModsByPriority_index_lt [StdSort] (f : FolderInformation) (i j : Nat)
    (a b : String × ModInformation)
    (hi : f.GetModsByPriority[i]? = some a) (hj : f.GetModsByPriority[j]? = some b)
    (hlt : a.2.priority < b.2.priority) : i < j := by
  obtain ⟨hil, hia⟩ := List.getElem?_eq_some.mp hi
  obtain ⟨hjl, hjb⟩ := List.getElem?_eq_some.mp hj
  by_contra hij
  rcases Nat.lt_or_ge j i with hji | hji
  · have hle := List.pairwise_iff_getElem.mp (GetModsByPriority_sorted f) j i hjl hil hji
    rw [hia, hjb] at hle
    omega
  · have hij2 : i = j := by omega
    subst hij2
    rw [hia] at hjb
    rw [hjb] at hlt
    exact lt_irrefl _ hlt

/-- C2. Ascending-priority order.  For two direct mods `a` and `b` of a folder
with `a.priority < b.priority`: wherever they stand in `GetModsByPriority()`,
`a` stands before `b`; and they do stand in it, at positions `i < j`, so that
when the folder is updated the install of `a` is the call number
`mods.size() + i` and the install of the higher-priority `b` the later call
number `mods.size() + j`.  The list is computed from the mods map alone, so the
order of discovery plays no part. -/
theorem GetModsByPriority_ascending [StdSort] (f : FolderInformation) (a b : String × ModInformation)
    (ha : a ∈ f.mods) (hb : b ∈ f.mods) (hlt : a.2.priority < b.2.priority) :
    (∀ i j : Nat,
      f.GetModsByPriority[i]? = some a → f.GetModsByPriority[j]? = some b → i < j) ∧
    ∃ i j : Nat, i < j ∧ f.GetModsByPriority[i]? = some a ∧ f.GetModsByPriority[j]? = some b ∧
      (f.status ≠ Status.Unchanged →
        f.Update.2[f.mods.length + i]? = some (Call.InstallNecessaryFiles a.2) ∧
        f.Update.2[f.mods.length + j]? = some (Call.InstallNecessaryFiles b.2)) := by
  refine ⟨fun i j hi hj => GetModsByPriority_index_lt f i j a b hi hj hlt, ?_⟩
  obtain ⟨i, hi⟩ := List.mem_iff_getElem?.mp ((GetModsByPriority_perm f).mem_iff.mpr ha)
  obtain ⟨j, hj⟩ := List.mem_iff_getElem?.mp ((GetModsByPriority_perm f).mem_iff.mpr hb)
  have hil : i < f.mods.length := by
    obtain ⟨h, _⟩ := List.getElem?_eq_some.mp hi
    rw [GetModsByPriority_length] at h; exact h
  have hjl : j < f.mods.length := by
    obtain ⟨h, _⟩ := List.getElem?_eq_some.mp hj
    rw [GetModsByPriority_length] at h; exact h
  refine ⟨i, j, GetModsByPriority_index_lt f i j a b hi hj hlt, hi, hj, ?_⟩
  intro hs
  constructor
  · rw [Update_calls_phase2 f hs i hil, hi]; rfl
  · rw [Update_calls_phase2 f hs j hjl, hj]; rfl

/-- C2, at the example folder `{alpha: 10, beta: 5}`: the calls of `Update()`
are `[beta.uninstall, alpha.uninstall, beta.install, alpha.install]`, and
`beta`, `alpha` are direct mods with priorities 5 and 10. -/
theorem GetModsByPriority_ascending_witness :
    exampleFolder.Update.2 =
      [Call.ExtinguishNecessaryFiles exampleBeta.2, Call.ExtinguishNecessaryFiles exampleAlpha.2,
        Call.InstallNecessaryFiles exampleBeta.2, Call.InstallNecessaryFiles exampleAlpha.2] ∧
    exampleBeta ∈ exampleFolder.mods ∧ exampleAlpha ∈ exampleFolder.mods ∧
    exampleBeta.2.priority < exampleAlpha.2.priority ∧
    ((∀ i j : Nat,
      exampleFolder.GetModsByPriority[i]? = some exampleBeta →
      exampleFolder.GetModsByPriority[j]? = some exampleAlpha → i < j) ∧
    ∃ i j : Nat, i < j ∧ exampleFolder.GetModsByPriority[i]? = some exampleBeta ∧
      exampleFolder.GetModsByPriority[j]? = some exampleAlpha ∧
      (exampleFolder.status ≠ Status.Unchanged →
        exampleFolder.Update.2[exampleFolder.mods.length + i]? =
          some (Call.InstallNecessaryFiles exampleBeta.2) ∧
        exampleFolder.Update.2[exampleFolder.mods.length + j]? =
          some (Call.InstallNecessaryFiles exampleAlpha.2))) :=
  ⟨by decide, by decide, by decide, by decide,
    GetModsByPriority_ascending exampleFolder exampleBeta exampleAlpha
      (by decide) (by decide) (by decide)⟩

/-! ## The state after `Update` -/

theorem installLoop_GetModsByPriority [StdSort] (f : FolderInformation) :
    (Update.installLoop f.GetModsByPriority f.mods).1 =
      f.mods.map (fun e => (e.1, e.2.SetUnchanged)) := by
  rw [installLoop_mods]
  apply List.map_congr_left
  intro e he
  have hmem : e.1 ∈ List.map Prod.fst f.GetModsByPriority :=
    List.mem_map.mpr ⟨e, (GetModsByPriority_perm f).mem_iff.mpr he, rfl⟩
  rw [if_pos hmem]

theorem CollectInformation_SetUnchanged (m : List (String × ModInformation)) :
    CollectInformation (m.map (fun e => (e.1, e.2.SetUnchanged))) =
      (m.filter (fun e => decide (e.2.status ≠ Status.Removed))).map
        (fun e => (e.1, { e.2 with status := Status.Unchanged })) := by
  induction m with
  | nil => rfl
  | cons x xs ih =>
    unfold CollectInformation at ih ⊢
    by_cases hx : x.2.status = Status.Removed
    · rw [List.map_cons, SetUnchanged_of_removed x.2 hx,
        List.filter_cons_of_neg (by simp [hx]), List.filter_cons_of_neg (by simp [hx]), ih]
    · rw [List.map_cons, SetUnchanged_of_not_removed x.2 hx,
        List.filter_cons_of_pos (by simp), List.filter_cons_of_pos (by simp [hx]), ih,
        List.map_cons]

theorem Update_mods [StdSort] (f : FolderInformation) (hs : f.status ≠ Status.Unchanged) :
    f.Update.1.mods =
      (f.mods.filter (fun e => decide (e.2.status ≠ Status.Removed))).map
        (fun e => (e.1, { e.2 with status := Status.Unchanged })) := by
  rw [Update_of_changed f hs, installLoop_GetModsByPriority]
  exact CollectInformation_SetUnchanged f.mods

theorem Update_status [StdSort] (f : FolderInformation) :
    f.Update.1.status =
      if f.status = Status.Removed then Status.Removed else Status.Unchanged := by
  by_cases hs : f.status = Status.Unchanged
  · rw [Update_of_unchanged f hs, hs]
    rfl
  · rw [Update_of_changed f hs]
    rfl

theorem Update_status_of_not_removed [StdSort] (f : FolderInformation)
    (hs : f.status ≠ Status.Removed) : f.Update.1.status = Status.Unchanged := by
  rw [Update_status, if_neg hs]

theorem Update_status_of_removed [StdSort] (f : FolderInformation)
    (hs : f.status = Status.Removed) : f.Update.1.status = Status.Removed := by
  rw [Update_status, if_pos hs]

theorem Update_policy [StdSort] (f : FolderInformation) : f.Update.1.policy = f.policy := by
  by_cases hs : f.status = Status.Unchanged
  · rw [Update_of_unchanged f hs]
  · rw [Update_of_changed f hs]; rfl

theorem Update_path [StdSort] (f : FolderInformation) : f.Update.1.path = f.path := by
  by_cases hs : f.status = Status.Unchanged
  · rw [Update_of_unchanged f hs]
  · rw [Update_of_changed f hs]; rfl

theorem UpdateChilds_fst [StdSort] (c : List FolderInformation) :
    (FolderInformation.UpdateChilds c).1 = c.map (fun x => x.Update.1) := by
  induction c with
  | nil => simp [FolderInformation.UpdateChilds]
  | cons x xs ih => simp [FolderInformation.UpdateChilds, ih]

theorem UpdateChilds_length [StdSort] (c : List FolderInformation) :
    (FolderInformation.UpdateChilds c).1.length = c.length := by
  rw [UpdateChilds_fst, List.length_map]

theorem UpdateChilds_calls_mem [StdSort] (c : List FolderInformation) :
    ∀ x ∈ c, Call.Update x.path ∈ (FolderInformation.UpdateChilds c).2 := by
  induction c with
  | nil => intro x hx; cases hx
  | cons y ys ih =>
    intro x hx
    simp only [FolderInformation.UpdateChilds]
    rcases List.mem_cons.mp hx with hxy | hxys
    · rw [hxy]; exact List.mem_cons_self _ _
    · exact List.mem_cons_of_mem _ (List.mem_append_right _ (ih x hxys))

theorem Update_childs [StdSort] (f : FolderInformation) (hs : f.status ≠ Status.Unchanged) :
    f.Update.1.childs =
      (f.childs.filter (fun c => decide (c.status ≠ Status.Removed))).map
        (fun c => c.Update.1) := by
  rw [Update_of_changed f hs]
  show CollectInformationChilds _ = _
  rw [UpdateChilds_fst]
  unfold CollectInformationChilds
  induction f.childs with
  | nil => rfl
  | cons x xs ih =>
    by_cases hx : x.status = Status.Removed
    · rw [List.map_cons,
        List.filter_cons_of_neg (by simp [Update_status_of_removed x hx]),
        List.filter_cons_of_neg (by simp [hx]), ih]
    · rw [List.map_cons,
        List.filter_cons_of_pos (by simp [Update_status_of_not_removed x hx]),
        List.filter_cons_of_pos (by simp [hx]), ih, List.map_cons]

/-- C4. Mod garbage collection on update.  For a folder whose status is not
`Unchanged` and whose mods map has distinct keys: the mods map after `Update()`
is the map before it without the entries whose status was `Removed`, each
remaining entry marked `Unchanged`.  So the key of a mod that was `Removed` is
no longer a key of the map (the mark of the second loop does not rescue it from
the sweep), and a mod that was not `Removed` is still present under its key,
now `Unchanged`. -/
theorem Update_collects_removed_mods [StdSort] (f : FolderInformation)
    (hs : f.status ≠ Status.Unchanged) (hk : (f.mods.map Prod.fst).Nodup) :
    f.Update.1.mods =
      (f.mods.filter (fun e => decide (e.2.status ≠ Status.Removed))).map
        (fun e => (e.1, { e.2 with status := Status.Unchanged })) ∧
    (∀ e ∈ f.mods, e.2.status = Status.Removed → e.1 ∉ f.Update.1.mods.map Prod.fst) ∧
    (∀ e ∈ f.mods, e.2.status ≠ Status.Removed →
      (e.1, { e.2 with status := Status.Unchanged }) ∈ f.Update.1.mods) := by
  refine ⟨Update_mods f hs, ?_, ?_⟩
  · intro e he hrem hmem
    rw [Update_mods f hs, List.map_map] at hmem
    obtain ⟨e0, he0, hkey⟩ := List.mem_map.mp hmem
    have he0m : e0 ∈ f.mods := (List.mem_filter.mp he0).1
    have he0s : e0.2.status ≠ Status.Removed := by simpa using (List.mem_filter.mp he0).2
    have hkey1 : e0.1 = e.1 := hkey
    have heq : e0 = e := by
      have hinj := List.inj_on_of_nodup_map hk
      exact hinj he0m he hkey1
    rw [heq] at he0s
    exact he0s hrem
  · intro e he hne
    rw [Update_mods f hs]
    exact List.mem_map.mpr ⟨e, List.mem_filter.mpr ⟨he, by simp [hne]⟩, rfl⟩

/-- C4, at the folder `modloader` after a scan that did not find its mod `gone`
any more: the folder is `Updated`, the mod is present and `Removed`, and after
`Update()` the mods map is empty. -/
theorem Update_collects_removed_mods_witness :
    (trackedFolder.Scan goneHost 1).folder.status ≠ Status.Unchanged ∧
    ((trackedFolder.Scan goneHost 1).folder.mods.map Prod.fst).Nodup ∧
    (trackedFolder.Scan goneHost 1).folder.mods =
      [("gone", { name := "gone", id := 0, priority := 50, status := Status.Removed })] ∧
    (trackedFolder.Scan goneHost 1).folder.Update.1.mods = [] ∧
    ((trackedFolder.Scan goneHost 1).folder.Update.1.mods =
      ((trackedFolder.Scan goneHost 1).folder.mods.filter
          (fun e => decide (e.2.status ≠ Status.Removed))).map
        (fun e => (e.1, { e.2 with status := Status.Unchanged })) ∧
    (∀ e ∈ (trackedFolder.Scan goneHost 1).folder.mods, e.2.status = Status.Removed →
      e.1 ∉ (trackedFolder.Scan goneHost 1).folder.Update.1.mods.map Prod.fst) ∧
    (∀ e ∈ (trackedFolder.Scan goneHost 1).folder.mods, e.2.status ≠ Status.Removed →
      (e.1, { e.2 with status := Status.Unchanged }) ∈
        (trackedFolder.Scan goneHost 1).folder.Update.1.mods)) :=
  ⟨by decide, by decide, by decide, by decide,
    Update_collects_removed_mods (trackedFolder.Scan goneHost 1).folder (by decide) (by decide)⟩

/-- C6. Child-folder garbage collection.  For a folder whose status is not
`Unchanged` and whose childs map has distinct keys: the childs after `Update()`
are the childs that were not `Removed`, each after its own `Update()`.  For a
child that was `Removed` when the parent's `Update()` was called: its own
`Update()` is called (before the sweep) and leaves it `Removed`, and its path is
no longer a key of the parent's childs map. -/
theorem Update_collects_removed_childs [StdSort] (f : FolderInformation)
    (hs : f.status ≠ Status.Unchanged)
    (hk : (f.childs.map FolderInformation.path).Nodup) :
    f.Update.1.childs =
      (f.childs.filter (fun c => decide (c.status ≠ Status.Removed))).map
        (fun c => c.Update.1) ∧
    ∀ c ∈ f.childs, c.status = Status.Removed →
      Call.Update c.path ∈ f.Update.2 ∧ c.Update.1.status = Status.Removed ∧
      c.path ∉ f.Update.1.childs.map FolderInformation.path := by
  refine ⟨Update_childs f hs, ?_⟩
  intro c hc hrem
  refine ⟨?_, Update_status_of_removed c hrem, ?_⟩
  · rw [Update_calls f hs]
    exact List.mem_append_right _ (UpdateChilds_calls_mem f.childs c hc)
  · intro hmem
    rw [Update_childs f hs, List.map_map] at hmem
    obtain ⟨c0, hc0, hkey⟩ := List.mem_map.mp hmem
    have hc0m : c0 ∈ f.childs := (List.mem_filter.mp hc0).1
    have hc0s : c0.status ≠ Status.Removed := by simpa using (List.mem_filter.mp hc0).2
    have hkey1 : c0.path = c.path := by
      rw [← hkey]
      exact (Update_path c0).symm
    have heq : c0 = c := List.inj_on_of_nodup_map hk hc0m hc hkey1
    rw [heq] at hc0s
    exact hc0s hrem

/-- C6, at the folder `modloader` after a scan in which the walk of its child
`modloader/sub` failed: the folder is `Updated`, the child is `Removed`, and
after the parent's `Update()` the childs map is empty. -/
theorem Update_collects_removed_childs_witness :
    (trackedFolder.Scan goneHost 1).folder.status ≠ Status.Unchanged ∧
    ((trackedFolder.Scan goneHost 1).folder.childs.map FolderInformation.path).Nodup ∧
    (trackedFolder.Scan goneHost 1).folder.childs.map (fun c => (c.path, c.status)) =
      [("modloader/sub", Status.Removed)] ∧
    (trackedFolder.Scan goneHost 1).folder.Update.1.childs.map FolderInformation.path = [] ∧
    ((trackedFolder.Scan goneHost 1).folder.Update.1.childs =
      ((trackedFolder.Scan goneHost 1).folder.childs.filter
          (fun c => decide (c.status ≠ Status.Removed))).map (fun c => c.Update.1) ∧
    ∀ c ∈ (trackedFolder.Scan goneHost 1).folder.childs, c.status = Status.Removed →
      Call.Update c.path ∈ (trackedFolder.Scan goneHost 1).folder.Update.2 ∧
      c.Update.1.status = Status.Removed ∧
      c.path ∉
        (trackedFolder.Scan goneHost 1).folder.Update.1.childs.map FolderInformation.path) :=
  ⟨by decide, by decide, by decide, by decide,
    Update_collects_removed_childs (trackedFolder.Scan goneHost 1).folder (by decide)
      (by decide)⟩

/-! ## `Update` twice, and the state it leaves -/

/-- C8. `Update` on an `Unchanged` folder: no call is issued (no uninstall, no
install, no `Update()` on a child) and the folder, with its mods, its childs and
every other member, is returned as it was. -/
theorem Update_unchanged_noop [StdSort] (f : FolderInformation) (hs : f.status = Status.Unchanged) :
    f.Update.2 = [] ∧ f.Update.1 = f := by
  rw [Update_of_unchanged f hs]
  exact ⟨rfl, rfl⟩

/-- C8, at the folder `modloader` that is up to date, tracks one mod and has
one child folder. -/
theorem Update_unchanged_noop_witness :
    trackedFolder.status = Status.Unchanged ∧
    (trackedFolder.Update.2 = [] ∧ trackedFolder.Update.1 = trackedFolder) :=
  ⟨by decide, Update_unchanged_noop trackedFolder (by decide)⟩

@[simp]
theorem withPolicy_policy (f : FolderInformation) (pol : FolderPolicy) :
    (f.withPolicy pol).policy = pol := by
  cases f; rfl

@[simp]
theorem withPolicy_mods (f : FolderInformation) (pol : FolderPolicy) :
    (f.withPolicy pol).mods = f.mods := by
  cases f; rfl

@[simp]
theorem withPolicy_path (f : FolderInformation) (pol : FolderPolicy) :
    (f.withPolicy pol).path = f.path := by
  cases f; rfl

@[simp]
theorem withPolicy_status (f : FolderInformation) (pol : FolderPolicy) :
    (f.withPolicy pol).status = f.status := by
  cases f; rfl

@[simp]
theorem withPolicy_childs (f : FolderInformation) (pol : FolderPolicy) :
    (f.withPolicy pol).childs = f.childs := by
  cases f; rfl

@[simp]
theorem withPolicy_withPolicy (f : FolderInformation) (p1 p2 : FolderPolicy) :
    (f.withPolicy p1).withPolicy p2 = f.withPolicy p2 := by
  cases f; rfl

@[simp]
theorem withMods_policy (f : FolderInformation) (m : List (String × ModInformation)) :
    (f.withMods m).policy = f.policy := by
  cases f; rfl

@[simp]
theorem withMods_mods (f : FolderInformation) (m : List (String × ModInformation)) :
    (f.withMods m).mods = m := by
  cases f; rfl

@[simp]
theorem withMods_path (f : FolderInformation) (m : List (String × ModInformation)) :
    (f.withMods m).path = f.path := by
  cases f; rfl

@[simp]
theorem withMods_status (f : FolderInformation) (m : List (String × ModInformation)) :
    (f.withMods m).status = f.status := by
  cases f; rfl

@[simp]
theorem withMods_childs (f : FolderInformation) (m : List (String × ModInformation)) :
    (f.withMods m).childs = f.childs := by
  cases f; rfl

@[simp]
theorem withStatus_policy (f : FolderInformation) (st : Status) :
    (f.withStatus st).policy = f.policy := by
  cases f; rfl

@[simp]
theorem withStatus_mods (f : FolderInformation) (st : Status) :
    (f.withStatus st).mods = f.mods := by
  cases f; rfl

@[simp]
theorem withStatus_path (f : FolderInformation) (st : Status) :
    (f.withStatus st).path = f.path := by
  cases f; rfl

@[simp]
theorem withStatus_status (f : FolderInformation) (st : Status) :
    (f.withStatus st).status = st := by
  cases f; rfl

@[simp]
theorem withStatus_childs (f : FolderInformation) (st : Status) :
    (f.withStatus st).childs = f.childs := by
  cases f; rfl

theorem withPolicy_self (f : FolderInformation) : f.withPolicy f.policy = f := by
  cases f; rfl

theorem ReadConfig_eq (h : Host) (kv : List (String × String)) (f : FolderInformation) :
    ∃ pol, FolderInformation.ReadConfig h kv f = f.withPolicy pol := by
  induction kv generalizing f with
  | nil => exact ⟨f.policy, (withPolicy_self f).symm⟩
  | cons x xs ih =>
    unfold FolderInformation.ReadConfig
    split
    · obtain ⟨pol, hp⟩ := ih (f.SetIgnoreAll (h.to_bool x.2))
      exact ⟨pol, by rw [hp]; simp [FolderInformation.SetIgnoreAll]⟩
    · split
      · obtain ⟨pol, hp⟩ := ih (f.SetExcludeAll (h.to_bool x.2))
        exact ⟨pol, by rw [hp]; simp [FolderInformation.SetExcludeAll]⟩
      · exact ih f

theorem ReadPriorities_eq (h : Host) (kv : List (String × String)) (f : FolderInformation) :
    ∃ pol, FolderInformation.ReadPriorities h kv f = f.withPolicy pol := by
  induction kv generalizing f with
  | nil => exact ⟨f.policy, (withPolicy_self f).symm⟩
  | cons x xs ih =>
    unfold FolderInformation.ReadPriorities
    obtain ⟨pol, hp⟩ := ih (f.SetPriority (h.NormalizePath x.1) (h.strtol x.2))
    exact ⟨pol, by rw [hp]; simp [FolderInformation.SetPriority]⟩

theorem ReadExcludeFiles_eq (h : Host) (kv : List (String × String)) (f : FolderInformation) :
    ∃ pol, FolderInformation.ReadExcludeFiles h kv f = f.withPolicy pol := by
  induction kv generalizing f with
  | nil => exact ⟨f.policy, (withPolicy_self f).symm⟩
  | cons x xs ih =>
    unfold FolderInformation.ReadExcludeFiles
    obtain ⟨pol, hp⟩ := ih (f.IgnoreFileGlob (h.NormalizePath x.1))
    exact ⟨pol, by
      rw [hp]
      simp [FolderInformation.IgnoreFileGlob, FolderInformation.RebuildExcludeFilesGlob]⟩

theorem ReadIncludeMods_eq (h : Host) (kv : List (String × String)) (f : FolderInformation) :
    ∃ pol, FolderInformation.ReadIncludeMods h kv f = f.withPolicy pol := by
  induction kv generalizing f with
  | nil => exact ⟨f.policy, (withPolicy_self f).symm⟩
  | cons x xs ih =>
    unfold FolderInformation.ReadIncludeMods
    obtain ⟨pol, hp⟩ := ih (f.Include (h.NormalizePath x.1))
    exact ⟨pol, by
      rw [hp]
      simp [FolderInformation.Include, FolderInformation.RebuildIncludeModsGlob]⟩

theorem LoadConfigFromINI_eq (h : Host) (f : FolderInformation) (inifile : String) :
    ∃ pol, f.LoadConfigFromINI h inifile = f.withPolicy pol := by
  unfold FolderInformation.LoadConfigFromINI
  split
  · rename_i cfg _
    obtain ⟨p1, h1⟩ := ReadConfig_eq h cfg.Config f
    obtain ⟨p2, h2⟩ := ReadPriorities_eq h cfg.Priority (f.withPolicy p1)
    obtain ⟨p3, h3⟩ := ReadExcludeFiles_eq h cfg.ExcludeFiles (f.withPolicy p2)
    obtain ⟨p4, h4⟩ := ReadIncludeMods_eq h cfg.IncludeMods (f.withPolicy p3)
    refine ⟨p4, ?_⟩
    rw [h1, h2, withPolicy_withPolicy, h3, withPolicy_withPolicy, h4, withPolicy_withPolicy]
  · exact ⟨f.policy, (withPolicy_self f).symm⟩

theorem Scan_config_folder (h : Host) (st : ScanState) :
    ∃ pol, (Scan.config h st).folder = st.folder.withPolicy pol := by
  unfold Scan.config
  split
  · obtain ⟨pol, hp⟩ := LoadConfigFromINI_eq h
      (st.folder.withPolicy { st.folder.policy with gotConfig := true }) "modloader.ini"
    exact ⟨pol, by simp [hp]⟩
  · exact ⟨st.folder.policy, (withPolicy_self st.folder).symm⟩

theorem IsIgnored_congr (h : Host) (f g : FolderInformation) (hp : f.policy = g.policy)
    (name : String) : f.IsIgnored h name = g.IsIgnored h name := by
  unfold FolderInformation.IsIgnored
  rw [hp]

theorem Scan_visit_policy (h : Host) (st : ScanState) (file : FileWalkInfo) :
    (Scan.visit h st file).folder.policy = st.folder.policy := by
  unfold Scan.visit
  split
  · split
    · rfl
    · simp [FolderInformation.AddMod]
  · rfl

theorem Scan_visit_path (h : Host) (st : ScanState) (file : FileWalkInfo) :
    (Scan.visit h st file).folder.path = st.folder.path := by
  unfold Scan.visit
  split
  · split
    · rfl
    · simp [FolderInformation.AddMod]
  · rfl

theorem StdMap_emplace_mem {β : Type} (k : String) (v : β) (m : List (String × β))
    (e : String × β) (he : e ∈ m) : e ∈ StdMap.emplace k v m := by
  induction m with
  | nil => exact absurd he (List.not_mem_nil e)
  | cons x xs ih =>
    unfold StdMap.emplace
    split
    · exact List.mem_cons_of_mem _ he
    · split
      · exact he
      · rcases List.mem_cons.mp he with hx | hxs
        · rw [hx]; exact List.mem_cons_self _ _
        · exact List.mem_cons_of_mem _ (ih hxs)

theorem scanModAt_mem_of_ne (h : Host) (key : String) (m : List (String × ModInformation))
    (e : String × ModInformation) (he : e ∈ m) (hne : e.1 ≠ key) : e ∈ scanModAt h key m := by
  unfold scanModAt
  exact List.mem_map.mpr ⟨e, he, by rw [if_neg hne]⟩

theorem Scan_visit_mem (h : Host) (e : String × ModInformation) (st : ScanState)
    (file : FileWalkInfo) (he : e ∈ st.folder.mods)
    (hfile : file.is_dir = true → h.NormalizePath file.filename = e.1 →
      st.folder.IsIgnored h e.1 = true) :
    e ∈ (Scan.visit h st file).folder.mods := by
  unfold Scan.visit
  by_cases hd : file.is_dir = true
  · rw [if_pos hd]
    by_cases hi : st.folder.IsIgnored h (h.NormalizePath file.filename) = true
    · rw [if_pos hi]; exact he
    · rw [if_neg hi]
      have hne : e.1 ≠ h.NormalizePath file.filename := by
        intro heq
        apply hi
        rw [← heq]
        exact hfile hd heq.symm
      simp only [FolderInformation.AddMod, withMods_mods]
      exact scanModAt_mem_of_ne h _ _ e (StdMap_emplace_mem _ _ _ e he) hne
  · rw [if_neg hd]; exact he

theorem Scan_visit_fold_mem (h : Host) (e : String × ModInformation) (files : List FileWalkInfo)
    (st : ScanState) (he : e ∈ st.folder.mods)
    (hfiles : ∀ file ∈ files, file.is_dir = true → h.NormalizePath file.filename = e.1 →
      st.folder.IsIgnored h e.1 = true) :
    e ∈ (files.foldl (Scan.visit h) st).folder.mods := by
  induction files generalizing st with
  | nil => exact he
  | cons x xs ih =>
    rw [List.foldl_cons]
    apply ih
    · exact Scan_visit_mem h e st x he (hfiles x (List.mem_cons_self _ _))
    · intro file hf hd hn
      rw [IsIgnored_congr h _ st.folder (Scan_visit_policy h st x)]
      exact hfiles file (List.mem_cons_of_mem _ hf) hd hn

theorem Scan_folder_mods (h : Host) (f : FolderInformation) (n : Nat) :
    (f.Scan h n).folder.mods = (Scan.own h f n).folder.mods := by
  cases f with
  | mk p st pol m c =>
    rw [FolderInformation.Scan]
    split
    · rfl
    · rfl

theorem MarkStatus_mem (m : List (String × ModInformation)) (st : Status)
    (e : String × ModInformation) (he : e ∈ m) :
    (e.1, { e.2 with status := st }) ∈ MarkStatus m st :=
  List.mem_map.mpr ⟨e, he, rfl⟩

/-! ## The mark phase of `Scan` -/

/-- C5. Mark phase of scan.  Let the mod `m` be tracked under the key `k` before
`Scan()`, and let the walk of that `Scan()` not reach it: either `bIgnoreAll`
is set once the configuration is loaded, or every sub-directory that the walk
reports under the normalized name `k` is ignored by the folder's policy (in
particular when no such sub-directory is reported).  Then after `Scan()` the
mods map still holds `m` under `k`, with status `Removed`. -/
theorem Scan_marks_removed (h : Host) (f : FolderInformation) (n : Nat) (k : String)
    (m : ModInformation) (hm : (k, m) ∈ f.mods)
    (hnot : (Scan.config h { folder := f, nextId := n, calls := [] }).folder.policy.bIgnoreAll
        = true ∨
      ∀ file ∈ (h.FilesWalk f.path).1, file.is_dir = true → h.NormalizePath file.filename = k →
        (Scan.config h { folder := f, nextId := n, calls := [] }).folder.IsIgnored h k = true) :
    (k, { m with status := Status.Removed }) ∈ (f.Scan h n).folder.mods := by
  rw [Scan_folder_mods]
  obtain ⟨pol, hpol⟩ := Scan_config_folder h { folder := f, nextId := n, calls := [] }
  have hmods : (Scan.config h { folder := f, nextId := n, calls := [] }).folder.mods = f.mods := by
    rw [hpol]; simp
  have hpath : (Scan.config h { folder := f, nextId := n, calls := [] }).folder.path = f.path := by
    rw [hpol]; simp
  have hmark : (k, { m with status := Status.Removed }) ∈ MarkStatus f.mods Status.Removed :=
    MarkStatus_mem f.mods Status.Removed (k, m) hm
  simp only [Scan.own, withStatus_mods]
  unfold Scan.walk
  simp only [withMods_policy, withMods_path, hmods, hpath]
  by_cases hig :
      (Scan.config h { folder := f, nextId := n, calls := [] }).folder.policy.bIgnoreAll = false
  · rw [if_pos hig]
    apply Scan_visit_fold_mem
    · simpa using hmark
    · intro file hf hd hn
      rcases hnot with hall | hwalk
      · rw [hall] at hig; exact absurd hig (by decide)
      · rw [IsIgnored_congr h _ (Scan.config h { folder := f, nextId := n, calls := [] }).folder
          (by simp)]
        exact hwalk file hf hd hn
  · rw [if_neg hig]
    simpa using hmark

/-- C5, at the folder `modloader` that tracks the mod `gone` and now gives it
the priority 0: the walk reports the sub-directories `gone` and `fresh`, the
first of which is ignored. -/
theorem Scan_marks_removed_witness :
    (("gone", (⟨"gone", 0, 50, Status.Unchanged⟩ : ModInformation)) ∈ ignoringFolder.mods) ∧
    ((Scan.config ignoringHost
          { folder := ignoringFolder, nextId := 1, calls := [] }).folder.policy.bIgnoreAll = true ∨
      ∀ file ∈ (ignoringHost.FilesWalk ignoringFolder.path).1, file.is_dir = true →
        ignoringHost.NormalizePath file.filename = "gone" →
        (Scan.config ignoringHost
          { folder := ignoringFolder, nextId := 1, calls := [] }).folder.IsIgnored
            ignoringHost "gone" = true) ∧
    (("gone", (⟨"gone", 0, 50, Status.Removed⟩ : ModInformation)) ∈
      (ignoringFolder.Scan ignoringHost 1).folder.mods) :=
  ⟨by decide, Or.inr (by decide),
    Scan_marks_removed ignoringHost ignoringFolder 1 "gone" ⟨"gone", 0, 50, Status.Unchanged⟩
      (by decide) (Or.inr (by decide))⟩

/-! ## The status of a folder after `Scan` -/

theorem ScanChilds_status (h : Host) (c : List FolderInformation) (st : Status) (n : Nat) :
    (FolderInformation.ScanChilds h c st n).status = st ∨
      (st = Status.Unchanged ∧
        (FolderInformation.ScanChilds h c st n).status = Status.Updated) := by
  induction c generalizing st n with
  | nil => left; simp [FolderInformation.ScanChilds]
  | cons x xs ih =>
    simp only [FolderInformation.ScanChilds]
    split
    · rename_i hc
      rcases ih Status.Updated (FolderInformation.Scan h x n).nextId with h1 | h1
      · right; exact ⟨hc.1, h1⟩
      · exact absurd h1.1 (by decide)
    · exact ih st (FolderInformation.Scan h x n).nextId

theorem Scan_folder_status (h : Host) (f : FolderInformation) (n : Nat) :
    (f.Scan h n).folder.status =
      if (Scan.own h f n).folder.status ≠ Status.Removed then
        (FolderInformation.ScanChilds h f.childs (Scan.own h f n).folder.status
          (Scan.own h f n).nextId).status
      else (Scan.own h f n).folder.status := by
  cases f with
  | mk p st pol m c =>
    rw [FolderInformation.Scan]
    split
    · rfl
    · rfl

theorem Scan_own_status (h : Host) (f : FolderInformation) (n : Nat) :
    ∃ fine, (Scan.own h f n).folder.status = UpdateStatus (Scan.own h f n).folder.mods fine := by
  simp only [Scan.own, withStatus_status, withStatus_mods]
  exact ⟨_, rfl⟩

theorem UpdateStatus_of_changed_mod (m : List (String × ModInformation)) (fine : Bool)
    (e : String × ModInformation) (he : e ∈ m) (hs : e.2.status ≠ Status.Unchanged) :
    UpdateStatus m fine = Status.Updated ∨ UpdateStatus m fine = Status.Removed := by
  unfold UpdateStatus
  cases fine with
  | false => right; rfl
  | true =>
    left
    have hany : m.any (fun e => decide (e.2.status ≠ Status.Unchanged)) = true :=
      List.any_eq_true.mpr ⟨e, he, by simpa using hs⟩
    rw [if_pos rfl, if_pos hany]

/-- C10, counterexample.  The folder `modloader` tracks the mod `gone`, which
the walk no longer finds although the walk itself succeeds.  After `Scan()` the
mod is `Removed` and the folder only `Updated`: the folder's status is less
severe than the mod's. -/
theorem Scan_severity_counterexample :
    (trackedFolder.Scan goneHost 1).folder.status = Status.Updated ∧
    (trackedFolder.Scan goneHost 1).folder.mods =
      [("gone", { name := "gone", id := 0, priority := 50, status := Status.Removed })] ∧
    ¬ (Status.severity Status.Removed ≤
        Status.severity (trackedFolder.Scan goneHost 1).folder.status) := by
  decide

/-- C10, amended.  After `Scan()`, for every direct mod `e` of the folder, the
folder's status is at least as severe as the mod's status capped at `Updated`:
it is at least as severe as the status of every mod that is not left `Removed`,
and at least `Updated` when a mod is left `Removed`. -/
theorem Scan_severity_bound (h : Host) (f : FolderInformation) (n : Nat)
    (e : String × ModInformation) (he : e ∈ (f.Scan h n).folder.mods) :
    min (Status.severity e.2.status) (Status.severity Status.Updated) ≤
      Status.severity (f.Scan h n).folder.status := by
  by_cases hu : e.2.status = Status.Unchanged
  · rw [hu]; simp [Status.severity]
  · rw [Scan_folder_mods] at he
    obtain ⟨fine, hfine⟩ := Scan_own_status h f n
    have hmin : min (Status.severity e.2.status) (Status.severity Status.Updated) ≤ 1 :=
      min_le_right _ _
    rw [Scan_folder_status]
    rcases UpdateStatus_of_changed_mod _ fine e he hu with hup | hrem
    · rw [← hfine] at hup
      rw [if_pos (by rw [hup]; decide), hup]
      rcases ScanChilds_status h f.childs Status.Updated (Scan.own h f n).nextId with h1 | h1
      · rw [h1]; exact hmin
      · exact absurd h1.1 (by decide)
    · rw [← hfine] at hrem
      rw [if_neg (by rw [hrem]; decide), hrem]
      exact le_trans hmin (by decide)

/-- C10, amended, at the folder `modloader` after the scan that loses the mod
`gone`. -/
theorem Scan_severity_bound_witness :
    (("gone", (⟨"gone", 0, 50, Status.Removed⟩ : ModInformation)) ∈
      (trackedFolder.Scan goneHost 1).folder.mods) ∧
    min (Status.severity Status.Removed) (Status.severity Status.Updated) ≤
      Status.severity (trackedFolder.Scan goneHost 1).folder.status :=
  ⟨by decide,
    Scan_severity_bound goneHost trackedFolder 1 ("gone", ⟨"gone", 0, 50, Status.Removed⟩)
      (by decide)⟩

/-! ## More lemmas on `Scan`: what the steps before the childs preserve -/

theorem Scan_visit_childs (h : Host) (st : ScanState) (file : FileWalkInfo) :
    (Scan.visit h st file).folder.childs = st.folder.childs := by
  unfold Scan.visit
  split
  · split
    · rfl
    · simp [FolderInformation.AddMod]
  · rfl

theorem Scan_visit_fold_policy (h : Host) (files : List FileWalkInfo) (st : ScanState) :
    (files.foldl (Scan.visit h) st).folder.policy = st.folder.policy := by
  induction files generalizing st with
  | nil => rfl
  | cons x xs ih => rw [List.foldl_cons, ih, Scan_visit_policy]

theorem Scan_visit_fold_path (h : Host) (files : List FileWalkInfo) (st : ScanState) :
    (files.foldl (Scan.visit h) st).folder.path = st.folder.path := by
  induction files generalizing st with
  | nil => rfl
  | cons x xs ih => rw [List.foldl_cons, ih, Scan_visit_path]

theorem Scan_visit_fold_childs (h : Host) (files : List FileWalkInfo) (st : ScanState) :
    (files.foldl (Scan.visit h) st).folder.childs = st.folder.childs := by
  induction files generalizing st with
  | nil => rfl
  | cons x xs ih => rw [List.foldl_cons, ih, Scan_visit_childs]

theorem Scan_walk_childs (h : Host) (st : ScanState) :
    (Scan.walk h st).1.folder.childs = st.folder.childs := by
  unfold Scan.walk
  split
  · exact Scan_visit_fold_childs h _ _
  · rfl

theorem Scan_walk_path (h : Host) (st : ScanState) :
    (Scan.walk h st).1.folder.path = st.folder.path := by
  unfold Scan.walk
  split
  · exact Scan_visit_fold_path h _ _
  · rfl

theorem Scan_walk_policy (h : Host) (st : ScanState) :
    (Scan.walk h st).1.folder.policy = st.folder.policy := by
  unfold Scan.walk
  split
  · exact Scan_visit_fold_policy h _ _
  · rfl

theorem Scan_config_childs (h : Host) (st : ScanState) :
    (Scan.config h st).folder.childs = st.folder.childs := by
  obtain ⟨pol, hp⟩ := Scan_config_folder h st
  rw [hp, withPolicy_childs]

theorem Scan_config_path (h : Host) (st : ScanState) :
    (Scan.config h st).folder.path = st.folder.path := by
  obtain ⟨pol, hp⟩ := Scan_config_folder h st
  rw [hp, withPolicy_path]

theorem Scan_config_mods (h : Host) (st : ScanState) :
    (Scan.config h st).folder.mods = st.folder.mods := by
  obtain ⟨pol, hp⟩ := Scan_config_folder h st
  rw [hp, withPolicy_mods]

theorem Scan_own_childs (h : Host) (f : FolderInformation) (n : Nat) :
    (Scan.own h f n).folder.childs = f.childs := by
  simp only [Scan.own, withStatus_childs, Scan_walk_childs, withMods_childs, Scan_config_childs]

theorem Scan_own_path (h : Host) (f : FolderInformation) (n : Nat) :
    (Scan.own h f n).folder.path = f.path := by
  simp only [Scan.own, withStatus_path, Scan_walk_path, withMods_path, Scan_config_path]

theorem Scan_own_policy (h : Host) (f : FolderInformation) (n : Nat) :
    (Scan.own h f n).folder.policy =
      (Scan.config h { folder := f, nextId := n, calls := [] }).folder.policy := by
  simp only [Scan.own, withStatus_policy, Scan_walk_policy, withMods_policy]

theorem Scan_own_status_eq (h : Host) (f : FolderInformation) (n : Nat) :
    (Scan.own h f n).folder.status =
      UpdateStatus (Scan.own h f n).folder.mods
        (if (Scan.config h { folder := f, nextId := n, calls := [] }).folder.policy.bIgnoreAll
            = false
          then (h.FilesWalk f.path).2 else true) := by
  simp only [Scan.own, withStatus_status, withStatus_mods]
  congr 1
  unfold Scan.walk
  simp only [withMods_policy, withMods_path, Scan_config_path]
  split <;> rfl

theorem Scan_of_removed (h : Host) (f : FolderInformation) (n : Nat)
    (hr : (Scan.own h f n).folder.status = Status.Removed) :
    f.Scan h n = Scan.own h f n := by
  cases f with
  | mk p st pol m c =>
    rw [FolderInformation.Scan]
    simp [hr]

theorem Scan_of_not_removed (h : Host) (f : FolderInformation) (n : Nat)
    (hr : (Scan.own h f n).folder.status ≠ Status.Removed) :
    f.Scan h n =
      { folder := .mk (Scan.own h f n).folder.path
          (FolderInformation.ScanChilds h f.childs (Scan.own h f n).folder.status
            (Scan.own h f n).nextId).status
          (Scan.own h f n).folder.policy (Scan.own h f n).folder.mods
          (FolderInformation.ScanChilds h f.childs (Scan.own h f n).folder.status
            (Scan.own h f n).nextId).childs,
        nextId := (FolderInformation.ScanChilds h f.childs (Scan.own h f n).folder.status
            (Scan.own h f n).nextId).nextId,
        calls := (Scan.own h f n).calls ++
          (FolderInformation.ScanChilds h f.childs (Scan.own h f n).folder.status
            (Scan.own h f n).nextId).calls } := by
  cases f with
  | mk p st pol m c =>
    rw [FolderInformation.Scan]
    simp [hr, FolderInformation.childs]

/-- No call of `Scan()` on a child folder among the calls. -/
theorem Scan_visit_calls (h : Host) (st : ScanState) (file : FileWalkInfo)
    (hst : ∀ p, ScanCall.Scan p ∉ st.calls) : ∀ p, ScanCall.Scan p ∉ (Scan.visit h st file).calls := by
  unfold Scan.visit
  split
  · split
    · exact hst
    · intro p hp
      simp only [FolderInformation.AddMod, List.mem_append, List.mem_singleton] at hp
      rcases hp with hp | hp
      · exact hst p hp
      · exact ScanCall.noConfusion hp
  · exact hst

theorem Scan_visit_fold_calls (h : Host) (files : List FileWalkInfo) (st : ScanState)
    (hst : ∀ p, ScanCall.Scan p ∉ st.calls) :
    ∀ p, ScanCall.Scan p ∉ (files.foldl (Scan.visit h) st).calls := by
  induction files generalizing st with
  | nil => exact hst
  | cons x xs ih =>
    rw [List.foldl_cons]
    exact ih _ (Scan_visit_calls h st x hst)

theorem Scan_own_calls (h : Host) (f : FolderInformation) (n : Nat) :
    ∀ p, ScanCall.Scan p ∉ (Scan.own h f n).calls := by
  have hcfg : ∀ p, ScanCall.Scan p ∉
      (Scan.config h { folder := f, nextId := n, calls := [] }).calls := by
    intro p hp
    unfold Scan.config at hp
    split at hp
    · simp at hp
    · simp at hp
  simp only [Scan.own]
  unfold Scan.walk
  split
  · apply Scan_visit_fold_calls
    intro p hp
    simp only [List.mem_append, List.mem_singleton] at hp
    rcases hp with hp | hp
    · exact hcfg p hp
    · exact ScanCall.noConfusion hp
  · exact hcfg

/-! ## Walk failure, pruning and child elevation in `Scan` -/

theorem ScanChilds_calls_mem (h : Host) (c : List FolderInformation) (st : Status) (n : Nat) :
    ∀ s ∈ c, ScanCall.Scan s.path ∈ (FolderInformation.ScanChilds h c st n).calls := by
  induction c generalizing st n with
  | nil => intro s hs; exact absurd hs (List.not_mem_nil s)
  | cons x xs ih =>
    intro s hs
    simp only [FolderInformation.ScanChilds]
    rcases List.mem_cons.mp hs with hx | hxs
    · rw [hx]; exact List.mem_cons_self _ _
    · exact List.mem_cons_of_mem _ (List.mem_append_right _ (ih _ _ s hxs))

theorem Scan_status_of_walk_failure (h : Host) (c : FolderInformation) (n : Nat)
    (hig : (Scan.config h { folder := c, nextId := n, calls := [] }).folder.policy.bIgnoreAll
      = false)
    (hfail : (h.FilesWalk c.path).2 = false) :
    (c.Scan h n).folder.status = Status.Removed := by
  have hown : (Scan.own h c n).folder.status = Status.Removed := by
    rw [Scan_own_status_eq, if_pos hig, hfail]
    rfl
  rw [Scan_of_removed h c n hown, hown]

/-- C11. Enumeration failure is recorded, not propagated.  Let `bIgnoreAll` be
unset when the folder `c` walks its directory (that is, once its configuration
is loaded) and let the walk report failure.  `Scan()` returns (the model is a
total function) with the folder's status `Removed`; and in the loop of the
parent over its childs, whatever the status `st` of the parent at that point
and whatever siblings `rest` follow, the loop goes on after `c`: its result is
the scanned `c` followed by the result of the loop over `rest` (started with the
parent's status raised from `Unchanged` to `Updated`), and `Scan()` is called
on every one of those siblings. -/
theorem Scan_walk_failure_recorded (h : Host) (c : FolderInformation) (n : Nat)
    (hig : (Scan.config h { folder := c, nextId := n, calls := [] }).folder.policy.bIgnoreAll
      = false)
    (hfail : (h.FilesWalk c.path).2 = false) :
    (c.Scan h n).folder.status = Status.Removed ∧
    ∀ (rest : List FolderInformation) (st : Status),
      (FolderInformation.ScanChilds h (c :: rest) st n).childs =
        (c.Scan h n).folder ::
          (FolderInformation.ScanChilds h rest
            (if st = Status.Unchanged then Status.Updated else st) (c.Scan h n).nextId).childs ∧
      (FolderInformation.ScanChilds h (c :: rest) st n).status =
        (FolderInformation.ScanChilds h rest
          (if st = Status.Unchanged then Status.Updated else st) (c.Scan h n).nextId).status ∧
      (FolderInformation.ScanChilds h (c :: rest) st n).calls =
        ScanCall.Scan c.path :: ((c.Scan h n).calls ++
          (FolderInformation.ScanChilds h rest
            (if st = Status.Unchanged then Status.Updated else st) (c.Scan h n).nextId).calls) ∧
      ∀ s ∈ rest, ScanCall.Scan s.path ∈ (FolderInformation.ScanChilds h (c :: rest) st n).calls := by
  have hrem := Scan_status_of_walk_failure h c n hig hfail
  refine ⟨hrem, ?_⟩
  intro rest st
  have hst : (if st = Status.Unchanged ∧ (c.Scan h n).folder.status ≠ Status.Unchanged
      then Status.Updated else st) = (if st = Status.Unchanged then Status.Updated else st) := by
    rw [hrem]
    by_cases hu : st = Status.Unchanged
    · rw [if_pos ⟨hu, by decide⟩, if_pos hu]
    · rw [if_neg (fun hc => hu hc.1), if_neg hu]
  refine ⟨?_, ?_, ?_, ?_⟩
  · simp only [FolderInformation.ScanChilds, hst]
  · simp only [FolderInformation.ScanChilds, hst]
  · simp only [FolderInformation.ScanChilds, hst]
  · intro s hs
    exact ScanChilds_calls_mem h (c :: rest) st n s (List.mem_cons_of_mem _ hs)

/-- C11, at the child `modloader/sub` of the folder `modloader`, whose walk
fails, followed by the sibling `modloader/sub2`. -/
theorem Scan_walk_failure_recorded_witness :
    (Scan.config failingHost
      { folder := FolderInformation.mk "modloader/sub" Status.Unchanged exampleFolder.policy [] [],
        nextId := 0, calls := [] }).folder.policy.bIgnoreAll = false ∧
    (failingHost.FilesWalk
      (FolderInformation.mk "modloader/sub" Status.Unchanged exampleFolder.policy [] []).path).2
        = false ∧
    ((FolderInformation.mk "modloader/sub" Status.Unchanged exampleFolder.policy [] []).Scan
        failingHost 0).folder.status = Status.Removed ∧
    (FolderInformation.ScanChilds failingHost plainFolder.childs Status.Unchanged 0).calls =
      [ScanCall.Scan "modloader/sub", ScanCall.FilesWalk "modloader/sub",
        ScanCall.Scan "modloader/sub2", ScanCall.FilesWalk "modloader/sub2"] :=
  ⟨by decide, by decide,
    (Scan_walk_failure_recorded failingHost
      (FolderInformation.mk "modloader/sub" Status.Unchanged exampleFolder.policy [] []) 0
      (by decide) (by decide)).1,
    by decide⟩

/-- C12. Pruning.  When the status of the folder after the aggregation step of
`Scan()` is `Removed`, `Scan()` returns with that status, issues no `Scan()` on
any child folder, and leaves `childs`, with every descendant in it, exactly as
it was. -/
theorem Scan_prunes_removed (h : Host) (f : FolderInformation) (n : Nat)
    (hr : (Scan.own h f n).folder.status = Status.Removed) :
    (f.Scan h n).folder.status = Status.Removed ∧
    (f.Scan h n).folder.childs = f.childs ∧
    ∀ p, ScanCall.Scan p ∉ (f.Scan h n).calls := by
  rw [Scan_of_removed h f n hr]
  exact ⟨hr, Scan_own_childs h f n, Scan_own_calls h f n⟩

/-- C12, at the folder `modloader` with two child folders, whose own walk
fails. -/
theorem Scan_prunes_removed_witness :
    (Scan.own failingHost plainFolder 0).folder.status = Status.Removed ∧
    ((plainFolder.Scan failingHost 0).folder.status = Status.Removed ∧
    (plainFolder.Scan failingHost 0).folder.childs = plainFolder.childs ∧
    ∀ p, ScanCall.Scan p ∉ (plainFolder.Scan failingHost 0).calls) :=
  ⟨by decide, Scan_prunes_removed failingHost plainFolder 0 (by decide)⟩

theorem ScanChilds_status_eq (h : Host) (c : List FolderInformation) (st : Status) (n : Nat) :
    (FolderInformation.ScanChilds h c st n).status =
      if st = Status.Unchanged ∧
          (FolderInformation.ScanChilds h c st n).childs.any
            (fun x => decide (x.status ≠ Status.Unchanged)) = true
        then Status.Updated else st := by
  induction c generalizing st n with
  | nil => simp [FolderInformation.ScanChilds]
  | cons x xs ih =>
    simp only [FolderInformation.ScanChilds, List.any_cons, Bool.or_eq_true]
    by_cases hu : st = Status.Unchanged
    · by_cases hx : (FolderInformation.Scan h x n).folder.status = Status.Unchanged
      · rw [if_neg (fun hc => hc.2 hx), ih, hu]
        simp [hx]
      · rw [if_pos ⟨hu, hx⟩, ih, if_neg (fun hc => absurd hc.1 (by decide)),
          if_pos ⟨hu, Or.inl (by simpa using hx)⟩]
    · rw [if_neg (fun hc => hu hc.1), ih, if_neg (fun hc => hu hc.1), if_neg (fun hc => hu hc.1)]

/-- C13. Child elevation is monotone.  When the status of the folder after the
aggregation step is not `Removed`, the status after `Scan()` is `Updated` if the
aggregated status was `Unchanged` and some child folder ends its `Scan()` with
a status other than `Unchanged`, and is the aggregated status otherwise; in
either case it is at least as severe as the aggregated status. -/
theorem Scan_child_elevation (h : Host) (f : FolderInformation) (n : Nat)
    (hr : (Scan.own h f n).folder.status ≠ Status.Removed) :
    (f.Scan h n).folder.status =
      (if (Scan.own h f n).folder.status = Status.Unchanged ∧
          (f.Scan h n).folder.childs.any (fun x => decide (x.status ≠ Status.Unchanged)) = true
        then Status.Updated else (Scan.own h f n).folder.status) ∧
    Status.severity (Scan.own h f n).folder.status ≤
      Status.severity (f.Scan h n).folder.status := by
  have hst : (f.Scan h n).folder.status =
      (if (Scan.own h f n).folder.status = Status.Unchanged ∧
          (f.Scan h n).folder.childs.any (fun x => decide (x.status ≠ Status.Unchanged)) = true
        then Status.Updated else (Scan.own h f n).folder.status) := by
    rw [Scan_of_not_removed h f n hr]
    exact ScanChilds_status_eq h f.childs _ _
  refine ⟨hst, ?_⟩
  rw [hst]
  split
  · rename_i hc
    rw [hc.1]
    decide
  · exact le_refl _

/-- C13, at the folder `modloader` without mods whose walk succeeds while the
walks of its two child folders fail: the aggregated status `Unchanged` is raised
to `Updated`. -/
theorem Scan_child_elevation_witness :
    (Scan.own goneHost plainFolder 0).folder.status ≠ Status.Removed ∧
    (Scan.own goneHost plainFolder 0).folder.status = Status.Unchanged ∧
    (plainFolder.Scan goneHost 0).folder.status = Status.Updated ∧
    ((plainFolder.Scan goneHost 0).folder.status =
      (if (Scan.own goneHost plainFolder 0).folder.status = Status.Unchanged ∧
          (plainFolder.Scan goneHost 0).folder.childs.any
            (fun x => decide (x.status ≠ Status.Unchanged)) = true
        then Status.Updated else (Scan.own goneHost plainFolder 0).folder.status) ∧
    Status.severity (Scan.own goneHost plainFolder 0).folder.status ≤
      Status.severity (plainFolder.Scan goneHost 0).folder.status) :=
  ⟨by decide, by decide, by decide, Scan_child_elevation goneHost plainFolder 0 (by decide)⟩

/-! ## The policy layer: `IsIgnored`, `IsFileIgnored`, `GetPriority`, `SetPriority` -/

/-- C14. `IsIgnored` and its reference definition.  With `bExcludeAll` or
`bForceExclude` set, `IsIgnored(name)` is true exactly when `MatchGlob` does
not match the name against the compiled include pattern (the priority map is
not looked at); with both unset, it is true exactly when the priority map holds
the name with the value 0 (so an absent name is not ignored).  It equals the
reference definition, and it is the same for every folder with the same policy
members, whatever its place in the tree. -/
theorem IsIgnored_eq_spec (h : Host) (f : FolderInformation) (name : String) :
    ((f.policy.bExcludeAll = true ∨ f.policy.bForceExclude = true) →
      (f.IsIgnored h name = true ↔ MatchGlob h name f.policy.include_mods_glob = false)) ∧
    ((f.policy.bExcludeAll = false ∧ f.policy.bForceExclude = false) →
      (f.IsIgnored h name = true ↔ StdMap.find name f.policy.mods_priority = some 0)) ∧
    f.IsIgnored h name =
      is_ignored_spec (MatchGlob h) f.policy.bExcludeAll f.policy.bForceExclude
        f.policy.include_mods_glob (fun k => StdMap.find k f.policy.mods_priority) name ∧
    ∀ g : FolderInformation, g.policy = f.policy → g.IsIgnored h name = f.IsIgnored h name := by
  refine ⟨?_, ?_, ?_, ?_⟩
  · intro hx
    have hor : (f.policy.bExcludeAll || f.policy.bForceExclude) = true := by
      rcases hx with hx | hx <;> simp [hx]
    unfold FolderInformation.IsIgnored
    rw [if_pos hor]
    simp
  · intro hx
    have hor : ¬ (f.policy.bExcludeAll || f.policy.bForceExclude) = true := by
      simp [hx.1, hx.2]
    unfold FolderInformation.IsIgnored
    rw [if_neg hor]
    cases StdMap.find name f.policy.mods_priority with
    | none => simp
    | some p => simp
  · unfold FolderInformation.IsIgnored is_ignored_spec
    by_cases hor : (f.policy.bExcludeAll || f.policy.bForceExclude) = true
    · have hor2 : f.policy.bExcludeAll = true ∨ f.policy.bForceExclude = true := by
        simpa using hor
      rw [if_pos hor, if_pos hor2]
      cases MatchGlob h name f.policy.include_mods_glob <;> rfl
    · have hor2 : ¬ (f.policy.bExcludeAll = true ∨ f.policy.bForceExclude = true) := by
        simpa using hor
      rw [if_neg hor, if_neg hor2]
      beta_reduce
      generalize StdMap.find name f.policy.mods_priority = o
      cases o with
      | none => simp
      | some p => simp
  · intro g hg
    unfold FolderInformation.IsIgnored
    rw [hg]

/-- C14, at two folders: under `ExcludeAllMods` the included name `mymod` is
not ignored and `othermod` is; without it the name `gone` of priority 0 is
ignored and the unknown name `fresh` is not. -/
theorem IsIgnored_eq_spec_witness :
    ((emptyFolder.Scan includeHost 0).folder.policy.bExcludeAll = true ∨
      (emptyFolder.Scan includeHost 0).folder.policy.bForceExclude = true) ∧
    ((emptyFolder.Scan includeHost 0).folder.IsIgnored includeHost "mymod" = true ↔
      MatchGlob includeHost "mymod"
        (emptyFolder.Scan includeHost 0).folder.policy.include_mods_glob = false) ∧
    (emptyFolder.Scan includeHost 0).folder.IsIgnored includeHost "mymod" = false ∧
    (emptyFolder.Scan includeHost 0).folder.IsIgnored includeHost "othermod" = true ∧
    (zeroPriorityFolder.policy.bExcludeAll = false ∧
      zeroPriorityFolder.policy.bForceExclude = false) ∧
    (zeroPriorityFolder.IsIgnored exampleHost "gone" = true ↔
      StdMap.find "gone" zeroPriorityFolder.policy.mods_priority = some 0) ∧
    zeroPriorityFolder.IsIgnored exampleHost "gone" = true ∧
    zeroPriorityFolder.IsIgnored exampleHost "fresh" = false :=
  ⟨by decide,
    (IsIgnored_eq_spec includeHost (emptyFolder.Scan includeHost 0).folder "mymod").1 (by decide),
    by decide, by decide, by decide,
    (IsIgnored_eq_spec exampleHost zeroPriorityFolder "gone").2.1 (by decide),
    by decide, by decide⟩

theorem IsFileIgnored_iff (h : Host) (f : FolderInformation) (ancestors : List FolderInformation)
    (name : String) :
    f.IsFileIgnored h ancestors name = true ↔
      ∃ x ∈ f :: ancestors, MatchGlob h name x.policy.exclude_files_glob = true := by
  induction ancestors generalizing f with
  | nil =>
    unfold FolderInformation.IsFileIgnored
    by_cases hm : MatchGlob h name f.policy.exclude_files_glob = true
    · simp [hm]
    · simp [hm]
  | cons p rest ih =>
    unfold FolderInformation.IsFileIgnored
    by_cases hm : MatchGlob h name f.policy.exclude_files_glob = true
    · rw [if_pos hm]
      exact ⟨fun _ => ⟨f, List.mem_cons_self _ _, hm⟩, fun _ => rfl⟩
    · rw [if_neg hm, ih p]
      constructor
      · rintro ⟨x, hx, hxm⟩
        exact ⟨x, List.mem_cons_of_mem _ hx, hxm⟩
      · rintro ⟨x, hx, hxm⟩
        rcases List.mem_cons.mp hx with hxf | hxr
        · rw [hxf] at hxm; exact absurd hxm hm
        · exact ⟨x, hxr, hxm⟩

/-- C17. File exclusion is inherited.  For a folder `d` with the chain of its
ancestors and an ancestor `a` on that chain: a name that `MatchGlob` matches
against the compiled exclude-file pattern of `a` is ignored by
`d.IsFileIgnored`, whatever the exclude lists of `d` and of the folders in
between. -/
theorem IsFileIgnored_inherited (h : Host) (d : FolderInformation)
    (ancestors : List FolderInformation) (a : FolderInformation) (name : String)
    (ha : a ∈ ancestors) (hm : MatchGlob h name a.policy.exclude_files_glob = true) :
    d.IsFileIgnored h ancestors name = true :=
  (IsFileIgnored_iff h d ancestors name).mpr ⟨a, List.mem_cons_of_mem _ ha, hm⟩

/-- C17, at a folder two levels below the root `modloader`, which excludes
`readme.txt`. -/
theorem IsFileIgnored_inherited_witness :
    excludingRoot ∈ [plainFolder, excludingRoot] ∧
    MatchGlob includeHost "readme.txt" excludingRoot.policy.exclude_files_glob = true ∧
    emptyFolder.IsFileIgnored includeHost [plainFolder, excludingRoot] "readme.txt" = true :=
  ⟨List.mem_cons_of_mem _ (List.mem_cons_self _ _), by decide,
    IsFileIgnored_inherited includeHost emptyFolder [plainFolder, excludingRoot] excludingRoot
      "readme.txt" (List.mem_cons_of_mem _ (List.mem_cons_self _ _)) (by decide)⟩

/-- C18. `IsFileIgnored` and its reference definition.  For a folder with the
(finite) chain of its ancestors, `IsFileIgnored(name)` is computed (the
recursion ends at the root) and is true if and only if `MatchGlob` matches the
name against the compiled exclude-file pattern of the folder itself or of one of
its ancestors; it equals the reference definition; and on a root it is the
match against the root's own pattern, hence false when that does not match. -/
theorem IsFileIgnored_eq_spec (h : Host) (f : FolderInformation)
    (ancestors : List FolderInformation) (name : String) :
    (f.IsFileIgnored h ancestors name = true ↔
      ∃ x ∈ f :: ancestors, MatchGlob h name x.policy.exclude_files_glob = true) ∧
    f.IsFileIgnored h ancestors name = is_file_ignored_spec (MatchGlob h) (f :: ancestors) name ∧
    f.IsFileIgnored h [] name = MatchGlob h name f.policy.exclude_files_glob := by
  refine ⟨IsFileIgnored_iff h f ancestors name, ?_, ?_⟩
  · rw [Bool.eq_iff_iff, IsFileIgnored_iff]
    unfold is_file_ignored_spec
    rw [List.any_eq_true]
  · unfold FolderInformation.IsFileIgnored
    cases MatchGlob h name f.policy.exclude_files_glob <;> rfl

theorem GetPriority_cases (h : Host) (f : FolderInformation) (name : String) :
    (name ∉ f.policy.mods_priority.map Prod.fst ∧
      StdMap.find name f.policy.mods_priority = none ∧
      f.GetPriority h name = h.default_priority) ∨
    (∃ p, (name, p) ∈ f.policy.mods_priority ∧
      StdMap.find name f.policy.mods_priority = some p ∧ f.GetPriority h name = p) := by
  unfold FolderInformation.GetPriority
  induction f.policy.mods_priority with
  | nil => left; exact ⟨List.not_mem_nil _, rfl, rfl⟩
  | cons e rest ih =>
    by_cases hk : name = e.1
    · right
      refine ⟨e.2, ?_, ?_, ?_⟩
      · rw [hk]; exact List.mem_cons_self _ _
      · simp [StdMap.find, hk]
      · simp [StdMap.find, hk]
    · rcases ih with ⟨h1, h2, h3⟩ | ⟨p, h1, h2, h3⟩
      · left
        refine ⟨?_, ?_, ?_⟩
        · simp only [List.map_cons, List.mem_cons, not_or]
          exact ⟨hk, h1⟩
        · simp only [StdMap.find, if_neg hk]; exact h2
        · simp only [StdMap.find, if_neg hk]; exact h3
      · right
        refine ⟨p, List.mem_cons_of_mem _ h1, ?_, ?_⟩
        · simp only [StdMap.find, if_neg hk]; exact h2
        · simp only [StdMap.find, if_neg hk]; exact h3

/-- C19. `GetPriority` returns the override or the default.  Either the name
is not a key of the priority map and `GetPriority(name)` is the constant
`default_priority`, or the map holds the name with a value `p`, the one that
`find` returns, and `GetPriority(name)` is `p`.  When the constant
`default_priority` is not 0, a name that is not a key never gets the
priority 0. -/
theorem GetPriority_override_or_default (h : Host) (f : FolderInformation) (name : String) :
    ((name ∉ f.policy.mods_priority.map Prod.fst ∧
      StdMap.find name f.policy.mods_priority = none ∧
      f.GetPriority h name = h.default_priority) ∨
    (∃ p, (name, p) ∈ f.policy.mods_priority ∧
      StdMap.find name f.policy.mods_priority = some p ∧ f.GetPriority h name = p)) ∧
    (h.default_priority ≠ 0 → name ∉ f.policy.mods_priority.map Prod.fst →
      f.GetPriority h name ≠ 0) := by
  refine ⟨GetPriority_cases h f name, ?_⟩
  intro hd habs
  rcases GetPriority_cases h f name with ⟨_, _, h3⟩ | ⟨p, h1, _, _⟩
  · rw [h3]; exact hd
  · exact absurd (List.mem_map.mpr ⟨(name, p), h1, rfl⟩) habs

/-- C19, at the folder whose priority map is `{a: 5}`, with the default
priority 50: `a` has the priority 5 and the unknown name `b` the priority
50. -/
theorem GetPriority_override_or_default_witness :
    priorityFolder.GetPriority exampleHost "a" = 5 ∧
    priorityFolder.GetPriority exampleHost "b" = 50 ∧
    exampleHost.default_priority ≠ 0 ∧
    "b" ∉ priorityFolder.policy.mods_priority.map Prod.fst ∧
    priorityFolder.GetPriority exampleHost "b" ≠ 0 :=
  ⟨by decide, by decide, by decide, by decide,
    (GetPriority_override_or_default exampleHost priorityFolder "b").2 (by decide) (by decide)⟩

/-- C20, at a failing input.  The priority map of the folder gives the name `a`
the value 5.  After `SetPriority("a", 7)` the map is unchanged and
`GetPriority("a")` still returns 5: `emplace` does not touch a key that is
present.  For the name `b`, which had no override, `SetPriority("b", 7)`
does set the priority. -/
theorem SetPriority_keeps_existing :
    priorityFolder.GetPriority exampleHost "a" = 5 ∧
    (priorityFolder.SetPriority "a" 7).policy.mods_priority = [("a", 5)] ∧
    (priorityFolder.SetPriority "a" 7).GetPriority exampleHost "a" = 5 ∧
    (priorityFolder.SetPriority "b" 7).GetPriority exampleHost "b" = 7 := by
  decide

/-! ## The mods tracked after `Scan` -/

theorem StdMap_emplace_keys {β : Type} (k : String) (v : β) (m : List (String × β))
    (k1 : String) :
    k1 ∈ (StdMap.emplace k v m).map Prod.fst ↔ k1 = k ∨ k1 ∈ m.map Prod.fst := by
  induction m with
  | nil => simp [StdMap.emplace]
  | cons e rest ih =>
    unfold StdMap.emplace
    split
    · simp
    · split
      · rename_i hk
        simp only [List.map_cons, List.mem_cons]
        constructor
        · intro hx; exact Or.inr hx
        · rintro (hx | hx)
          · left; rw [hx, hk]
          · exact hx
      · simp only [List.map_cons, List.mem_cons, ih]
        constructor
        · rintro (hx | hx | hx)
          · exact Or.inr (Or.inl hx)
          · exact Or.inl hx
          · exact Or.inr (Or.inr hx)
        · rintro (hx | hx | hx)
          · exact Or.inr (Or.inl hx)
          · exact Or.inl hx
          · exact Or.inr (Or.inr hx)

theorem scanModAt_keys (h : Host) (k : String) (m : List (String × ModInformation)) :
    (scanModAt h k m).map Prod.fst = m.map Prod.fst := by
  unfold scanModAt
  rw [List.map_map]
  apply List.map_congr_left
  intro e _
  simp only [Function.comp_apply]
  split <;> rfl

theorem MarkStatus_keys (m : List (String × ModInformation)) (st : Status) :
    (MarkStatus m st).map Prod.fst = m.map Prod.fst := by
  unfold MarkStatus
  rw [List.map_map]
  rfl

theorem Scan_visit_keys (h : Host) (st : ScanState) (file : FileWalkInfo) (k : String) :
    k ∈ (Scan.visit h st file).folder.mods.map Prod.fst ↔
      k ∈ st.folder.mods.map Prod.fst ∨
        (file.is_dir = true ∧ h.NormalizePath file.filename = k ∧
          st.folder.IsIgnored h k = false) := by
  unfold Scan.visit
  by_cases hd : file.is_dir = true
  · rw [if_pos hd]
    by_cases hi : st.folder.IsIgnored h (h.NormalizePath file.filename) = true
    · rw [if_pos hi]
      constructor
      · intro hk; exact Or.inl hk
      · rintro (hk | ⟨_, hn, hf⟩)
        · exact hk
        · rw [hn, hf] at hi; exact absurd hi (by decide)
    · rw [if_neg hi]
      simp only [FolderInformation.AddMod, withMods_mods, scanModAt_keys, StdMap_emplace_keys]
      constructor
      · rintro (hk | hk)
        · right
          refine ⟨hd, hk.symm, ?_⟩
          rw [hk]
          simpa using hi
        · exact Or.inl hk
      · rintro (hk | ⟨_, hn, _⟩)
        · exact Or.inr hk
        · exact Or.inl hn.symm
  · rw [if_neg hd]
    constructor
    · intro hk; exact Or.inl hk
    · rintro (hk | ⟨hd1, _, _⟩)
      · exact hk
      · exact absurd hd1 hd

theorem Scan_visit_fold_keys (h : Host) (files : List FileWalkInfo) (st : ScanState)
    (k : String) :
    k ∈ (files.foldl (Scan.visit h) st).folder.mods.map Prod.fst ↔
      k ∈ st.folder.mods.map Prod.fst ∨
        ∃ file ∈ files, file.is_dir = true ∧ h.NormalizePath file.filename = k ∧
          st.folder.IsIgnored h k = false := by
  induction files generalizing st with
  | nil => simp
  | cons x xs ih =>
    rw [List.foldl_cons, ih, Scan_visit_keys,
      IsIgnored_congr h _ st.folder (Scan_visit_policy h st x)]
    constructor
    · rintro ((hk | hx) | ⟨file, hf, hrest⟩)
      · exact Or.inl hk
      · exact Or.inr ⟨x, List.mem_cons_self _ _, hx⟩
      · exact Or.inr ⟨file, List.mem_cons_of_mem _ hf, hrest⟩
    · rintro (hk | ⟨file, hf, hrest⟩)
      · exact Or.inl (Or.inl hk)
      · rcases List.mem_cons.mp hf with hfx | hfxs
        · rw [hfx] at hrest; exact Or.inl (Or.inr hrest)
        · exact Or.inr ⟨file, hfxs, hrest⟩

theorem Scan_mods_keys (h : Host) (f : FolderInformation) (n : Nat) (k : String) :
    k ∈ (f.Scan h n).folder.mods.map Prod.fst ↔
      k ∈ f.mods.map Prod.fst ∨
        ((Scan.config h { folder := f, nextId := n, calls := [] }).folder.policy.bIgnoreAll
            = false ∧
          ∃ file ∈ (h.FilesWalk f.path).1, file.is_dir = true ∧
            h.NormalizePath file.filename = k ∧
            (Scan.config h { folder := f, nextId := n, calls := [] }).folder.IsIgnored h k
              = false) := by
  rw [Scan_folder_mods]
  simp only [Scan.own, withStatus_mods]
  unfold Scan.walk
  simp only [withMods_policy, withMods_path, Scan_config_path]
  by_cases hig :
      (Scan.config h { folder := f, nextId := n, calls := [] }).folder.policy.bIgnoreAll = false
  · rw [if_pos hig, Scan_visit_fold_keys]
    simp only [withMods_mods, MarkStatus_keys, Scan_config_mods]
    rw [IsIgnored_congr h _ (Scan.config h { folder := f, nextId := n, calls := [] }).folder
      (by simp)]
    constructor
    · rintro (hk | hx)
      · exact Or.inl hk
      · exact Or.inr ⟨hig, hx⟩
    · rintro (hk | ⟨_, hx⟩)
      · exact Or.inl hk
      · exact Or.inr hx
  · rw [if_neg hig]
    simp only [withMods_mods, MarkStatus_keys, Scan_config_mods]
    constructor
    · intro hk; exact Or.inl hk
    · rintro (hk | ⟨hx, _⟩)
      · exact hk
      · exact absurd hx hig

theorem StdMap_emplace_mem_inv {β : Type} (k : String) (v : β) (m : List (String × β))
    (e : String × β) (he : e ∈ StdMap.emplace k v m) : e = (k, v) ∨ e ∈ m := by
  induction m with
  | nil =>
    left
    simpa [StdMap.emplace] using he
  | cons x xs ih =>
    unfold StdMap.emplace at he
    split at he
    · rcases List.mem_cons.mp he with hkv | hrest
      · exact Or.inl hkv
      · exact Or.inr hrest
    · split at he
      · exact Or.inr he
      · rcases List.mem_cons.mp he with hx | hxs
        · right; rw [hx]; exact List.mem_cons_self _ _
        · rcases ih hxs with hkv | hin
          · exact Or.inl hkv
          · exact Or.inr (List.mem_cons_of_mem _ hin)

theorem scanModAt_mem_inv (h : Host) (key : String) (m : List (String × ModInformation))
    (e : String × ModInformation) (he : e ∈ scanModAt h key m) (hne : e.1 ≠ key) : e ∈ m := by
  unfold scanModAt at he
  obtain ⟨e0, he0, heq⟩ := List.mem_map.mp he
  by_cases hk : e0.1 = key
  · rw [if_pos hk] at heq
    rw [← heq] at hne
    exact absurd hk hne
  · rw [if_neg hk] at heq
    rw [← heq]
    exact he0

theorem Scan_visit_mem_inv (h : Host) (name : String) (st : ScanState) (file : FileWalkInfo)
    (e : String × ModInformation) (hign : st.folder.IsIgnored h name = true)
    (he : e ∈ (Scan.visit h st file).folder.mods) (hk : e.1 = name) : e ∈ st.folder.mods := by
  unfold Scan.visit at he
  by_cases hd : file.is_dir = true
  · rw [if_pos hd] at he
    by_cases hi : st.folder.IsIgnored h (h.NormalizePath file.filename) = true
    · rw [if_pos hi] at he; exact he
    · rw [if_neg hi] at he
      have hne : e.1 ≠ h.NormalizePath file.filename := by
        intro heq
        apply hi
        rw [← heq, hk]
        exact hign
      simp only [FolderInformation.AddMod, withMods_mods] at he
      rcases StdMap_emplace_mem_inv _ _ _ e (scanModAt_mem_inv h _ _ e he hne) with hnew | hold
      · rw [hnew] at hne
        exact absurd rfl hne
      · exact hold
  · rw [if_neg hd] at he; exact he

theorem Scan_visit_fold_mem_inv (h : Host) (name : String) (files : List FileWalkInfo)
    (st : ScanState) (e : String × ModInformation) (hign : st.folder.IsIgnored h name = true)
    (he : e ∈ (files.foldl (Scan.visit h) st).folder.mods) (hk : e.1 = name) :
    e ∈ st.folder.mods := by
  induction files generalizing st with
  | nil => exact he
  | cons x xs ih =>
    rw [List.foldl_cons] at he
    have hign1 : (Scan.visit h st x).folder.IsIgnored h name = true := by
      rw [IsIgnored_congr h _ st.folder (Scan_visit_policy h st x)]
      exact hign
    exact Scan_visit_mem_inv h name st x e hign (ih _ hign1 he) hk

theorem Scan_mods_mem_inv (h : Host) (f : FolderInformation) (n : Nat) (name : String)
    (e : String × ModInformation)
    (hign : (Scan.config h { folder := f, nextId := n, calls := [] }).folder.IsIgnored h name
      = true)
    (he : e ∈ (f.Scan h n).folder.mods) (hk : e.1 = name) :
    e ∈ MarkStatus f.mods Status.Removed := by
  rw [Scan_folder_mods] at he
  simp only [Scan.own, withStatus_mods] at he
  unfold Scan.walk at he
  simp only [withMods_policy, withMods_path, Scan_config_path] at he
  by_cases hig :
      (Scan.config h { folder := f, nextId := n, calls := [] }).folder.policy.bIgnoreAll = false
  · rw [if_pos hig] at he
    have hmem := Scan_visit_fold_mem_inv h name _ _ e
      (by
        rw [IsIgnored_congr h _ (Scan.config h { folder := f, nextId := n, calls := [] }).folder
          (by simp)]
        exact hign) he hk
    simpa [Scan_config_mods] using hmem
  · rw [if_neg hig] at he
    simpa [Scan_config_mods] using he

theorem MarkStatus_status (m : List (String × ModInformation)) (st : Status)
    (e : String × ModInformation) (he : e ∈ MarkStatus m st) : e.2.status = st := by
  unfold MarkStatus at he
  obtain ⟨e0, _, rfl⟩ := List.mem_map.mp he
  rfl

theorem Scan_status_of_changed_mod (h : Host) (f : FolderInformation) (n : Nat)
    (e : String × ModInformation) (he : e ∈ (f.Scan h n).folder.mods)
    (hs : e.2.status ≠ Status.Unchanged) : (f.Scan h n).folder.status ≠ Status.Unchanged := by
  rw [Scan_folder_mods] at he
  obtain ⟨fine, hfine⟩ := Scan_own_status h f n
  rw [Scan_folder_status]
  rcases UpdateStatus_of_changed_mod _ fine e he hs with hup | hrem
  · rw [← hfine] at hup
    rw [if_pos (by rw [hup]; decide), hup]
    rcases ScanChilds_status h f.childs Status.Updated (Scan.own h f n).nextId with h1 | h1
    · rw [h1]; decide
    · exact absurd h1.1 (by decide)
  · rw [← hfine] at hrem
    rw [if_neg (by rw [hrem]; decide), hrem]
    decide

theorem Scan_visit_no_modscan (h : Host) (name : String) (st : ScanState) (file : FileWalkInfo)
    (hign : st.folder.IsIgnored h name = true) (hst : ScanCall.ModScan name ∉ st.calls) :
    ScanCall.ModScan name ∉ (Scan.visit h st file).calls := by
  unfold Scan.visit
  by_cases hd : file.is_dir = true
  · rw [if_pos hd]
    by_cases hi : st.folder.IsIgnored h (h.NormalizePath file.filename) = true
    · rw [if_pos hi]; exact hst
    · rw [if_neg hi]
      intro hp
      simp only [FolderInformation.AddMod, List.mem_append, List.mem_singleton] at hp
      rcases hp with hp | hp
      · exact hst hp
      · apply hi
        rw [← ScanCall.ModScan.inj hp]
        exact hign
  · rw [if_neg hd]; exact hst

theorem Scan_visit_fold_no_modscan (h : Host) (name : String) (files : List FileWalkInfo)
    (st : ScanState) (hign : st.folder.IsIgnored h name = true)
    (hst : ScanCall.ModScan name ∉ st.calls) :
    ScanCall.ModScan name ∉ (files.foldl (Scan.visit h) st).calls := by
  induction files generalizing st with
  | nil => exact hst
  | cons x xs ih =>
    rw [List.foldl_cons]
    apply ih
    · rw [IsIgnored_congr h _ st.folder (Scan_visit_policy h st x)]
      exact hign
    · exact Scan_visit_no_modscan h name st x hign hst

theorem Scan_config_no_modscan (h : Host) (f : FolderInformation) (n : Nat) (name : String) :
    ScanCall.ModScan name ∉ (Scan.config h { folder := f, nextId := n, calls := [] }).calls := by
  unfold Scan.config
  split
  · simp
  · simp

theorem Scan_own_no_modscan (h : Host) (f : FolderInformation) (n : Nat) (name : String)
    (hign : (Scan.config h { folder := f, nextId := n, calls := [] }).folder.IsIgnored h name
      = true) :
    ScanCall.ModScan name ∉ (Scan.own h f n).calls := by
  simp only [Scan.own]
  unfold Scan.walk
  simp only [withMods_policy, withMods_path, Scan_config_path]
  split
  · apply Scan_visit_fold_no_modscan
    · rw [IsIgnored_congr h _ (Scan.config h { folder := f, nextId := n, calls := [] }).folder
        (by simp)]
      exact hign
    · intro hp
      simp only [List.mem_append, List.mem_singleton] at hp
      rcases hp with hp | hp
      · exact Scan_config_no_modscan h f n name hp
      · exact ScanCall.noConfusion hp
  · exact Scan_config_no_modscan h f n name

/-- C15. Priority 0 means never tracked.  Let the folder, once its configuration
is loaded, have `bExcludeAll` and `bForceExclude` unset and a priority map that
gives `name` the value 0.  Whatever the walk reports and whatever was tracked
before: the walk of `Scan()` never creates or scans a mod under `name`; an
entry under `name` after `Scan()` is a mod tracked before, left `Removed` (so no
newly discovered mod of that name is there for `Update()` to install); and
after the following `Update()` the mods map has no entry under `name`. -/
theorem Scan_Update_zero_priority_never_tracked [StdSort] (h : Host) (f : FolderInformation)
    (n : Nat) (name : String)
    (hex : (Scan.config h { folder := f, nextId := n, calls := [] }).folder.policy.bExcludeAll
      = false)
    (hfx : (Scan.config h { folder := f, nextId := n, calls := [] }).folder.policy.bForceExclude
      = false)
    (hzero : StdMap.find name
      (Scan.config h { folder := f, nextId := n, calls := [] }).folder.policy.mods_priority
        = some 0) :
    ScanCall.ModScan name ∉ (Scan.own h f n).calls ∧
    (∀ e ∈ (f.Scan h n).folder.mods, e.1 = name →
      e.2.status = Status.Removed ∧
      ∃ m ∈ f.mods, m.1 = name ∧ e = (name, { m.2 with status := Status.Removed })) ∧
    name ∉ (f.Scan h n).folder.Update.1.mods.map Prod.fst := by
  have hign : (Scan.config h { folder := f, nextId := n, calls := [] }).folder.IsIgnored h name
      = true := by
    unfold FolderInformation.IsIgnored
    rw [hex, hfx, hzero]
    rfl
  have hrem : ∀ e ∈ (f.Scan h n).folder.mods, e.1 = name → e.2.status = Status.Removed :=
    fun e he hk => MarkStatus_status f.mods Status.Removed e (Scan_mods_mem_inv h f n name e hign he hk)
  refine ⟨Scan_own_no_modscan h f n name hign, ?_, ?_⟩
  · intro e he hk
    refine ⟨hrem e he hk, ?_⟩
    have hmark := Scan_mods_mem_inv h f n name e hign he hk
    unfold MarkStatus at hmark
    obtain ⟨m, hm, hme⟩ := List.mem_map.mp hmark
    have hmk : m.1 = name := by
      rw [← hk, ← hme]
    refine ⟨m, hm, hmk, ?_⟩
    rw [← hme, hmk]
  · intro hmem
    by_cases hs : (f.Scan h n).folder.status = Status.Unchanged
    · rw [Update_of_unchanged _ hs] at hmem
      obtain ⟨e, he, hk⟩ := List.mem_map.mp hmem
      exact Scan_status_of_changed_mod h f n e he (by rw [hrem e he hk]; decide) hs
    · rw [Update_mods _ hs, List.map_map] at hmem
      obtain ⟨e, he, hk⟩ := List.mem_map.mp hmem
      have hem : e ∈ (f.Scan h n).folder.mods := (List.mem_filter.mp he).1
      have hes : e.2.status ≠ Status.Removed := by simpa using (List.mem_filter.mp he).2
      exact hes (hrem e hem hk)

/-- C15, at the folder `modloader` whose priority map gives `gone` the value 0
and that tracks the mod `gone`; the directory `gone` is still on disk, next to a
new one, `fresh`.  `Scan()` scans `fresh` only and leaves `gone` `Removed`;
after `Update()` the mods map holds `fresh` alone. -/
theorem Scan_Update_zero_priority_never_tracked_witness :
    (Scan.config ignoringHost
      { folder := zeroPriorityFolder, nextId := 1, calls := [] }).folder.policy.bExcludeAll
        = false ∧
    (Scan.config ignoringHost
      { folder := zeroPriorityFolder, nextId := 1, calls := [] }).folder.policy.bForceExclude
        = false ∧
    StdMap.find "gone"
      (Scan.config ignoringHost
        { folder := zeroPriorityFolder, nextId := 1, calls := [] }).folder.policy.mods_priority
        = some 0 ∧
    (zeroPriorityFolder.Scan ignoringHost 1).calls =
      [ScanCall.FilesWalk "modloader", ScanCall.ModScan "fresh"] ∧
    (zeroPriorityFolder.Scan ignoringHost 1).folder.mods.map (fun e => (e.1, e.2.status)) =
      [("fresh", Status.Added), ("gone", Status.Removed)] ∧
    (zeroPriorityFolder.Scan ignoringHost 1).folder.Update.1.mods.map
        (fun e => (e.1, e.2.status)) =
      [("fresh", Status.Unchanged)] ∧
    (ScanCall.ModScan "gone" ∉ (Scan.own ignoringHost zeroPriorityFolder 1).calls ∧
    (∀ e ∈ (zeroPriorityFolder.Scan ignoringHost 1).folder.mods, e.1 = "gone" →
      e.2.status = Status.Removed ∧
      ∃ m ∈ zeroPriorityFolder.mods, m.1 = "gone" ∧
        e = ("gone", { m.2 with status := Status.Removed })) ∧
    "gone" ∉ (zeroPriorityFolder.Scan ignoringHost 1).folder.Update.1.mods.map Prod.fst) :=
  ⟨by decide, by decide, by decide, by decide, by decide, by decide,
    Scan_Update_zero_priority_never_tracked ignoringHost zeroPriorityFolder 1 "gone"
      (by decide) (by decide) (by decide)⟩

/-- C16. Exclude-all with include list.  Let the folder track no mod, and, once
its configuration is loaded, have `bExcludeAll` set and `bIgnoreAll` unset.
Then the keys of the mods map after `Scan()` are exactly the normalized names
of the sub-directories reported by the walk that `MatchGlob` matches against
the compiled include pattern. -/
theorem Scan_exclude_all_tracks_included (h : Host) (f : FolderInformation) (n : Nat)
    (k : String) (hmods : f.mods = [])
    (hex : (Scan.config h { folder := f, nextId := n, calls := [] }).folder.policy.bExcludeAll
      = true)
    (hig : (Scan.config h { folder := f, nextId := n, calls := [] }).folder.policy.bIgnoreAll
      = false) :
    k ∈ (f.Scan h n).folder.mods.map Prod.fst ↔
      ∃ file ∈ (h.FilesWalk f.path).1, file.is_dir = true ∧ h.NormalizePath file.filename = k ∧
        MatchGlob h k
          (Scan.config h { folder := f, nextId := n, calls := [] }).folder.policy.include_mods_glob
          = true := by
  have hign : (Scan.config h { folder := f, nextId := n, calls := [] }).folder.IsIgnored h k
        = false ↔
      MatchGlob h k
        (Scan.config h { folder := f, nextId := n, calls := [] }).folder.policy.include_mods_glob
        = true := by
    unfold FolderInformation.IsIgnored
    rw [hex]
    simp
  rw [Scan_mods_keys, hmods]
  constructor
  · rintro (hk | ⟨_, file, hf, hd, hn, hi⟩)
    · simp at hk
    · exact ⟨file, hf, hd, hn, hign.mp hi⟩
  · rintro ⟨file, hf, hd, hn, hm⟩
    exact Or.inr ⟨hig, file, hf, hd, hn, hign.mpr hm⟩

/-- C16, at the example: the configuration sets `ExcludeAllMods=1` and includes
`mymod`; the walk reports the sub-directories `mymod` and `othermod`.  After
`Scan()` the compiled include pattern is `mymod;` and only `mymod` is
tracked. -/
theorem Scan_exclude_all_tracks_included_witness :
    emptyFolder.mods = [] ∧
    (Scan.config includeHost
      { folder := emptyFolder, nextId := 0, calls := [] }).folder.policy.bExcludeAll = true ∧
    (Scan.config includeHost
      { folder := emptyFolder, nextId := 0, calls := [] }).folder.policy.bIgnoreAll = false ∧
    (Scan.config includeHost
      { folder := emptyFolder, nextId := 0, calls := [] }).folder.policy.include_mods = ["mymod"] ∧
    (Scan.config includeHost
      { folder := emptyFolder, nextId := 0, calls := [] }).folder.policy.include_mods_glob
        = "mymod;" ∧
    (emptyFolder.Scan includeHost 0).folder.mods.map Prod.fst = ["mymod"] ∧
    ("mymod" ∈ (emptyFolder.Scan includeHost 0).folder.mods.map Prod.fst ↔
      ∃ file ∈ (includeHost.FilesWalk emptyFolder.path).1, file.is_dir = true ∧
        includeHost.NormalizePath file.filename = "mymod" ∧
        MatchGlob includeHost "mymod"
          (Scan.config includeHost
            { folder := emptyFolder, nextId := 0, calls := [] }).folder.policy.include_mods_glob
          = true) :=
  ⟨by decide, by decide, by decide, by decide, by decide, by decide,
    Scan_exclude_all_tracks_included includeHost emptyFolder 0 "mymod"
      (by decide) (by decide) (by decide)⟩

/-! ## The cached globs -/

theorem StdSet_emplace_mem_self (k : String) (l : List String) : k ∈ StdSet.emplace k l := by
  induction l with
  | nil => simp [StdSet.emplace]
  | cons e rest ih =>
    unfold StdSet.emplace
    split
    · exact List.mem_cons_self _ _
    · split
      · rename_i hk
        rw [hk]; exact List.mem_cons_self _ _
      · exact List.mem_cons_of_mem _ ih

theorem CacheConsistent_iff (f : FolderInformation) :
    CacheConsistent f = true ↔
      f.policy.include_mods_glob = BuildGlobString f.policy.include_mods ∧
      f.policy.exclude_files_glob = BuildGlobString f.policy.exclude_files := by
  unfold CacheConsistent
  simp

theorem CacheConsistent_Clear (g : FolderInformation) : CacheConsistent g.Clear = true := by
  cases g with
  | mk p s pol m c =>
    rw [CacheConsistent_iff]
    simp [FolderInformation.Clear, FolderInformation.RebuildIncludeModsGlob,
      FolderInformation.RebuildExcludeFilesGlob]

/-- C21. Compiled-pattern cache consistency.  The predicate "`include_mods_glob`
is `BuildGlobString(include_mods)` and `exclude_files_glob` is
`BuildGlobString(exclude_files)`" holds after `Clear()` on any folder, and a
folder that satisfies it still does after `Include`, `IgnoreFileGlob`,
`SetPriority`, `SetIgnoreAll`, `SetExcludeAll` and `SetForceExclude`.  Right
after `Include(name)` the name is in `include_mods` and the include glob is
built from the new set; likewise for `IgnoreFileGlob` and the exclude glob. -/
theorem glob_cache_consistent (f : FolderInformation) (hc : CacheConsistent f = true)
    (name : String) (p : Int) (b : Bool) :
    (∀ g : FolderInformation, CacheConsistent g.Clear = true) ∧
    CacheConsistent (f.Include name) = true ∧
    CacheConsistent (f.IgnoreFileGlob name) = true ∧
    CacheConsistent (f.SetPriority name p) = true ∧
    CacheConsistent (f.SetIgnoreAll b) = true ∧
    CacheConsistent (f.SetExcludeAll b) = true ∧
    CacheConsistent (f.SetForceExclude b) = true ∧
    name ∈ (f.Include name).policy.include_mods ∧
    (f.Include name).policy.include_mods_glob =
      BuildGlobString (StdSet.emplace name f.policy.include_mods) ∧
    name ∈ (f.IgnoreFileGlob name).policy.exclude_files ∧
    (f.IgnoreFileGlob name).policy.exclude_files_glob =
      BuildGlobString (StdSet.emplace name f.policy.exclude_files) := by
  obtain ⟨hi, he⟩ := (CacheConsistent_iff f).mp hc
  refine ⟨CacheConsistent_Clear, ?_, ?_, ?_, ?_, ?_, ?_, ?_, ?_, ?_, ?_⟩
  · rw [CacheConsistent_iff]
    simp [FolderInformation.Include, FolderInformation.RebuildIncludeModsGlob, he]
  · rw [CacheConsistent_iff]
    simp [FolderInformation.IgnoreFileGlob, FolderInformation.RebuildExcludeFilesGlob, hi]
  · rw [CacheConsistent_iff]
    simp [FolderInformation.SetPriority, hi, he]
  · rw [CacheConsistent_iff]
    simp [FolderInformation.SetIgnoreAll, hi, he]
  · rw [CacheConsistent_iff]
    simp [FolderInformation.SetExcludeAll, hi, he]
  · rw [CacheConsistent_iff]
    simp [FolderInformation.SetForceExclude, hi, he]
  · simp only [FolderInformation.Include, FolderInformation.RebuildIncludeModsGlob,
      withPolicy_policy]
    exact StdSet_emplace_mem_self name _
  · simp [FolderInformation.Include, FolderInformation.RebuildIncludeModsGlob]
  · simp only [FolderInformation.IgnoreFileGlob, FolderInformation.RebuildExcludeFilesGlob,
      withPolicy_policy]
    exact StdSet_emplace_mem_self name _
  · simp [FolderInformation.IgnoreFileGlob, FolderInformation.RebuildExcludeFilesGlob]

/-- C21, at the root folder that excludes `readme.txt`: its globs are
consistent, and after `Include("mymod")` the include glob is `mymod;`. -/
theorem glob_cache_consistent_witness :
    CacheConsistent excludingRoot = true ∧
    (excludingRoot.Include "mymod").policy.include_mods_glob = "mymod;" ∧
    (excludingRoot.IgnoreFileGlob "a.bak").policy.exclude_files_glob = "a.bak;readme.txt;" ∧
    CacheConsistent (excludingRoot.Include "mymod") = true ∧
    CacheConsistent (excludingRoot.IgnoreFileGlob "a.bak") = true :=
  ⟨by decide, by decide, by decide,
    (glob_cache_consistent excludingRoot (by decide) "mymod" 0 true).2.1,
    (glob_cache_consistent excludingRoot (by decide) "a.bak" 0 true).2.2.1⟩

/-- C22. Empty pattern never matches.  `MatchGlob(name, "")` is false whatever
the glob matcher of the host.  Hence, for a folder whose cached globs are
consistent: with an empty include list and `bExcludeAll` or `bForceExclude` set,
`IsIgnored(name)` is true; and for a root with an empty exclude-file list,
`IsFileIgnored(name)` is false. -/
theorem MatchGlob_empty_never_matches (h : Host) (f : FolderInformation) (name : String)
    (hc : CacheConsistent f = true) :
    (∀ host : Host, MatchGlob host name "" = false) ∧
    (f.policy.include_mods = [] →
      (f.policy.bExcludeAll = true ∨ f.policy.bForceExclude = true) →
      f.IsIgnored h name = true) ∧
    (f.policy.exclude_files = [] → f.IsFileIgnored h [] name = false) := by
  obtain ⟨hi, he⟩ := (CacheConsistent_iff f).mp hc
  have hempty : ∀ host : Host, MatchGlob host name "" = false := by
    intro host
    simp [MatchGlob]
  refine ⟨hempty, ?_, ?_⟩
  · intro hinc hex
    have hor : (f.policy.bExcludeAll || f.policy.bForceExclude) = true := by
      rcases hex with hx | hx <;> simp [hx]
    have hglob : f.policy.include_mods_glob = "" := by rw [hi, hinc]; rfl
    unfold FolderInformation.IsIgnored
    rw [if_pos hor, hglob, hempty h]
    rfl
  · intro hexc
    have hglob : f.policy.exclude_files_glob = "" := by rw [he, hexc]; rfl
    unfold FolderInformation.IsFileIgnored
    rw [hglob, hempty h]
    rfl

/-- C22, at the folder `modloader` without include and exclude lists, with
`bForceExclude` set for the first part. -/
theorem MatchGlob_empty_never_matches_witness :
    CacheConsistent (emptyFolder.SetForceExclude true) = true ∧
    (emptyFolder.SetForceExclude true).policy.include_mods = [] ∧
    ((emptyFolder.SetForceExclude true).policy.bExcludeAll = true ∨
      (emptyFolder.SetForceExclude true).policy.bForceExclude = true) ∧
    (emptyFolder.SetForceExclude true).IsIgnored includeHost "mymod" = true ∧
    (emptyFolder.SetForceExclude true).policy.exclude_files = [] ∧
    (emptyFolder.SetForceExclude true).IsFileIgnored includeHost [] "readme.txt" = false :=
  ⟨by decide, by decide, by decide,
    (MatchGlob_empty_never_matches includeHost (emptyFolder.SetForceExclude true) "mymod"
      (by decide)).2.1 (by decide) (by decide),
    by decide,
    (MatchGlob_empty_never_matches includeHost (emptyFolder.SetForceExclude true) "readme.txt"
      (by decide)).2.2 (by decide)⟩

/-! ## The one-shot configuration load -/

theorem ReadConfig_gotConfig (h : Host) (kv : List (String × String)) (f : FolderInformation) :
    (FolderInformation.ReadConfig h kv f).policy.gotConfig = f.policy.gotConfig := by
  induction kv generalizing f with
  | nil => rfl
  | cons x xs ih =>
    unfold FolderInformation.ReadConfig
    split
    · rw [ih]; simp [FolderInformation.SetIgnoreAll]
    · split
      · rw [ih]; simp [FolderInformation.SetExcludeAll]
      · exact ih f

theorem ReadPriorities_gotConfig (h : Host) (kv : List (String × String))
    (f : FolderInformation) :
    (FolderInformation.ReadPriorities h kv f).policy.gotConfig = f.policy.gotConfig := by
  induction kv generalizing f with
  | nil => rfl
  | cons x xs ih =>
    unfold FolderInformation.ReadPriorities
    rw [ih]; simp [FolderInformation.SetPriority]

theorem ReadExcludeFiles_gotConfig (h : Host) (kv : List (String × String))
    (f : FolderInformation) :
    (FolderInformation.ReadExcludeFiles h kv f).policy.gotConfig = f.policy.gotConfig := by
  induction kv generalizing f with
  | nil => rfl
  | cons x xs ih =>
    unfold FolderInformation.ReadExcludeFiles
    rw [ih]
    simp [FolderInformation.IgnoreFileGlob, FolderInformation.RebuildExcludeFilesGlob]

theorem ReadIncludeMods_gotConfig (h : Host) (kv : List (String × String))
    (f : FolderInformation) :
    (FolderInformation.ReadIncludeMods h kv f).policy.gotConfig = f.policy.gotConfig := by
  induction kv generalizing f with
  | nil => rfl
  | cons x xs ih =>
    unfold FolderInformation.ReadIncludeMods
    rw [ih]
    simp [FolderInformation.Include, FolderInformation.RebuildIncludeModsGlob]

theorem LoadConfigFromINI_gotConfig (h : Host) (f : FolderInformation) (inifile : String) :
    (f.LoadConfigFromINI h inifile).policy.gotConfig = f.policy.gotConfig := by
  unfold FolderInformation.LoadConfigFromINI
  split
  · rw [ReadIncludeMods_gotConfig, ReadExcludeFiles_gotConfig, ReadPriorities_gotConfig,
      ReadConfig_gotConfig]
  · rfl

theorem Scan_config_gotConfig (h : Host) (st : ScanState) :
    (Scan.config h st).folder.policy.gotConfig = true := by
  unfold Scan.config
  split
  · simp [LoadConfigFromINI_gotConfig]
  · rename_i hg
    simpa using hg

theorem Scan_folder_policy (h : Host) (f : FolderInformation) (n : Nat) :
    (f.Scan h n).folder.policy = (Scan.own h f n).folder.policy := by
  cases f with
  | mk p st pol m c =>
    rw [FolderInformation.Scan]
    split
    · rfl
    · rfl

theorem Scan_gotConfig (h : Host) (f : FolderInformation) (n : Nat) :
    (f.Scan h n).folder.policy.gotConfig = true := by
  rw [Scan_folder_policy, Scan_own_policy, Scan_config_gotConfig]

theorem Scan_visit_loads (h : Host) (st : ScanState) (file : FileWalkInfo) :
    (Scan.visit h st file).calls.filter ScanCall.isLoadConfig =
      st.calls.filter ScanCall.isLoadConfig := by
  unfold Scan.visit
  split
  · split
    · rfl
    · simp [FolderInformation.AddMod, List.filter_append, ScanCall.isLoadConfig]
  · rfl

theorem Scan_visit_fold_loads (h : Host) (files : List FileWalkInfo) (st : ScanState) :
    (files.foldl (Scan.visit h) st).calls.filter ScanCall.isLoadConfig =
      st.calls.filter ScanCall.isLoadConfig := by
  induction files generalizing st with
  | nil => rfl
  | cons x xs ih => rw [List.foldl_cons, ih, Scan_visit_loads]

theorem Scan_own_loads (h : Host) (f : FolderInformation) (n : Nat) :
    ((Scan.own h f n).calls.filter ScanCall.isLoadConfig).length =
      if f.policy.gotConfig = false then 1 else 0 := by
  have hw : (Scan.own h f n).calls.filter ScanCall.isLoadConfig =
      (Scan.config h { folder := f, nextId := n, calls := [] }).calls.filter
        ScanCall.isLoadConfig := by
    simp only [Scan.own]
    unfold Scan.walk
    split
    · rw [Scan_visit_fold_loads]
      simp [List.filter_append, ScanCall.isLoadConfig]
    · rfl
  rw [hw]
  unfold Scan.config
  split
  · simp [ScanCall.isLoadConfig]
  · simp

theorem configLoadsOver_of_loaded [StdSort] (cycles : List (Host × Bool)) (f : FolderInformation)
    (n : Nat) (hg : f.policy.gotConfig = true) :
    configLoadsOver cycles f n = List.replicate cycles.length 0 := by
  induction cycles generalizing f n with
  | nil => rfl
  | cons c rest ih =>
    unfold configLoadsOver
    rw [Scan_own_loads, if_neg (by rw [hg]; decide), List.length_cons, List.replicate_succ]
    congr 1
    apply ih
    split
    · rw [Update_policy]; exact Scan_gotConfig c.1 f n
    · exact Scan_gotConfig c.1 f n

/-- C23. Configuration is loaded at most once per node.  Take a folder node
that has not loaded its configuration yet, and any sequence of cycles on it,
each a `Scan()` under some host, followed or not by `Update()`.  The node calls
`LoadConfigFromINI` once during the first `Scan()` and in no later one; after
the first `Scan()` the guard `gotConfig` is set, whether or not the file could
be loaded. -/
theorem config_loaded_once [StdSort] (h : Host) (u : Bool) (cycles : List (Host × Bool))
    (f : FolderInformation) (n : Nat) (hfresh : f.policy.gotConfig = false) :
    configLoadsOver ((h, u) :: cycles) f n = 1 :: List.replicate cycles.length 0 ∧
    (f.Scan h n).folder.policy.gotConfig = true := by
  refine ⟨?_, Scan_gotConfig h f n⟩
  unfold configLoadsOver
  rw [Scan_own_loads, if_pos hfresh]
  congr 1
  apply configLoadsOver_of_loaded
  split
  · rw [Update_policy]; exact Scan_gotConfig h f n
  · exact Scan_gotConfig h f n

/-- C23, at a new folder `modloader` without configuration file (the load
fails), scanned three times, with an `Update()` after the first scan. -/
theorem config_loaded_once_witness :
    emptyFolder.policy.gotConfig = false ∧
    exampleHost.load_file "modloader" "modloader.ini" = none ∧
    (emptyFolder.Scan exampleHost 0).calls.filter ScanCall.isLoadConfig =
      [ScanCall.LoadConfigFromINI "modloader"] ∧
    (configLoadsOver [(exampleHost, true), (goneHost, false), (exampleHost, false)]
        emptyFolder 0 = 1 :: List.replicate 2 0 ∧
      (emptyFolder.Scan exampleHost 0).folder.policy.gotConfig = true) :=
  ⟨by decide, by decide, by decide,
    config_loaded_once exampleHost true [(goneHost, false), (exampleHost, false)]
      emptyFolder 0 (by decide)⟩

/-! ## `AddMod` -/

theorem StdMap_emplace_idem {β : Type} (k : String) (v1 v2 : β) (m : List (String × β)) :
    StdMap.emplace k v2 (StdMap.emplace k v1 m) = StdMap.emplace k v1 m := by
  have hkk : keyLess k k = false := by simp [keyLess]
  induction m with
  | nil => simp [StdMap.emplace, hkk]
  | cons e rest ih =>
    by_cases h1 : keyLess k e.1 = true
    · simp [StdMap.emplace, h1, hkk]
    · by_cases h2 : k = e.1
      · simp only [StdMap.emplace, if_neg h1, if_pos h2]
      · simp only [StdMap.emplace, if_neg h1, if_neg h2, ih]

theorem StdMap_emplace_length {β : Type} (k : String) (v : β) (m : List (String × β))
    (hk : k ∉ m.map Prod.fst) : (StdMap.emplace k v m).length = m.length + 1 := by
  induction m with
  | nil => rfl
  | cons e rest ih =>
    have hne : k ≠ e.1 := fun hc => hk (by rw [hc]; exact List.mem_cons_self _ _)
    have hrest : k ∉ rest.map Prod.fst := fun hc => hk (List.mem_cons_of_mem _ hc)
    unfold StdMap.emplace
    split
    · rfl
    · rw [List.length_cons, ih hrest, List.length_cons]

theorem StdMap_find_emplace {β : Type} (k : String) (v : β) (m : List (String × β))
    (hk : k ∉ m.map Prod.fst) : StdMap.find k (StdMap.emplace k v m) = some v := by
  induction m with
  | nil => simp [StdMap.emplace, StdMap.find]
  | cons e rest ih =>
    have hne : k ≠ e.1 := fun hc => hk (by rw [hc]; exact List.mem_cons_self _ _)
    have hrest : k ∉ rest.map Prod.fst := fun hc => hk (List.mem_cons_of_mem _ hc)
    unfold StdMap.emplace
    split
    · simp [StdMap.find]
    · simp only [StdMap.find, if_neg hne]
      exact ih hrest

theorem withMods_withMods (f : FolderInformation) (m1 m2 : List (String × ModInformation)) :
    (f.withMods m1).withMods m2 = f.withMods m2 := by
  cases f; rfl

/-- C24. `AddMod` is find-or-create on the normalized name.  For two names with
the same normalized form, `AddMod(n1)` followed by `AddMod(n2)`: both calls
return the reference to the entry under the key `NormalizePath(n1)`; the second
call leaves the folder exactly as the first call left it; the keys of the mods
map are those it had before and `NormalizePath(n1)`; and when that key was not
tracked before, the map has grown by exactly one entry, which is the mod
created by the first call, with the name `n1` and the id picked for it. -/
theorem AddMod_find_or_create (h : Host) (f : FolderInformation) (id : Nat) (n1 n2 : String)
    (hnorm : h.NormalizePath n1 = h.NormalizePath n2) :
    (f.AddMod h id n1).2.2 = h.NormalizePath n1 ∧
    ((f.AddMod h id n1).1.AddMod h (f.AddMod h id n1).2.1 n2).2.2 = (f.AddMod h id n1).2.2 ∧
    ((f.AddMod h id n1).1.AddMod h (f.AddMod h id n1).2.1 n2).1 = (f.AddMod h id n1).1 ∧
    (∀ k, k ∈ ((f.AddMod h id n1).1.AddMod h (f.AddMod h id n1).2.1 n2).1.mods.map Prod.fst ↔
      k = h.NormalizePath n1 ∨ k ∈ f.mods.map Prod.fst) ∧
    (h.NormalizePath n1 ∉ f.mods.map Prod.fst →
      ((f.AddMod h id n1).1.AddMod h (f.AddMod h id n1).2.1 n2).1.mods.length
        = f.mods.length + 1 ∧
      StdMap.find (h.NormalizePath n1)
          ((f.AddMod h id n1).1.AddMod h (f.AddMod h id n1).2.1 n2).1.mods
        = some (f.newMod h n1 id)) := by
  have hsame : ((f.AddMod h id n1).1.AddMod h (f.AddMod h id n1).2.1 n2).1
      = (f.AddMod h id n1).1 := by
    simp only [FolderInformation.AddMod, withMods_mods, withMods_withMods, ← hnorm,
      StdMap_emplace_idem]
  refine ⟨rfl, ?_, hsame, ?_, ?_⟩
  · simp only [FolderInformation.AddMod, hnorm]
  · intro k
    rw [hsame]
    simp only [FolderInformation.AddMod, withMods_mods, StdMap_emplace_keys]
  · intro hnew
    rw [hsame]
    simp only [FolderInformation.AddMod, withMods_mods]
    exact ⟨StdMap_emplace_length _ _ _ hnew, StdMap_find_emplace _ _ _ hnew⟩

/-- C24, at the empty folder `modloader` with the names `MyMod` and `mymod`:
one mod is tracked, under the key `mymod`, with the name `MyMod` and the id 0 of
the first call. -/
theorem AddMod_find_or_create_witness :
    caseHost.NormalizePath "MyMod" = caseHost.NormalizePath "mymod" ∧
    caseHost.NormalizePath "MyMod" ∉ emptyFolder.mods.map Prod.fst ∧
    ((emptyFolder.AddMod caseHost 0 "MyMod").1.AddMod caseHost
        (emptyFolder.AddMod caseHost 0 "MyMod").2.1 "mymod").1.mods =
      [("mymod", { name := "MyMod", id := 0, priority := 50, status := Status.Added })] ∧
    ((emptyFolder.AddMod caseHost 0 "MyMod").1.AddMod caseHost
        (emptyFolder.AddMod caseHost 0 "MyMod").2.1 "mymod").1 =
      (emptyFolder.AddMod caseHost 0 "MyMod").1 :=
  ⟨by decide, by decide, by decide,
    (AddMod_find_or_create caseHost emptyFolder 0 "MyMod" "mymod" (by decide)).2.2.1⟩

/-! ## What `Scan` and `Update` do to the key sets -/

theorem Scan_path (h : Host) (f : FolderInformation) (n : Nat) :
    (f.Scan h n).folder.path = f.path := by
  by_cases hr : (Scan.own h f n).folder.status = Status.Removed
  · rw [Scan_of_removed h f n hr, Scan_own_path]
  · rw [Scan_of_not_removed h f n hr]
    exact Scan_own_path h f n

theorem ScanChilds_paths (h : Host) (c : List FolderInformation) (st : Status) (n : Nat) :
    (FolderInformation.ScanChilds h c st n).childs.map FolderInformation.path =
      c.map FolderInformation.path := by
  induction c generalizing st n with
  | nil => simp [FolderInformation.ScanChilds]
  | cons x xs ih =>
    simp only [FolderInformation.ScanChilds, List.map_cons, ih, Scan_path]

theorem Scan_childs_paths (h : Host) (f : FolderInformation) (n : Nat) :
    (f.Scan h n).folder.childs.map FolderInformation.path =
      f.childs.map FolderInformation.path := by
  by_cases hr : (Scan.own h f n).folder.status = Status.Removed
  · rw [Scan_of_removed h f n hr, Scan_own_childs]
  · rw [Scan_of_not_removed h f n hr]
    exact ScanChilds_paths h f.childs _ _

theorem Update_mods_keys [StdSort] (f : FolderInformation) :
    f.Update.1.mods.map Prod.fst ⊆ f.mods.map Prod.fst := by
  by_cases hs : f.status = Status.Unchanged
  · rw [Update_of_unchanged f hs]
    exact List.Subset.refl _
  · intro k hk
    rw [Update_mods f hs, List.map_map] at hk
    obtain ⟨e, he, hke⟩ := List.mem_map.mp hk
    exact List.mem_map.mpr ⟨e, (List.mem_filter.mp he).1, hke⟩

theorem Update_childs_paths [StdSort] (f : FolderInformation) :
    f.Update.1.childs.map FolderInformation.path ⊆ f.childs.map FolderInformation.path := by
  by_cases hs : f.status = Status.Unchanged
  · rw [Update_of_unchanged f hs]
    exact List.Subset.refl _
  · intro k hk
    rw [Update_childs f hs, List.map_map] at hk
    obtain ⟨c, hc, hkc⟩ := List.mem_map.mp hk
    refine List.mem_map.mpr ⟨c, (List.mem_filter.mp hc).1, ?_⟩
    rw [← hkc]
    exact (Update_path c).symm

/-- C25. `Scan` is append-only and `Update` is prune-only.  Every key of the
mods map before `Scan()` is a key after it, and every child folder (named by
its path, the key of `childs`) before `Scan()` is still a child after it; every
key of the mods map after `Update()` was a key before it, and every child after
`Update()` was a child before it. -/
theorem Scan_appends_Update_prunes [StdSort] (h : Host) (f : FolderInformation) (n : Nat) :
    f.mods.map Prod.fst ⊆ (f.Scan h n).folder.mods.map Prod.fst ∧
    f.childs.map FolderInformation.path ⊆
      (f.Scan h n).folder.childs.map FolderInformation.path ∧
    f.Update.1.mods.map Prod.fst ⊆ f.mods.map Prod.fst ∧
    f.Update.1.childs.map FolderInformation.path ⊆ f.childs.map FolderInformation.path := by
  refine ⟨?_, ?_, ?_, ?_⟩
  · intro k hk
    exact (Scan_mods_keys h f n k).mpr (Or.inl hk)
  · rw [Scan_childs_paths]
    exact List.Subset.refl _
  · exact Update_mods_keys f
  · exact Update_childs_paths f

/-! ## `Scan` with `bIgnoreAll` set -/

theorem Scan_own_of_ignore_all (h : Host) (f : FolderInformation) (n : Nat)
    (hig : (Scan.config h { folder := f, nextId := n, calls := [] }).folder.policy.bIgnoreAll
      = true) :
    (Scan.own h f n).calls = (Scan.config h { folder := f, nextId := n, calls := [] }).calls ∧
    (Scan.own h f n).folder.mods = MarkStatus f.mods Status.Removed ∧
    (Scan.own h f n).folder.status = UpdateStatus (MarkStatus f.mods Status.Removed) true := by
  have hne : ¬ (Scan.config h { folder := f, nextId := n, calls := [] }).folder.policy.bIgnoreAll
      = false := by rw [hig]; decide
  simp only [Scan.own, withStatus_mods, withStatus_status]
  unfold Scan.walk
  simp only [withMods_policy, if_neg hne, withMods_mods, Scan_config_mods]
  trivial

theorem UpdateStatus_MarkStatus_Removed (m : List (String × ModInformation)) :
    UpdateStatus (MarkStatus m Status.Removed) true =
      if m = [] then Status.Unchanged else Status.Updated := by
  cases m with
  | nil => rfl
  | cons e rest => simp [UpdateStatus, MarkStatus]

/-- C27. `bIgnoreAll` suppresses discovery.  When `bIgnoreAll` is set once the
configuration of the folder is loaded, the steps of `Scan()` before the childs
issue no call beyond that load: no directory walk and no `Scan()` on a mod.
After `Scan()` the mods map is the one the folder had, with every mod marked
`Removed` (none added); and the status of the folder after the aggregation
step is `Unchanged` when it tracked no mod and `Updated` when it tracked
some. -/
theorem Scan_ignore_all (h : Host) (f : FolderInformation) (n : Nat)
    (hig : (Scan.config h { folder := f, nextId := n, calls := [] }).folder.policy.bIgnoreAll
      = true) :
    (Scan.own h f n).calls = (Scan.config h { folder := f, nextId := n, calls := [] }).calls ∧
    (∀ p, ScanCall.FilesWalk p ∉ (Scan.own h f n).calls) ∧
    (∀ k, ScanCall.ModScan k ∉ (Scan.own h f n).calls) ∧
    (f.Scan h n).folder.mods = MarkStatus f.mods Status.Removed ∧
    (Scan.own h f n).folder.status =
      (if f.mods = [] then Status.Unchanged else Status.Updated) := by
  obtain ⟨hcalls, hmods, hstatus⟩ := Scan_own_of_ignore_all h f n hig
  have hcfg : ∀ c ∈ (Scan.config h { folder := f, nextId := n, calls := [] }).calls,
      c = ScanCall.LoadConfigFromINI f.path := by
    intro c hc
    unfold Scan.config at hc
    split at hc
    · simpa using hc
    · simp at hc
  refine ⟨hcalls, ?_, ?_, ?_, ?_⟩
  · intro p hp
    rw [hcalls] at hp
    exact ScanCall.noConfusion (hcfg _ hp)
  · intro k hk
    rw [hcalls] at hk
    exact ScanCall.noConfusion (hcfg _ hk)
  · rw [Scan_folder_mods, hmods]
  · rw [hstatus, UpdateStatus_MarkStatus_Removed]

/-- C27, at the folder `modloader` that tracks the mod `gone`, with
`bIgnoreAll` set, under a host whose walk would report sub-directories. -/
theorem Scan_ignore_all_witness :
    (Scan.config ignoringHost
      { folder := trackedFolder.SetIgnoreAll true, nextId := 1,
        calls := [] }).folder.policy.bIgnoreAll = true ∧
    (Scan.own ignoringHost (trackedFolder.SetIgnoreAll true) 1).calls = [] ∧
    ((trackedFolder.SetIgnoreAll true).Scan ignoringHost 1).folder.mods =
      [("gone", { name := "gone", id := 0, priority := 50, status := Status.Removed })] ∧
    (Scan.own ignoringHost (trackedFolder.SetIgnoreAll true) 1).folder.status =
      Status.Updated ∧
    (∀ p, ScanCall.FilesWalk p ∉ (Scan.own ignoringHost (trackedFolder.SetIgnoreAll true) 1).calls) :=
  ⟨by decide, by decide, by decide, by decide,
    (Scan_ignore_all ignoringHost (trackedFolder.SetIgnoreAll true) 1 (by decide)).2.1⟩

/-! ## `GetAll` -/

mutual
theorem GetAll_length : ∀ f : FolderInformation, f.GetAll.length = nodeCount f
  | .mk p s pol m c => by
    rw [FolderInformation.GetAll, nodeCount, List.length_cons, GetAllChilds_length c]
    omega
theorem GetAllChilds_length :
    ∀ c : List FolderInformation, (FolderInformation.GetAllChilds c).length = nodeCountChilds c
  | [] => by rw [FolderInformation.GetAllChilds, nodeCountChilds]; rfl
  | x :: xs => by
    rw [FolderInformation.GetAllChilds, nodeCountChilds, List.length_append, GetAll_length x,
      GetAllChilds_length xs]
end

theorem GetAll_eq (f : FolderInformation) :
    f.GetAll = f :: FolderInformation.GetAllChilds f.childs := by
  cases f with
  | mk p s pol m c => rw [FolderInformation.GetAll]; rfl

theorem GetAllChilds_mem_of_mem (cs : List FolderInformation) (c g : FolderInformation)
    (hc : c ∈ cs) (hg : g ∈ c.GetAll) : g ∈ FolderInformation.GetAllChilds cs := by
  induction cs with
  | nil => exact absurd hc (List.not_mem_nil c)
  | cons x xs ih =>
    rw [FolderInformation.GetAllChilds]
    rcases List.mem_cons.mp hc with hx | hxs
    · rw [← hx]; exact List.mem_append_left _ hg
    · exact List.mem_append_right _ (ih hxs)

theorem GetAll_mem_of_InSubtree (f g : FolderInformation) (hs : InSubtree g f) :
    g ∈ f.GetAll := by
  induction hs with
  | self => rw [GetAll_eq]; exact List.mem_cons_self _ _
  | child c f hc _ ih =>
    rw [GetAll_eq]
    exact List.mem_cons_of_mem _ (GetAllChilds_mem_of_mem f.childs c _ hc ih)

mutual
theorem InSubtree_of_GetAll_mem :
    ∀ (f g : FolderInformation), g ∈ f.GetAll → InSubtree g f
  | .mk p s pol m c, g, hg => by
    rw [FolderInformation.GetAll] at hg
    rcases List.mem_cons.mp hg with hself | hsub
    · rw [hself]; exact InSubtree.self _
    · obtain ⟨x, hx, hxg⟩ := InSubtree_of_GetAllChilds_mem c g hsub
      exact InSubtree.child g x _ hx hxg
theorem InSubtree_of_GetAllChilds_mem :
    ∀ (cs : List FolderInformation) (g : FolderInformation),
      g ∈ FolderInformation.GetAllChilds cs → ∃ x ∈ cs, InSubtree g x
  | [], g, hg => by
    rw [FolderInformation.GetAllChilds] at hg
    exact absurd hg (List.not_mem_nil g)
  | x :: xs, g, hg => by
    rw [FolderInformation.GetAllChilds] at hg
    rcases List.mem_append.mp hg with hx | hxs
    · exact ⟨x, List.mem_cons_self _ _, InSubtree_of_GetAll_mem x g hx⟩
    · obtain ⟨y, hy, hyg⟩ := InSubtree_of_GetAllChilds_mem xs g hxs
      exact ⟨y, List.mem_cons_of_mem _ hy, hyg⟩
end

mutual
theorem GetAll_block :
    ∀ (f : FolderInformation) (i : Nat) (g : FolderInformation), f.GetAll[i]? = some g →
      ∃ pre post, f.GetAll = pre ++ g.GetAll ++ post ∧ pre.length = i
  | .mk p s pol m c, i, g, hg => by
    rw [FolderInformation.GetAll] at hg
    cases i with
    | zero =>
      have hgf : FolderInformation.mk p s pol m c = g := by simpa using hg
      exact ⟨[], [], by rw [← hgf]; simp, rfl⟩
    | succ j =>
      rw [List.getElem?_cons_succ] at hg
      obtain ⟨pre, post, heq, hlen⟩ := GetAllChilds_block c j g hg
      refine ⟨FolderInformation.mk p s pol m c :: pre, post, ?_, by rw [List.length_cons, hlen]⟩
      rw [FolderInformation.GetAll, heq]
      simp
theorem GetAllChilds_block :
    ∀ (cs : List FolderInformation) (i : Nat) (g : FolderInformation),
      (FolderInformation.GetAllChilds cs)[i]? = some g →
      ∃ pre post, FolderInformation.GetAllChilds cs = pre ++ g.GetAll ++ post ∧ pre.length = i
  | [], i, g, hg => by
    rw [FolderInformation.GetAllChilds] at hg
    simp at hg
  | x :: xs, i, g, hg => by
    rw [FolderInformation.GetAllChilds] at hg
    by_cases hi : i < x.GetAll.length
    · rw [List.getElem?_append_left hi] at hg
      obtain ⟨pre, post, heq, hlen⟩ := GetAll_block x i g hg
      refine ⟨pre, post ++ FolderInformation.GetAllChilds xs, ?_, hlen⟩
      rw [FolderInformation.GetAllChilds, heq]
      simp
    · rw [List.getElem?_append_right (Nat.le_of_not_lt hi)] at hg
      obtain ⟨pre, post, heq, hlen⟩ := GetAllChilds_block xs (i - x.GetAll.length) g hg
      refine ⟨x.GetAll ++ pre, post, ?_, ?_⟩
      · rw [FolderInformation.GetAllChilds, heq]
        simp
      · rw [List.length_append, hlen]
        omega
end

/-- C29. `GetAll` enumerates the subtree in pre-order.  The list that `GetAll()`
returns starts with the folder itself; it has as many elements as the subtree
has folder nodes; its elements are exactly the nodes of the subtree (the folder
and its descendants); and wherever a node `g` stands in it, the list goes on
from there with the whole of `g.GetAll()`, that is with `g` followed by all of
its own descendants. -/
theorem GetAll_preorder (f : FolderInformation) :
    f.GetAll.head? = some f ∧
    f.GetAll.length = nodeCount f ∧
    (∀ g, g ∈ f.GetAll ↔ InSubtree g f) ∧
    (∀ (i : Nat) (g : FolderInformation), f.GetAll[i]? = some g →
      ∃ pre post, f.GetAll = pre ++ g.GetAll ++ post ∧ pre.length = i ∧
        g.GetAll.head? = some g ∧ g.GetAll.length = nodeCount g) := by
  refine ⟨by rw [GetAll_eq]; rfl, GetAll_length f,
    fun g => ⟨InSubtree_of_GetAll_mem f g, GetAll_mem_of_InSubtree f g⟩, ?_⟩
  intro i g hg
  obtain ⟨pre, post, heq, hlen⟩ := GetAll_block f i g hg
  exact ⟨pre, post, heq, hlen, by rw [GetAll_eq]; rfl, GetAll_length g⟩

/-- C29, at the folder `modloader` with its two child folders: the list has
three elements, the folder first, then `modloader/sub`, then
`modloader/sub2`. -/
theorem GetAll_preorder_witness :
    plainFolder.GetAll.map FolderInformation.path =
      ["modloader", "modloader/sub", "modloader/sub2"] ∧
    nodeCount plainFolder = 3 ∧
    plainFolder.GetAll.head? = some plainFolder ∧
    plainFolder.GetAll.length = nodeCount plainFolder :=
  ⟨by decide, by decide, (GetAll_preorder plainFolder).1, (GetAll_preorder plainFolder).2.1⟩

/-! ## Well-marked trees -/

theorem WellMarked_eq (f : FolderInformation) :
    WellMarked f = (markedAt f.status f.mods f.childs && WellMarkedChilds f.childs) := by
  cases f with
  | mk p s pol m c => rw [WellMarked]; rfl

theorem AllUnchanged_eq (f : FolderInformation) :
    AllUnchanged f =
      (decide (f.status = Status.Unchanged) &&
        f.mods.all (fun e => decide (e.2.status = Status.Unchanged)) &&
        AllUnchangedChilds f.childs) := by
  cases f with
  | mk p s pol m c => rw [AllUnchanged]; rfl

theorem markedAt_iff (s : Status) (m : List (String × ModInformation))
    (c : List FolderInformation) :
    markedAt s m c = true ↔
      (∀ x ∈ c, x.status ≠ Status.Unchanged → s ≠ Status.Unchanged) ∧
      (∀ e ∈ m, e.2.status ≠ Status.Unchanged → s ≠ Status.Unchanged) := by
  unfold markedAt
  simp only [Bool.and_eq_true, List.all_eq_true, decide_eq_true_eq]

theorem markedAt_of_changed (s : Status) (m : List (String × ModInformation))
    (c : List FolderInformation) (hs : s ≠ Status.Unchanged) : markedAt s m c = true :=
  (markedAt_iff s m c).mpr ⟨fun _ _ _ => hs, fun _ _ _ => hs⟩

theorem WellMarkedChilds_iff (c : List FolderInformation) :
    WellMarkedChilds c = true ↔ ∀ x ∈ c, WellMarked x = true := by
  induction c with
  | nil => simp [WellMarkedChilds]
  | cons y ys ih => simp [WellMarkedChilds, ih]

theorem AllUnchangedChilds_iff (c : List FolderInformation) :
    AllUnchangedChilds c = true ↔ ∀ x ∈ c, AllUnchanged x = true := by
  induction c with
  | nil => simp [AllUnchangedChilds]
  | cons y ys ih => simp [AllUnchangedChilds, ih]

mutual
theorem Scan_WellMarked (h : Host) :
    ∀ (f : FolderInformation) (n : Nat), WellMarked f = true →
      WellMarked (f.Scan h n).folder = true
  | .mk p s pol m c, n, hw => by
    have hwc : WellMarkedChilds c = true := by
      rw [WellMarked, Bool.and_eq_true] at hw
      exact hw.2
    by_cases hr : (Scan.own h (.mk p s pol m c) n).folder.status = Status.Removed
    · rw [Scan_of_removed h _ n hr, WellMarked_eq, Scan_own_childs, Bool.and_eq_true]
      exact ⟨markedAt_of_changed _ _ _ (by rw [hr]; decide), hwc⟩
    · rw [Scan_of_not_removed h _ n hr, WellMarked, Bool.and_eq_true]
      refine ⟨?_, Scan_WellMarkedChilds h c _ _ hwc⟩
      rw [markedAt_iff]
      constructor
      · intro x hx hxs
        have hst := ScanChilds_status_eq h (FolderInformation.mk p s pol m c).childs
          (Scan.own h (.mk p s pol m c) n).folder.status
          (Scan.own h (.mk p s pol m c) n).nextId
        have hany : (FolderInformation.ScanChilds h (FolderInformation.mk p s pol m c).childs
            (Scan.own h (.mk p s pol m c) n).folder.status
            (Scan.own h (.mk p s pol m c) n).nextId).childs.any
              (fun x => decide (x.status ≠ Status.Unchanged)) = true :=
          List.any_eq_true.mpr ⟨x, hx, by simpa using hxs⟩
        rw [hst]
        by_cases hu : (Scan.own h (.mk p s pol m c) n).folder.status = Status.Unchanged
        · rw [if_pos ⟨hu, hany⟩]; decide
        · rw [if_neg (fun hc => hu hc.1)]; exact hu
      · intro e he hes
        obtain ⟨fine, hfine⟩ := Scan_own_status h (.mk p s pol m c) n
        have hchg : (Scan.own h (.mk p s pol m c) n).folder.status ≠ Status.Unchanged := by
          rw [hfine]
          rcases UpdateStatus_of_changed_mod _ fine e he hes with h1 | h1 <;>
            (rw [h1]; decide)
        rcases ScanChilds_status h (FolderInformation.mk p s pol m c).childs
          (Scan.own h (.mk p s pol m c) n).folder.status
          (Scan.own h (.mk p s pol m c) n).nextId with h1 | h1
        · rw [h1]; exact hchg
        · exact absurd h1.1 hchg
theorem Scan_WellMarkedChilds (h : Host) :
    ∀ (cs : List FolderInformation) (st : Status) (n : Nat), WellMarkedChilds cs = true →
      WellMarkedChilds (FolderInformation.ScanChilds h cs st n).childs = true
  | [], st, n, _ => by
    rw [FolderInformation.ScanChilds]
    rfl
  | x :: xs, st, n, hw => by
    rw [WellMarkedChilds, Bool.and_eq_true] at hw
    rw [FolderInformation.ScanChilds]
    simp only [WellMarkedChilds, Bool.and_eq_true]
    exact ⟨Scan_WellMarked h x n hw.1, Scan_WellMarkedChilds h xs _ _ hw.2⟩
end

mutual
theorem AllUnchanged_of_WellMarked :
    ∀ f : FolderInformation, WellMarked f = true → f.status = Status.Unchanged →
      AllUnchanged f = true
  | .mk p s pol m c, hw, hs => by
    rw [WellMarked, Bool.and_eq_true, markedAt_iff] at hw
    have hs1 : s = Status.Unchanged := hs
    rw [AllUnchanged]
    simp only [Bool.and_eq_true, decide_eq_true_eq, List.all_eq_true]
    refine ⟨⟨hs1, ?_⟩, ?_⟩
    · intro e he
      by_contra hne
      exact hw.1.2 e he hne hs1
    · apply AllUnchangedChilds_of_WellMarked c hw.2
      intro x hx
      by_contra hne
      exact hw.1.1 x hx hne hs1
theorem AllUnchangedChilds_of_WellMarked :
    ∀ cs : List FolderInformation, WellMarkedChilds cs = true →
      (∀ x ∈ cs, x.status = Status.Unchanged) → AllUnchangedChilds cs = true
  | [], _, _ => by rw [AllUnchangedChilds]
  | x :: xs, hw, hs => by
    rw [WellMarkedChilds, Bool.and_eq_true] at hw
    rw [AllUnchangedChilds, Bool.and_eq_true]
    exact ⟨AllUnchanged_of_WellMarked x hw.1 (hs x (List.mem_cons_self _ _)),
      AllUnchangedChilds_of_WellMarked xs hw.2 (fun y hy => hs y (List.mem_cons_of_mem _ hy))⟩
end

theorem WellMarked_of_InSubtree (f g : FolderInformation) (hs : InSubtree g f)
    (hw : WellMarked f = true) : WellMarked g = true := by
  induction hs with
  | self => exact hw
  | child c f hc _ ih =>
    apply ih
    rw [WellMarked_eq, Bool.and_eq_true] at hw
    exact (WellMarkedChilds_iff f.childs).mp hw.2 c hc

/-- C28. Changed nodes are reachable by update.  A tree is well-marked when, at
every node, a child folder that is not `Unchanged` has a parent that is not
`Unchanged`, and a folder with a direct mod that is not `Unchanged` is itself
not `Unchanged`.  The tree that `Scan()` on the root of a well-marked tree
returns is well-marked; hence at every node `g` of it whose status is
`Unchanged`, where `Update()` returns at once, nothing in the subtree of `g`
needs work: all its folders and mods are `Unchanged`. -/
theorem Scan_keeps_well_marked (h : Host) (f : FolderInformation) (n : Nat)
    (hw : WellMarked f = true) :
    WellMarked (f.Scan h n).folder = true ∧
    ∀ g, InSubtree g (f.Scan h n).folder → g.status = Status.Unchanged →
      AllUnchanged g = true := by
  have hres := Scan_WellMarked h f n hw
  refine ⟨hres, ?_⟩
  intro g hg hs
  exact AllUnchanged_of_WellMarked g (WellMarked_of_InSubtree _ g hg hres) hs

/-- C28, at the folder `modloader` with the mod `gone` and a child folder, all
up to date, scanned when the mod is gone and the walk of the child fails. -/
theorem Scan_keeps_well_marked_witness :
    WellMarked trackedFolder = true ∧
    (trackedFolder.Scan goneHost 1).folder.status = Status.Updated ∧
    WellMarked (trackedFolder.Scan goneHost 1).folder = true :=
  ⟨by decide, by decide, (Scan_keeps_well_marked goneHost trackedFolder 1 (by decide)).1⟩

end Loader

namespace datalib

/-! ## `data_slice`: equality -/

/-- C26, at a failing input.  A default-constructed slice of two integers holds
no scanned value: its count is 0 and no bit of `used` is set.  Compared with
itself by `operator==` it is found different: `precompare_data` succeeds, and
`compare_data`, which starts from the result `false` and turns it to `true` only
at an element used on both sides, never meets one.  A slice that holds the two
scanned values 5 and 7 does equal itself. -/
theorem operator_eq_empty_slice :
    (data_slice.construct pairTypes).count = 0 ∧
    (data_slice.construct pairTypes).used = [false, false] ∧
    precompare_data pairTypes (data_slice.construct pairTypes)
      (data_slice.construct pairTypes) = true ∧
    compare_data pairTypes (data_slice.construct pairTypes)
      (data_slice.construct pairTypes) = false ∧
    (data_slice.construct pairTypes).operator_eq pairTypes (data_slice.construct pairTypes)
      = false ∧
    ((data_slice.construct pairTypes).set pairTypes [some 5, some 7]).1.operator_eq pairTypes
      ((data_slice.construct pairTypes).set pairTypes [some 5, some 7]).1 = true := by
  decide

/-! ## `data_slice`: the counter invariant -/

theorem count_set_true (l : List Bool) (k : Nat) (h1 : l.getD k false = false)
    (h2 : k < l.length) : (l.set k true).count true = l.count true + 1 := by
  induction l generalizing k with
  | nil => simp at h2
  | cons a as ih =>
    cases k with
    | zero =>
      simp at h1
      simp [h1]
    | succ j =>
      simp at h1 h2
      simp [List.count_cons, ih j (by simpa using h1) h2]
      omega

theorem count_true_replicate_false (n : Nat) : (List.replicate n false).count true = 0 := by
  induction n with
  | zero => rfl
  | succ k ih => rw [List.replicate_succ, List.count_cons, ih]; rfl

theorem foreach_check_self (t : slice_types) (l : List Nat) (sc : scany_to_tuple) :
    (foreach_index (scany_to_tuple.call t true) l sc).self = sc.self := by
  have hcall : ∀ N (s : scany_to_tuple), (scany_to_tuple.call t true N s).1.self = s.self := by
    intro N s
    unfold scany_to_tuple.call
    split
    · rfl
    · split <;> rfl
  induction l generalizing sc with
  | nil => rfl
  | cons N rest ih =>
    unfold foreach_index
    split
    · rw [ih, hcall]
    · exact hcall N sc

theorem foreach_scan_counter (t : slice_types) (size len k : Nat) (sc : scany_to_tuple)
    (hcount : sc.self.used.count true = sc.counter)
    (hclear : ∀ i, k ≤ i → sc.self.used.getD i false = false)
    (hlen : sc.self.used.length = size) (hk : k + len ≤ size) :
    (foreach_index (scany_to_tuple.call t false) (List.range' k len) sc).self.used.count true =
      (foreach_index (scany_to_tuple.call t false) (List.range' k len) sc).counter := by
  induction len generalizing k sc with
  | zero => exact hcount
  | succ n ih =>
    have hstep : (scany_to_tuple.call t false k sc).1.self.used.count true =
          (scany_to_tuple.call t false k sc).1.counter ∧
        (∀ i, k + 1 ≤ i → (scany_to_tuple.call t false k sc).1.self.used.getD i false = false) ∧
        (scany_to_tuple.call t false k sc).1.self.used.length = size := by
      unfold scany_to_tuple.call
      split
      · exact ⟨hcount, fun i hi => hclear i (by omega), hlen⟩
      · split
        · refine ⟨?_, ?_, ?_⟩
          · simp only [Bool.false_eq_true, if_false]
            rw [count_set_true _ _ (hclear k (le_refl k)) (by omega), hcount]
          · intro i hi
            simp only [Bool.false_eq_true, if_false]
            rw [List.getD_eq_getElem?_getD, List.getElem?_set_ne (by omega),
              ← List.getD_eq_getElem?_getD]
            exact hclear i (by omega)
          · simp only [Bool.false_eq_true, if_false, List.length_set]
            exact hlen
        · exact ⟨hcount, fun i hi => hclear i (by omega), hlen⟩
    rw [List.range'_succ]
    unfold foreach_index
    split
    · exact ih (k + 1) _ hstep.1 hstep.2.1 hstep.2.2 (by omega)
    · exact hstep.1

/-- The operations that keep the counter right: for a slice `x` whose counter is
right and whose bitset has the size of the tuple, the invariant holds for a
default-constructed slice, after `set` and `check`, for both objects of a copy
construction and of a copy assignment, and for the destination of a move
construction and of a move assignment. -/
theorem counter_ok_kept (t : slice_types) (x y : data_slice) (line : List (Option Int))
    (hx : x.counter_ok = true) (hlen : x.used.length = t.tuple_size) :
    (data_slice.construct t).counter_ok = true ∧
    (x.set t line).1.counter_ok = true ∧
    (x.check t line).1.counter_ok = true ∧
    x.copy_construct.1.counter_ok = true ∧ x.copy_construct.2.counter_ok = true ∧
    (y.copy_assign x).1.counter_ok = true ∧ (y.copy_assign x).2.counter_ok = true ∧
    x.move_construct.1.counter_ok = true ∧ (y.move_assign x).1.counter_ok = true := by
  have hx1 : x.used_count = x.used.count true := by simpa [data_slice.counter_ok] using hx
  refine ⟨?_, ?_, ?_, ?_, hx, ?_, hx, ?_, ?_⟩
  · simp [data_slice.counter_ok, data_slice.construct, count_true_replicate_false]
  · simp only [data_slice.counter_ok, data_slice.set, data_slice.scan_to_tuple,
      decide_eq_true_eq]
    rw [List.range_eq_range']
    exact (foreach_scan_counter t t.tuple_size t.tuple_size 0 _
      (by simp [count_true_replicate_false])
      (by
        intro i _
        simp [List.getD_eq_getElem?_getD, List.getElem?_map])
      (by simpa using hlen) (by omega)).symm
  · simp only [data_slice.check, data_slice.check_on_tuple, foreach_check_self]
    exact hx
  · simpa [data_slice.counter_ok, data_slice.copy_construct] using hx1
  · simpa [data_slice.counter_ok, data_slice.copy_assign] using hx1
  · simpa [data_slice.counter_ok, data_slice.move_construct] using hx1
  · simpa [data_slice.counter_ok, data_slice.move_assign] using hx1

/-- C30, at a failing input.  A slice of two integers is set from a line with
the values 5 and 7: both bits are set and the counter is 2.  After the move
construction of another slice from it, and likewise after a move assignment,
the destination has the two bits and the counter 2, while the source still has
its two bits set and the counter 0: the invariant is broken for the source. -/
theorem move_breaks_counter_of_source :
    ((data_slice.construct pairTypes).set pairTypes [some 5, some 7]).1 =
      { tuple := [5, 7], used := [true, true], used_count := 2 } ∧
    ((data_slice.construct pairTypes).set pairTypes [some 5, some 7]).1.counter_ok = true ∧
    ((data_slice.construct pairTypes).set pairTypes
        [some 5, some 7]).1.move_construct.1.counter_ok = true ∧
    ((data_slice.construct pairTypes).set pairTypes [some 5, some 7]).1.move_construct.2 =
      { tuple := [5, 7], used := [true, true], used_count := 0 } ∧
    ((data_slice.construct pairTypes).set pairTypes
        [some 5, some 7]).1.move_construct.2.counter_ok = false ∧
    ((data_slice.construct pairTypes).move_assign
        ((data_slice.construct pairTypes).set pairTypes [some 5, some 7]).1).2.counter_ok
      = false := by
  decide

end datalib
